import Mathlib

/-!
Relation buckets of the Matrix SDK (`lib/models/relations.js`)

A shallow embedding of the `Relations` container: the member set, the
annotation groupings, the last-replacement fold and the listeners the
container attaches to its events.

Conventions of the embedding.

* A JavaScript `Set` is a duplicate-free list in insertion order
  (`setAdd`, `setDelete`).
* A JavaScript object used as a dictionary is a function from its string
  keys to the optional values of its own properties. A look-up under a name
  that `Object.prototype` defines (such as `constructor`) finds the
  inherited value: no own property is ever created under such a name, and
  the method that calls `add` or `delete` on the value found throws.
* A `MatrixEvent` is a record of what its getters return; the getters return
  the same values for the lifetime of the bucket. The send status, which
  changes, is kept in the state.
* Every `emit` and every `makeReplaced` call is recorded in the list of
  `Emitted` values an operation returns next to the new state.
* The `async` methods are run to completion, one call after the other: the
  awaited decryption of `getLastReplacement` does not change the value it
  returns and is taken to succeed.
* Timestamps are milliseconds since the epoch, natural numbers.
-/

namespace Relations

/-- The `rel_type` of annotations (reactions). -/
def relTypeAnnotation : String := "m.annotation"

/-- The `rel_type` of replacements (edits). -/
def relTypeReplace : String := "m.replace"

/-- The relation descriptor `event.getRelation()`: `rel_type` and the optional `key`. -/
structure RelationInfo where
  rel_type : String
  key : Option String
  deriving DecidableEq, Repr

/-- A `MatrixEvent` object. `ref` stands for the identity of the JavaScript object, so two
objects with equal contents stay distinguishable; the other fields are what the getters
`getId`, `getType`, `getSender`, `getTs`, `getRelation` return, and `serverReplaceTs` is
`origin_server_ts` of `getServerAggregatedRelation("m.replace")` when the event carries one. -/
structure MatrixEvent where
  ref : Nat
  id : String
  type : String
  sender : String
  ts : Nat
  relation : Option RelationInfo
  serverReplaceTs : Option Nat
  deriving DecidableEq, Repr

/-- The local send status of an event (`EventStatus`). -/
inductive EventStatus where
  | NOT_SENT
  | SENDING
  | SENT
  | CANCELLED
  deriving DecidableEq, Repr

/-- Modelled from the spec: `MatrixEvent.isSending` (models/event.js is not among the sources).
An event is being sent while it carries a local send status; the status is `null` (`none`)
for an event that came from the server. -/
def isSending (status : Option EventStatus) : Bool := status.isSome

/-- What a bucket operation makes observable: the notifications of the bucket, the
`makeReplaced` calls on the target event, the target's `Event.relationsCreated`, and the
`TypeError` a method ends with instead of returning (the promise of an `async` method is then
rejected). -/
inductive Emitted where
  | relationsAdd (event : MatrixEvent)
  | relationsRemove (event : MatrixEvent)
  | relationsRedaction (event : MatrixEvent)
  | makeReplaced (target : MatrixEvent) (replacement : Option MatrixEvent)
  | relationsCreated (target : MatrixEvent) (relationType eventType : String)
  | typeError (message : String)
  deriving DecidableEq, Repr

/-- The names of the properties every object inherits from `Object.prototype`. -/
def objectPrototypeProperties : List String :=
  ["constructor", "__defineGetter__", "__defineSetter__", "hasOwnProperty",
   "__lookupGetter__", "__lookupSetter__", "isPrototypeOf", "propertyIsEnumerable",
   "toString", "valueOf", "__proto__", "toLocaleString"]

/-- Whether a look-up `dictionary[name]` on a plain object finds an inherited property. The
value found is a function (an object for `__proto__`): it passes a test for truth and has
neither an `add` nor a `delete` method. -/
def isInherited (name : String) : Bool := decide (name ∈ objectPrototypeProperties)

/-- `Set.prototype.add`: appends the value unless it is already in the set. -/
def setAdd {α : Type} [DecidableEq α] (s : List α) (a : α) : List α :=
  if a ∈ s then s else s ++ [a]

/-- `Set.prototype.delete`. -/
def setDelete {α : Type} [DecidableEq α] (s : List α) (a : α) : List α :=
  s.filter (fun b => decide (b ≠ a))

/-- The state of one `Relations` container, followed by the part of its events' state the
container reads and writes: their send status and the places where the container's two
listeners are attached (one entry per `event.on` call). -/
structure Bucket where
  relationType : String
  eventType : String
  relationEventIds : List String
  relations : List MatrixEvent
  annotationsByKey : String → Option (List MatrixEvent)
  annotationsBySender : String → Option (List MatrixEvent)
  /-- The array of `[key, events]` pairs; a pair shares its `Set` with `annotationsByKey[key]`,
  so the array is kept as the keys and the sets are read through `annotationsByKey`. -/
  sortedAnnotationsByKey : List String
  targetEvent : Option MatrixEvent
  creationEmitted : Bool
  eventStatus : MatrixEvent → Option EventStatus
  statusListeners : List MatrixEvent
  redactionListeners : List MatrixEvent

/-- The constructor: `new Relations(relationType, eventType, room)`. -/
def Bucket.create (relationType eventType : String) : Bucket where
  relationType := relationType
  eventType := eventType
  relationEventIds := []
  relations := []
  annotationsByKey := fun _ => none
  annotationsBySender := fun _ => none
  sortedAnnotationsByKey := []
  targetEvent := none
  creationEmitted := false
  eventStatus := fun _ => none
  statusListeners := []
  redactionListeners := []

/-- The `size` of the set a pair of the sorted array holds. -/
def pairSize (byKey : String → Option (List MatrixEvent)) (key : String) : Nat :=
  match byKey key with
  | some events => events.length
  | none => 0

/-- The comparator `(a, b) => b[1].size - a[1].size` puts `a` before `b` when it is not
positive. -/
def sizeDescending (byKey : String → Option (List MatrixEvent)) (a b : String) : Prop :=
  pairSize byKey b ≤ pairSize byKey a

instance (byKey : String → Option (List MatrixEvent)) : DecidableRel (sizeDescending byKey) :=
  fun a b => inferInstanceAs (Decidable (pairSize byKey b ≤ pairSize byKey a))

/-- `Array.prototype.sort` with the comparator above: a stable sort. -/
def sortPairs (byKey : String → Option (List MatrixEvent)) (pairs : List String) : List String :=
  pairs.insertionSort (sizeDescending byKey)

/-- `getRelations()`: the members in insertion order. -/
def getRelations (s : Bucket) : List MatrixEvent := s.relations

/-- The key the aggregation methods work with: `event.getRelation().key` when it passes the
test `if (!key) return`, that is, when it is present and not the empty string. Both methods
are reached for events with a relation only. -/
def keyOf (event : MatrixEvent) : Option String :=
  match event.relation with
  | some relation =>
    match relation.key with
    | some key => if key = "" then none else some key
    | none => none
  | none => none

/-- `addAnnotationToAggregation(event)`: the state the method leaves, and the `TypeError` it
throws when `this.annotationsByKey[key]` or `this.annotationsBySender[sender]` finds an
inherited property, on which it then calls `add`. What was written before the throw stays. -/
def addAnnotationToAggregation (s : Bucket) (event : MatrixEvent) : Bucket × Option String :=
  match keyOf event with
  | none => (s, none)
  | some key =>
    if isInherited key then (s, some "TypeError: eventsForKey.add is not a function")
    else
      let s1 : Bucket :=
        match s.annotationsByKey key with
        | some _ => s
        | none =>
          { s with
            annotationsByKey := Function.update s.annotationsByKey key (some [])
            sortedAnnotationsByKey := s.sortedAnnotationsByKey ++ [key] }
      let eventsForKey := (s1.annotationsByKey key).getD []
      let byKey := Function.update s1.annotationsByKey key (some (setAdd eventsForKey event))
      let s2 : Bucket :=
        { s1 with
          annotationsByKey := byKey
          sortedAnnotationsByKey := sortPairs byKey s1.sortedAnnotationsByKey }
      if isInherited event.sender then
        (s2, some "TypeError: eventsFromSender.add is not a function")
      else
        let eventsFromSender := (s2.annotationsBySender event.sender).getD []
        ({ s2 with
            annotationsBySender :=
              Function.update s2.annotationsBySender event.sender
                (some (setAdd eventsFromSender event)) },
          none)

/-- `removeAnnotationFromAggregation(event)`: the state the method leaves, and the `TypeError`
it throws when a look-up finds an inherited property, on which it then calls `delete`. -/
def removeAnnotationFromAggregation (s : Bucket) (event : MatrixEvent) :
    Bucket × Option String :=
  match keyOf event with
  | none => (s, none)
  | some key =>
    if isInherited key then (s, some "TypeError: eventsForKey.delete is not a function")
    else
      let s1 : Bucket :=
        match s.annotationsByKey key with
        | some eventsForKey =>
          let byKey :=
            Function.update s.annotationsByKey key (some (setDelete eventsForKey event))
          { s with
            annotationsByKey := byKey
            sortedAnnotationsByKey := sortPairs byKey s.sortedAnnotationsByKey }
        | none => s
      if isInherited event.sender then
        (s1, some "TypeError: eventsFromSender.delete is not a function")
      else
        match s1.annotationsBySender event.sender with
        | some eventsFromSender =>
          ({ s1 with
              annotationsBySender :=
                Function.update s1.annotationsBySender event.sender
                  (some (setDelete eventsFromSender event)) },
            none)
        | none => (s1, none)

/-- `getSortedAnnotationsByKey()`: `null` unless the bucket holds annotations. -/
def getSortedAnnotationsByKey (s : Bucket) : Option (List (String × List MatrixEvent)) :=
  if s.relationType ≠ relTypeAnnotation then none
  else some (s.sortedAnnotationsByKey.map (fun key => (key, (s.annotationsByKey key).getD [])))

/-- `getAnnotationsBySender()`: `null` unless the bucket holds annotations. -/
def getAnnotationsBySender (s : Bucket) : Option (String → Option (List MatrixEvent)) :=
  if s.relationType ≠ relTypeAnnotation then none else some s.annotationsBySender

/-- The callback of the `reduce` in `getLastReplacement`. -/
def replacementStep (target : MatrixEvent) (minTs : Option Nat)
    (last : Option MatrixEvent) (event : MatrixEvent) : Option MatrixEvent :=
  if event.sender ≠ target.sender then last
  else if (match minTs with
      | some m => decide (m ≠ 0) && decide (m > event.ts)
      | none => false) then last
  else if (match last with
      | some l => decide (l.ts > event.ts)
      | none => false) then last
  else some event

/-- `getLastReplacement()`. -/
def getLastReplacement (s : Bucket) : Option MatrixEvent :=
  if s.relationType ≠ relTypeReplace then none
  else
    match s.targetEvent with
    | none => none
    | some target =>
      (getRelations s).foldl (replacementStep target target.serverReplaceTs) none

/-- `maybeEmitCreated()`. -/
def maybeEmitCreated (s : Bucket) : Bucket × List Emitted :=
  if s.creationEmitted then (s, [])
  else
    match s.targetEvent with
    | none => (s, [])
    | some target =>
      if s.relations.length = 0 then (s, [])
      else
        ({ s with creationEmitted := true },
          [Emitted.relationsCreated target s.relationType s.eventType])

/-- The branch `relationType === Replace && targetEvent` that `addEvent`, `removeEvent` and
`onBeforeRedaction` take after the member set has changed: the last replacement is computed
and handed to `makeReplaced` of the target. -/
def recomputeReplacement (s : Bucket) : List Emitted :=
  if s.relationType = relTypeReplace then
    match s.targetEvent with
    | some target => [Emitted.makeReplaced target (getLastReplacement s)]
    | none => []
  else []

/-- `addEvent(event)`. When the aggregation throws, the method ends there: the event and its
ID are recorded, and neither the redaction listener nor an `emit` follows. -/
def addEvent (s : Bucket) (event : MatrixEvent) : Bucket × List Emitted :=
  if event.id ∈ s.relationEventIds then (s, [])
  else
    match event.relation with
    | none => (s, [])
    | some relation =>
      if s.relationType ≠ relation.rel_type ∨ s.eventType ≠ event.type then (s, [])
      else
        let s1 : Bucket :=
          if isSending (s.eventStatus event) then
            { s with statusListeners := s.statusListeners ++ [event] }
          else s
        let s2 : Bucket :=
          { s1 with
            relations := setAdd s1.relations event
            relationEventIds := setAdd s1.relationEventIds event.id }
        let aggregated : Bucket × Option String :=
          if s2.relationType = relTypeAnnotation then addAnnotationToAggregation s2 event
          else (s2, none)
        match aggregated.2 with
        | some error => (aggregated.1, [Emitted.typeError error])
        | none =>
          let s3 : Bucket := aggregated.1
          let replaced : List Emitted :=
            if s2.relationType = relTypeAnnotation then [] else recomputeReplacement s2
          let s4 : Bucket := { s3 with redactionListeners := s3.redactionListeners ++ [event] }
          let created := maybeEmitCreated s4
          (created.1, replaced ++ [Emitted.relationsAdd event] ++ created.2)

/-- `removeEvent(event)`. When the aggregation throws, the member is deleted and
`Relations.remove` is not emitted. -/
def removeEvent (s : Bucket) (event : MatrixEvent) : Bucket × List Emitted :=
  if event ∉ s.relations then (s, [])
  else
    match event.relation with
    | none => (s, [])
    | some relation =>
      if s.relationType ≠ relation.rel_type ∨ s.eventType ≠ event.type then (s, [])
      else
        let s1 : Bucket := { s with relations := setDelete s.relations event }
        let aggregated : Bucket × Option String :=
          if s1.relationType = relTypeAnnotation then removeAnnotationFromAggregation s1 event
          else (s1, none)
        match aggregated.2 with
        | some error => (aggregated.1, [Emitted.typeError error])
        | none =>
          let replaced : List Emitted :=
            if s1.relationType = relTypeAnnotation then [] else recomputeReplacement s1
          (aggregated.1, replaced ++ [Emitted.relationsRemove event])

/-- `removeListener`: detaches one registration of the listener from the event. -/
def removeListener (listeners : List MatrixEvent) (event : MatrixEvent) : List MatrixEvent :=
  listeners.erase event

/-- The listener `onEventStatus(event, status)`; it does not await `removeEvent`. -/
def onEventStatus (s : Bucket) (event : MatrixEvent) (status : Option EventStatus) :
    Bucket × List Emitted :=
  if !isSending (s.eventStatus event) then
    ({ s with statusListeners := removeListener s.statusListeners event }, [])
  else if status ≠ some EventStatus.CANCELLED then (s, [])
  else removeEvent { s with statusListeners := removeListener s.statusListeners event } event

/-- The listener `onBeforeRedaction(redactedEvent)`. When the aggregation throws, the member
is deleted, the listener stays attached and `Relations.redaction` is not emitted. -/
def onBeforeRedaction (s : Bucket) (redactedEvent : MatrixEvent) : Bucket × List Emitted :=
  if redactedEvent ∉ s.relations then (s, [])
  else
    let s1 : Bucket := { s with relations := setDelete s.relations redactedEvent }
    let aggregated : Bucket × Option String :=
      if s1.relationType = relTypeAnnotation then
        removeAnnotationFromAggregation s1 redactedEvent
      else (s1, none)
    match aggregated.2 with
    | some error => (aggregated.1, [Emitted.typeError error])
    | none =>
      let s2 : Bucket := aggregated.1
      let replaced : List Emitted :=
        if s1.relationType = relTypeAnnotation then [] else recomputeReplacement s1
      ({ s2 with redactionListeners := removeListener s2.redactionListeners redactedEvent },
        replaced ++ [Emitted.relationsRedaction redactedEvent])

/-- `setTargetEvent(event)`. -/
def setTargetEvent (s : Bucket) (event : MatrixEvent) : Bucket × List Emitted :=
  match s.targetEvent with
  | some _ => (s, [])
  | none =>
    let s1 : Bucket := { s with targetEvent := some event }
    let replaced : List Emitted :=
      if s1.relationType = relTypeReplace then
        match getLastReplacement s1 with
        | some replacement => [Emitted.makeReplaced event (some replacement)]
        | none => []
      else []
    let created := maybeEmitCreated s1
    (created.1, replaced ++ created.2)

/-- Calls a listener once for each of its `count` registrations, as `emit` does. -/
def callListeners (listener : Bucket → Bucket × List Emitted) :
    Nat → Bucket → Bucket × List Emitted
  | 0, s => (s, [])
  | n + 1, s =>
    let first := listener s
    let rest := callListeners listener n first.1
    (rest.1, first.2 ++ rest.2)

/-- Modelled from the spec: the status-change notification of an event (`setStatus` of
models/event.js is not among the sources). The event takes the new status and emits
`Event.status`, which reaches `onEventStatus` once per registration on that event. -/
def setStatus (s : Bucket) (event : MatrixEvent) (status : Option EventStatus) :
    Bucket × List Emitted :=
  let s1 : Bucket := { s with eventStatus := Function.update s.eventStatus event status }
  callListeners (fun b => onEventStatus b event status) (s1.statusListeners.count event) s1

/-- Modelled from the spec: the event announces that it is about to be redacted (`makeRedacted`
of models/event.js is not among the sources): it emits `Event.beforeRedaction`, which reaches
`onBeforeRedaction` once per registration on that event. -/
def beforeRedaction (s : Bucket) (event : MatrixEvent) : Bucket × List Emitted :=
  callListeners (fun b => onBeforeRedaction b event) (s.redactionListeners.count event) s

/-- The operations a bucket takes part in. -/
inductive Op where
  | addEvent (event : MatrixEvent)
  | removeEvent (event : MatrixEvent)
  | setTargetEvent (event : MatrixEvent)
  | setStatus (event : MatrixEvent) (status : Option EventStatus)
  | beforeRedaction (event : MatrixEvent)
  deriving DecidableEq, Repr

/-- One operation on the bucket. -/
def step (s : Bucket) : Op → Bucket × List Emitted
  | Op.addEvent event => addEvent s event
  | Op.removeEvent event => removeEvent s event
  | Op.setTargetEvent event => setTargetEvent s event
  | Op.setStatus event status => setStatus s event status
  | Op.beforeRedaction event => beforeRedaction s event

/-- A sequence of operations, with everything emitted on the way, in order. -/
def run (s : Bucket) : List Op → Bucket × List Emitted
  | [] => (s, [])
  | op :: ops =>
    let first := step s op
    let rest := run first.1 ops
    (rest.1, first.2 ++ rest.2)

/-! ## Predicates of the statements and of the invariants -/

/-- Whether `addEvent` gets past its three guards: the ID is new to the bucket and the event
carries a relation of the bucket's relation type and event type. -/
def accepts (s : Bucket) (event : MatrixEvent) : Bool :=
  decide (event.id ∉ s.relationEventIds) &&
    match event.relation with
    | some relation => decide (s.relationType = relation.rel_type ∧ s.eventType = event.type)
    | none => false

/-- The two filters of the replacement fold, in the words of the specification: the event is
sent by the target's sender, and its timestamp is not below the server-declared replacement
timestamp of the target when the target carries one. -/
def passesFilters (target event : MatrixEvent) : Bool :=
  decide (event.sender = target.sender) &&
    match target.serverReplaceTs with
    | some m => decide (m ≤ event.ts)
    | none => true

/-- Whether an emitted value is the target's `Event.relationsCreated`. -/
def Emitted.isCreated : Emitted → Bool
  | Emitted.relationsCreated _ _ _ => true
  | _ => false

/-- Whether an emitted value is a `makeReplaced` call on the target. -/
def Emitted.isReplaced : Emitted → Bool
  | Emitted.makeReplaced _ _ => true
  | _ => false

/-- Whether an emitted value is a `TypeError`. -/
def Emitted.isError : Emitted → Bool
  | Emitted.typeError _ => true
  | _ => false

/-- The state `addEvent` has reached when it calls the aggregation: the status listener is
attached when the event is being sent, and the event and its ID are recorded. -/
def recorded (s : Bucket) (event : MatrixEvent) : Bucket :=
  let s1 : Bucket :=
    if isSending (s.eventStatus event) then
      { s with statusListeners := s.statusListeners ++ [event] }
    else s
  { s1 with
    relations := setAdd s1.relations event
    relationEventIds := setAdd s1.relationEventIds event.id }

/-- The state `removeEvent` and `onBeforeRedaction` have reached when they call the
aggregation: the member is deleted. -/
def unrecorded (s : Bucket) (event : MatrixEvent) : Bucket :=
  { s with relations := setDelete s.relations event }

/-- Whether the aggregation methods throw for the event: it has a key, and its key or its
sender names an inherited property. -/
def aggregationThrows (event : MatrixEvent) : Bool :=
  match keyOf event with
  | some key => isInherited key || isInherited event.sender
  | none => false

/-- Whether `addEvent`, `removeEvent` and `onBeforeRedaction` end in a `TypeError` for the
event once they reach the aggregation: the bucket holds annotations and the aggregation
throws. -/
def throwsFor (s : Bucket) (event : MatrixEvent) : Bool :=
  decide (s.relationType = relTypeAnnotation) && aggregationThrows event

/-- How many `Event.relationsCreated` a bucket may still emit. -/
def creationBudget (s : Bucket) : Nat := if s.creationEmitted then 0 else 1

/-- Every member carries a relation of the given relation type and has the given event type. -/
def MembersMatch (relationType eventType : String) (s : Bucket) : Prop :=
  s.relationType = relationType ∧ s.eventType = eventType ∧
    ∀ e ∈ s.relations, ∃ relation, e.relation = some relation ∧
      relation.rel_type = relationType ∧ e.type = eventType

/-- The consistency of the annotation structures with the member set, stated on the four
fields it reads: every member's ID is known, the sorted array lists exactly the keys that have
a set, no listed key is empty or names an inherited property, the set of a listed key holds
the members with that key in insertion order, every member's key that names no inherited
property is listed, and the array is sorted by descending set size. -/
def Consistent (relationEventIds : List String) (relations : List MatrixEvent)
    (byKey : String → Option (List MatrixEvent)) (sorted : List String) : Prop :=
  (∀ e ∈ relations, e.id ∈ relationEventIds) ∧
    (∀ k, byKey k ≠ none → k ∈ sorted) ∧
    (∀ k ∈ sorted, (k ≠ "" ∧ isInherited k = false) ∧
      byKey k = some (relations.filter (fun e => decide (keyOf e = some k)))) ∧
    (∀ e ∈ relations, ∀ k, keyOf e = some k → isInherited k = false → k ∈ sorted) ∧
    sorted.Sorted (sizeDescending byKey)

/-- The invariant of an annotation bucket. -/
def AnnotationInvariant (s : Bucket) : Prop :=
  s.relationType = relTypeAnnotation ∧
    Consistent s.relationEventIds s.relations s.annotationsByKey s.sortedAnnotationsByKey

/-- Bookkeeping for a bucket of annotations with two keys: the event type, the known IDs, the
members, the sets of the two keys and the array of sorted keys. -/
def Tracked (s : Bucket) (et : String) (ids : List String) (rel : List MatrixEvent)
    (k1 k2 : String) (v1 v2 : Option (List MatrixEvent)) (sorted : List String) : Prop :=
  s.relationType = relTypeAnnotation ∧ s.eventType = et ∧ s.relationEventIds = ids ∧
    s.relations = rel ∧ s.annotationsByKey k1 = v1 ∧ s.annotationsByKey k2 = v2 ∧
    s.sortedAnnotationsByKey = sorted

/-- Whether an operation leaves a sending member alone: it neither removes nor redacts it, and
a change of its status keeps a local status other than cancelled. -/
def leavesSending (event : MatrixEvent) : Op → Bool
  | Op.removeEvent x => decide (x ≠ event)
  | Op.beforeRedaction x => decide (x ≠ event)
  | Op.setStatus x status =>
    decide (x ≠ event) || (isSending status && decide (status ≠ some EventStatus.CANCELLED))
  | _ => true

/-- The event is a member the bucket still listens to. -/
def Listening (event : MatrixEvent) (s : Bucket) : Prop :=
  event ∈ s.relations ∧ event.id ∈ s.relationEventIds ∧ 1 ≤ s.statusListeners.count event ∧
    ∃ relation, event.relation = some relation ∧ s.relationType = relation.rel_type ∧
      s.eventType = event.type

/-- The event has left the bucket for good: it is no member, its ID stays known and the
bucket does not listen to it. -/
def Gone (event : MatrixEvent) (s : Bucket) : Prop :=
  event ∉ s.relations ∧ event.id ∈ s.relationEventIds ∧ s.statusListeners.count event = 0

/-! ## Sample inputs -/

/-- A reaction used in the examples. -/
def sampleReaction (ref : Nat) (id sender key : String) : MatrixEvent where
  ref := ref
  id := id
  type := "m.reaction"
  sender := sender
  ts := 1
  relation := some { rel_type := relTypeAnnotation, key := some key }
  serverReplaceTs := none

/-- Three reactions with the key `thumbsup` followed by five with the key `heart`. -/
def sampleReactions : List MatrixEvent :=
  [sampleReaction 1 "$a1" "@p:hs" "thumbsup", sampleReaction 2 "$a2" "@q:hs" "thumbsup",
   sampleReaction 3 "$a3" "@r:hs" "thumbsup", sampleReaction 4 "$b1" "@p:hs" "heart",
   sampleReaction 5 "$b2" "@q:hs" "heart", sampleReaction 6 "$b3" "@r:hs" "heart",
   sampleReaction 7 "$b4" "@s:hs" "heart", sampleReaction 8 "$b5" "@t:hs" "heart"]

/-- A message that can be the target of edits. -/
def sampleMessage (sender : String) (serverReplaceTs : Option Nat) : MatrixEvent where
  ref := 0
  id := "$m"
  type := "m.room.message"
  sender := sender
  ts := 1
  relation := none
  serverReplaceTs := serverReplaceTs

/-- An edit used in the examples. -/
def sampleEdit (ref : Nat) (id sender : String) (ts : Nat) : MatrixEvent where
  ref := ref
  id := id
  type := "m.room.message"
  sender := sender
  ts := ts
  relation := some { rel_type := relTypeReplace, key := none }
  serverReplaceTs := none

/-- A bucket of reactions that holds another event object with the ID `$a`. -/
def bucketWithCopy : Bucket :=
  (addEvent (Bucket.create relTypeAnnotation "m.reaction")
    (sampleReaction 2 "$a" "@u:hs" "+")).1

/-- A bucket of reactions that has seen the reaction `$a` come and go. -/
def bucketAfterRemoval : Bucket :=
  (run (Bucket.create relTypeAnnotation "m.reaction")
    [Op.addEvent (sampleReaction 1 "$a" "@u:hs" "+"),
     Op.removeEvent (sampleReaction 1 "$a" "@u:hs" "+")]).1

/-- A bucket of edits of a message by `@a:hs`: two edits by the author with the same
timestamp, one older edit by the author and one newer edit by someone else. -/
def bucketOfEdits : Bucket :=
  (run (Bucket.create relTypeReplace "m.room.message")
    [Op.setTargetEvent (sampleMessage "@a:hs" (some 3)),
     Op.addEvent (sampleEdit 1 "$e1" "@a:hs" 5),
     Op.addEvent (sampleEdit 2 "$e2" "@a:hs" 5),
     Op.addEvent (sampleEdit 3 "$e3" "@a:hs" 2),
     Op.addEvent (sampleEdit 4 "$e4" "@b:hs" 9)]).1

/-- A new bucket of reactions next to a local echo, the reaction `$a`, that is being sent. -/
def bucketWithEcho : Bucket :=
  (setStatus (Bucket.create relTypeAnnotation "m.reaction") (sampleReaction 1 "$a" "@u:hs" "+")
    (some EventStatus.SENDING)).1

/-- A new bucket of reactions next to a local echo that is being sent, the reaction `$a` with
the key `constructor`, a name that `Object.prototype` defines. -/
def bucketWithInheritedEcho : Bucket :=
  (setStatus (Bucket.create relTypeAnnotation "m.reaction")
    (sampleReaction 1 "$a" "@u:hs" "constructor") (some EventStatus.SENDING)).1

/-- The event has been taken out of the bucket: it is no member and its ID is known. -/
def Removed (event : MatrixEvent) (s : Bucket) : Prop :=
  event ∉ s.relations ∧ event.id ∈ s.relationEventIds

/-- Every member's ID is among the known IDs. -/
def MembersKnown (s : Bucket) : Prop := ∀ e ∈ s.relations, e.id ∈ s.relationEventIds

/-- The groupings hold events with a key only. -/
def GroupsKeyed (byKey bySender : String → Option (List MatrixEvent)) : Prop :=
  (∀ k evs, byKey k = some evs → ∀ e ∈ evs, keyOf e ≠ none) ∧
    (∀ sender evs, bySender sender = some evs → ∀ e ∈ evs, keyOf e ≠ none)

/-- The sorted array lists the given keys and has at least the given number of pairs. -/
def ListsKeys (keys : List String) (n : Nat) (sorted : List String) : Prop :=
  (∀ k ∈ keys, k ∈ sorted) ∧ n ≤ sorted.length

/-- A reaction without a key. -/
def keylessReaction (ref : Nat) (id sender : String) : MatrixEvent where
  ref := ref
  id := id
  type := "m.reaction"
  sender := sender
  ts := 1
  relation := some { rel_type := relTypeAnnotation, key := none }
  serverReplaceTs := none

end Relations

namespace Thread

/-!
Threads (`src/models/thread.ts`)

Conventions of the embedding, next to those of the relation buckets.

* The class reads a static `Thread.hasServerSideSupport`, the getter `liveTimeline` and the
  method `fetchEvents`, none of which the file declares. The flag is a field of the state, the
  live timeline is the list `timeline`, and the outcome of `fetchEvents` is an argument.
* The class declares the field `onEcho` twice. Field initialisers run in the order of the
  declarations, before the body of the constructor registers `this.onEcho` as a listener, so
  the listener is the second declaration; the first one is kept as `onEchoShadowed`.
* A method that throws returns `Except.error`; the state is the one before the call.
* The awaited decryption and the look-up of edits (`fetchEditsWhereNeeded`, which catches its
  own errors) change nothing the thread reads and are taken to complete.
-/

/-- A `MatrixEvent` as the thread reads it: `ref` stands for the identity of the object, the
other fields are `getId()`, `getSender()`, `localTimestamp`, `threadRootId`,
`isRelation(THREAD_RELATION_TYPE.name)`, the send `status` and `isEncrypted()`. Whether the
event is redacted changes over time and is kept in the state. -/
structure MatrixEvent where
  ref : Nat
  id : String
  sender : String
  localTimestamp : Nat
  threadRootId : Option String
  isThreadRelation : Bool
  status : Option Relations.EventStatus
  isEncrypted : Bool
  deriving DecidableEq, Repr

/-- The notifications of a thread: `Thread.update` and `Thread.newReply`. -/
inductive Emitted where
  | update
  | newReply (event : MatrixEvent)
  deriving DecidableEq, Repr

/-- The state of one `Thread`, followed by what it reads from its surroundings: the static flag
`Thread.hasServerSideSupport`, `client.getUserId()` and the events that are redacted. -/
structure State where
  id : Option String
  rootEvent : Option MatrixEvent
  timeline : List MatrixEvent
  lastEvent : Option MatrixEvent
  replyCount : Int
  currentUserParticipated : Bool
  initialEventsFetched : Bool
  hasServerSideSupport : Bool
  userId : String
  redacted : List MatrixEvent
  deriving DecidableEq, Repr

/-- The part of the room `onBeforeRedaction` reads: `room.eventShouldLiveIn(event).threadId`. -/
structure Room where
  eventShouldLiveIn : MatrixEvent → Option String

/-- What `fetchEvents` resolves to. -/
structure FetchResponse where
  originalEvent : MatrixEvent
  events : List MatrixEvent
  nextBatch : Option String
  prevBatch : Option String
  deriving DecidableEq, Repr

/-- `event.isRedacted()`. -/
def isRedacted (t : State) (event : MatrixEvent) : Bool := decide (event ∈ t.redacted)

/-- Modelled from the spec: the redaction of an event (`makeRedacted` of models/event is not
among the sources) marks it redacted; it stays in the timeline. -/
def markRedacted (t : State) (event : MatrixEvent) : State :=
  { t with redacted := event :: t.redacted }

/-- The getter `events`: `this.liveTimeline.getEvents()`. -/
def events (t : State) : List MatrixEvent := t.timeline

/-- `lastReply(matches)`: the last event of the timeline that passes the predicate, `undefined`
when there is none. -/
def lastReply (t : State) (predicate : MatrixEvent → Bool) : Option MatrixEvent :=
  (events t).reverse.find? predicate

/-- The default argument of `lastReply`: `() => true`. -/
def anyEvent : MatrixEvent → Bool := fun _ => true

/-- The getter `replyToEvent`. -/
def replyToEvent (t : State) : Option MatrixEvent := t.lastEvent

/-- The getter `length`. -/
def length (t : State) : Int := t.replyCount

/-- Modelled from the spec: `timelineSet.findEventById` and `timelineSet.eventIdToTimeline`
(models/event-timeline-set is not among the sources) find an event of the timeline by its ID. -/
def timelineSetFindEventById (t : State) (eventId : String) : Option MatrixEvent :=
  t.timeline.find? (fun e => decide (e.id = eventId))

/-- `findEventById(eventId)`. -/
def findEventById (t : State) (eventId : String) : Option MatrixEvent :=
  match t.lastEvent with
  | some last => if last.id = eventId then some last else timelineSetFindEventById t eventId
  | none => timelineSetFindEventById t eventId

/-- The listener `onEcho`, second declaration (the one in force). -/
def onEcho (t : State) (event : MatrixEvent) : State × List Emitted :=
  if (timelineSetFindEventById t event.id).isSome then (t, [Emitted.update]) else (t, [])

/-- The first declaration of `onEcho`, which the second one replaces before any listener is
registered. -/
def onEchoShadowed (t : State) (event : MatrixEvent) : State × List Emitted :=
  if event.threadRootId ≠ t.id then (t, [])
  else if t.lastEvent = some event then (t, [])
  else
    let isThreadReply := event.isThreadRelation
    let replace : Bool :=
      match t.lastEvent with
      | none => true
      | some last =>
        isRedacted t last ||
          (isThreadReply && decide (event.id ≠ last.id) &&
            decide (event.localTimestamp > last.localTimestamp))
    if replace then
      if some event.id ≠ t.id then
        ({ t with
            lastEvent := some event
            replyCount := if t.hasServerSideSupport then t.replyCount + 1 else t.replyCount },
          [Emitted.newReply event, Emitted.update])
      else ({ t with lastEvent := some event }, [Emitted.update])
    else (t, [Emitted.update])

/-- Modelled from the spec: `timelineSet.addEventToTimeline` (models/event-timeline-set is not
among the sources) puts the event at the start or at the end of the live timeline and emits
`Room.timeline`, which reaches the listener `onEcho`. -/
def timelineSetAddEventToTimeline (t : State) (event : MatrixEvent) (toStartOfTimeline : Bool) :
    State × List Emitted :=
  onEcho
    { t with timeline := if toStartOfTimeline then event :: t.timeline else t.timeline ++ [event] }
    event

/-- `addEventToTimeline(event, toStartOfTimeline)`. -/
def addEventToTimeline (t : State) (event : MatrixEvent) (toStartOfTimeline : Bool) :
    State × List Emitted :=
  match findEventById t event.id with
  | some _ => (t, [])
  | none => timelineSetAddEventToTimeline t event toStartOfTimeline

/-- The first statement of `addEvent`, which decides whether the event enters the timeline.
With server-side support the comparison reads `this.lastReply().localTimestamp`, which throws a
`TypeError` when the timeline is empty. -/
def addEventTimelineStep (t : State) (event : MatrixEvent) (toStartOfTimeline : Bool) :
    Except String (State × List Emitted) :=
  if !t.hasServerSideSupport then Except.ok (addEventToTimeline t event toStartOfTimeline)
  else if !toStartOfTimeline && t.initialEventsFetched then
    match lastReply t anyEvent with
    | none => Except.error "TypeError: Cannot read properties of undefined"
    | some last =>
      if event.localTimestamp > last.localTimestamp then
        Except.ok (addEventToTimeline t event false)
      else Except.ok (t, [])
  else Except.ok (t, [])

/-- `addEvent(event, toStartOfTimeline)`. -/
def addEvent (t : State) (event : MatrixEvent) (toStartOfTimeline : Bool) :
    Except String (State × List Emitted) :=
  match addEventTimelineStep t event toStartOfTimeline with
  | Except.error e => Except.error e
  | Except.ok (t1, out) =>
    let t2 : State :=
      if !t1.currentUserParticipated && decide (event.sender = t1.userId) then
        { t1 with currentUserParticipated := true }
      else t1
    let t3 : State :=
      if !t2.hasServerSideSupport && event.isThreadRelation then
        { t2 with replyCount := t2.replyCount + 1 }
      else t2
    Except.ok (t3, out ++ [Emitted.update])

/-- A sequence of `addEvent` calls, each with its `toStartOfTimeline`; it stops at the first
call that throws. -/
def addEvents (t : State) : List (MatrixEvent × Bool) → Except String State
  | [] => Except.ok t
  | (event, toStartOfTimeline) :: rest =>
    match addEvent t event toStartOfTimeline with
    | Except.error e => Except.error e
    | Except.ok (t1, _) => addEvents t1 rest

/-- The listener `onBeforeRedaction(event, redaction)`. -/
def onBeforeRedaction (t : State) (room : Room) (event : Option MatrixEvent)
    (redaction : MatrixEvent) : State × List Emitted :=
  match event with
  | none => (t, [])
  | some ev =>
    if ev.isThreadRelation && decide (room.eventShouldLiveIn ev = t.id) &&
        redaction.status.isNone then
      ({ t with replyCount := t.replyCount - 1 }, [Emitted.update])
    else (t, [])

/-- The listener `onRedaction(event)`. -/
def onRedaction (t : State) (event : MatrixEvent) : State × List Emitted :=
  if event.threadRootId ≠ t.id then (t, [])
  else
    let events := (events t).reverse
    let found := events.find? (fun e => !isRedacted t e && e.isThreadRelation)
    ({ t with
        lastEvent :=
          match found with
          | some e => some e
          | none => t.rootEvent },
      [Emitted.update])

/-- `fetchInitialEvents()`; `fetchEvents` is what the call of `this.fetchEvents()` resolves to,
`none` when it throws. -/
def fetchInitialEvents (t : State) (fetchEvents : Option FetchResponse) :
    State × Option FetchResponse :=
  if !t.hasServerSideSupport then ({ t with initialEventsFetched := true }, none)
  else
    match fetchEvents with
    | some response => ({ t with initialEventsFetched := true }, some response)
    | none => (t, none)

/-- A message used in the thread examples. -/
def sampleEvent (ref : Nat) (id sender : String) (localTimestamp : Nat)
    (isThreadRelation : Bool) : MatrixEvent where
  ref := ref
  id := id
  sender := sender
  localTimestamp := localTimestamp
  threadRootId := some "$root"
  isThreadRelation := isThreadRelation
  status := none
  isEncrypted := false

/-- A thread with the root `$root`, an empty timeline and no last event. -/
def sampleThread (hasServerSideSupport initialEventsFetched : Bool) : State where
  id := some "$root"
  rootEvent := some (sampleEvent 0 "$root" "@a:hs" 1 false)
  timeline := []
  lastEvent := none
  replyCount := 0
  currentUserParticipated := false
  initialEventsFetched := initialEventsFetched
  hasServerSideSupport := hasServerSideSupport
  userId := "@me:hs"
  redacted := []

/-- A thread whose timeline holds three replies, the last of which is the current last reply,
under the given server-side support. -/
def threadOfThree (hasServerSideSupport : Bool) : State where
  id := some "$root"
  rootEvent := some (sampleEvent 0 "$root" "@a:hs" 1 false)
  timeline :=
    [sampleEvent 1 "$e1" "@a:hs" 10 true, sampleEvent 2 "$e2" "@b:hs" 20 true,
     sampleEvent 3 "$e3" "@a:hs" 30 true]
  lastEvent := some (sampleEvent 3 "$e3" "@a:hs" 30 true)
  replyCount := 3
  currentUserParticipated := false
  initialEventsFetched := true
  hasServerSideSupport := hasServerSideSupport
  userId := "@me:hs"
  redacted := []

/-- The redaction event of the examples: it belongs to the thread `$root` and is confirmed. -/
def sampleRedaction : MatrixEvent where
  ref := 9
  id := "$redaction"
  sender := "@a:hs"
  localTimestamp := 40
  threadRootId := some "$root"
  isThreadRelation := false
  status := none
  isEncrypted := false

end Thread

namespace PushProcessor

/-!
Push rules (`lib/pushprocessor.js`)

Conventions of the embedding, next to those above.

* JSON values are the type `Json`. Reading a property yields `undefined` (`none`) unless the
  value is an object that has the property; properties of strings and arrays and the
  properties inherited from `Object.prototype` are outside the model.
* `escapeRegExp` and `globToRegexp` of `./utils` and the matching of a `RegExp` are not among
  the sources: they are fields of `Client`, and a regular expression is kept as its source
  text (its flags are always `i`).
* The static `PushProcessor.cachedGlobToRegex` is an argument and a result of every function
  that can reach `createCachedRegex`.
* Rules carry a list of conditions and a list of actions, as the type `IPushRule` of
  `./@types/PushRules` requires for the rules of a server; the member count of a room is a
  natural number.
-/

/-- A JSON value. -/
inductive Json where
  | null
  | bool (b : Bool)
  | num (n : Int)
  | str (s : String)
  | arr (items : List Json)
  | obj (fields : List (String × Json))

/-- The property `val[key]`, `none` for `undefined`. -/
def Json.get (val : Json) (key : String) : Option Json :=
  match val with
  | Json.obj fields => (fields.find? (fun field => decide (field.1 = key))).map (fun field => field.2)
  | _ => none

/-- The kinds of push rules (`PushRuleKind`). -/
inductive PushRuleKind where
  | Override
  | ContentSpecific
  | RoomSpecific
  | SenderSpecific
  | Underride
  deriving DecidableEq, Repr

/-- `RULEKINDS_IN_ORDER`. -/
def RULEKINDS_IN_ORDER : List PushRuleKind :=
  [PushRuleKind.Override, PushRuleKind.ContentSpecific, PushRuleKind.RoomSpecific,
   PushRuleKind.SenderSpecific, PushRuleKind.Underride]

/-- `ConditionKind.EventMatch`. -/
def kindEventMatch : String := "event_match"

/-- `ConditionKind.ContainsDisplayName`. -/
def kindContainsDisplayName : String := "contains_display_name"

/-- `ConditionKind.RoomMemberCount`. -/
def kindRoomMemberCount : String := "room_member_count"

/-- `ConditionKind.SenderNotificationPermission`. -/
def kindSenderNotificationPermission : String := "sender_notification_permission"

/-- A condition of a push rule; a field that is missing is `none`. -/
structure PushRuleCondition where
  kind : String
  key : Option String
  pattern : Option String
  value : Option String
  is : Option String
  deriving DecidableEq, Repr

/-- An action of a push rule: a name such as `notify`, or an object `{set_tweak, value}`. -/
inductive PushRuleAction where
  | name (action : String)
  | tweak (set_tweak : String) (value : Option Json)

/-- A push rule as it comes in a rule set. -/
structure PushRule where
  rule_id : String
  default : Bool
  enabled : Bool
  conditions : List PushRuleCondition
  actions : List PushRuleAction
  pattern : Option String

/-- The rules of one scope, by kind; a kind may be missing. -/
structure PushRuleSet where
  override : Option (List PushRule)
  content : Option (List PushRule)
  room : Option (List PushRule)
  sender : Option (List PushRule)
  underride : Option (List PushRule)

/-- `kindset[kind]`. -/
def PushRuleSet.get (kindset : PushRuleSet) : PushRuleKind → Option (List PushRule)
  | PushRuleKind.Override => kindset.override
  | PushRuleKind.ContentSpecific => kindset.content
  | PushRuleKind.RoomSpecific => kindset.room
  | PushRuleKind.SenderSpecific => kindset.sender
  | PushRuleKind.Underride => kindset.underride

/-- The push rules of a client (`IPushRules`). -/
structure PushRules where
  global : PushRuleSet

/-- A rule in the form `ruleMatchesEvent` takes. -/
structure RawRule where
  rule_id : String
  actions : List PushRuleAction
  conditions : List PushRuleCondition

/-- The state of a room (`room.currentState`) as the conditions read it: whether `members` is
set, `getJoinedMemberCount()`, the `name` of `getMember(userId)` and `mayTriggerNotifOfType`. -/
structure RoomState where
  members : Bool
  joinedMemberCount : Nat
  getMember : String → Option String
  mayTriggerNotifOfType : String → String → Bool

/-- A room: its `currentState` may be missing. -/
structure Room where
  currentState : Option RoomState

/-- The client of the processor, with the helpers of `./utils` and the regular expression
engine. -/
structure Client where
  userId : String
  getRoom : String → Option Room
  pushRules : Option PushRules
  escapeRegExp : String → String
  globToRegexp : String → String
  regExpTest : String → String → Bool

/-- The event as the conditions read it: `getSender()`, `getRoomId()`, `getType()`,
`getContent()`, the raw `event`, `isEncrypted()` and `getClearContent()`. -/
structure MatrixEvent where
  sender : String
  roomId : String
  type : String
  content : Json
  event : Json
  isEncrypted : Bool
  clearContent : Option Json

/-- The static `PushProcessor.cachedGlobToRegex`: from a glob to the source of the regular
expression compiled for it. -/
abbrev RegexCache := String → Option String

/-- The object `actionListToActionsObject` returns. -/
structure ActionsObject where
  notify : Bool
  tweaks : String → Option Json

/-- What `pushActionsForEventAndRulesets` returns: the empty object `{}`, in which both
properties are missing, or an `ActionsObject`. -/
structure PushActions where
  notify : Option Bool
  tweaks : Option (String → Option Json)

/-- `actionListToActionsObject(actionList)`. -/
def actionListToActionsObject (actionList : List PushRuleAction) : ActionsObject :=
  actionList.foldl
    (fun actionObj action =>
      match action with
      | PushRuleAction.name action =>
        if action = "notify" then { actionObj with notify := true } else actionObj
      | PushRuleAction.tweak set_tweak value =>
        { actionObj with
          tweaks := Function.update actionObj.tweaks set_tweak (some (value.getD (Json.bool true))) })
    { notify := false, tweaks := fun _ => none }

/-- `templateRuleToRaw(kind, tprule)`. -/
def templateRuleToRaw (kind : PushRuleKind) (tprule : PushRule) : Option RawRule :=
  match kind with
  | PushRuleKind.Underride | PushRuleKind.Override =>
    some { rule_id := tprule.rule_id, actions := tprule.actions, conditions := tprule.conditions }
  | PushRuleKind.RoomSpecific =>
    if tprule.rule_id = "" then none
    else
      some
        { rule_id := tprule.rule_id, actions := tprule.actions,
          conditions :=
            [{ kind := kindEventMatch, key := some "room_id", pattern := none,
               value := some tprule.rule_id, is := none }] }
  | PushRuleKind.SenderSpecific =>
    if tprule.rule_id = "" then none
    else
      some
        { rule_id := tprule.rule_id, actions := tprule.actions,
          conditions :=
            [{ kind := kindEventMatch, key := some "user_id", pattern := none,
               value := some tprule.rule_id, is := none }] }
  | PushRuleKind.ContentSpecific =>
    match tprule.pattern with
    | none => none
    | some pattern =>
      if pattern = "" then none
      else
        some
          { rule_id := tprule.rule_id, actions := tprule.actions,
            conditions :=
              [{ kind := kindEventMatch, key := some "content.body", pattern := some pattern,
                 value := none, is := none }] }

/-- `key.split('.')` on the characters of the key; `current` holds the part being read, in
reverse. -/
def splitOnDot : List Char → List Char → List String
  | [], current => [String.mk current.reverse]
  | c :: rest, current =>
    if c = '.' then String.mk current.reverse :: splitOnDot rest []
    else splitOnDot rest (c :: current)

/-- The loop of `valueForDottedKey`: follows the parts of the key, `null` as soon as a part
is missing or `null`. -/
def followParts : List String → Json → Json
  | [], val => val
  | thisPart :: parts, val =>
    match val.get thisPart with
    | none => Json.null
    | some Json.null => Json.null
    | some next => followParts parts next

/-- `valueForDottedKey(key, ev)`. -/
def valueForDottedKey (key : String) (ev : MatrixEvent) : Json :=
  match splitOnDot key.data [] with
  | [] => Json.null
  | firstPart :: parts =>
    if firstPart = "content" then followParts parts ev.content
    else if firstPart = "type" then followParts parts (Json.str ev.type)
    else followParts (firstPart :: parts) ev.event

/-- `createCachedRegex(prefix, glob, suffix)`: the cached regular expression of the glob when
there is one, else the new one, which enters the cache. -/
def createCachedRegex (client : Client) (cache : RegexCache) (before glob after : String) :
    String × RegexCache :=
  match cache glob with
  | some regex => (regex, cache)
  | none =>
    (before ++ client.globToRegexp glob ++ after,
      Function.update cache glob (some (before ++ client.globToRegexp glob ++ after)))

/-- `eventFulfillsEventMatchCondition(cond, ev)`. -/
def eventFulfillsEventMatchCondition (client : Client) (cache : RegexCache)
    (cond : PushRuleCondition) (ev : MatrixEvent) : Bool × RegexCache :=
  match cond.key with
  | none => (false, cache)
  | some key =>
    if key = "" then (false, cache)
    else
      match valueForDottedKey key ev with
      | Json.str val =>
        if cond.value.isSome ∧ cond.value ≠ some "" then (decide (cond.value = some val), cache)
        else
          match cond.pattern with
          | none => (false, cache)
          | some pattern =>
            let compiled :=
              if key = "content.body" then createCachedRegex client cache "(^|\\W)" pattern "(\\W|$)"
              else createCachedRegex client cache "^" pattern "$"
            (client.regExpTest compiled.1 val, compiled.2)
      | _ => (false, cache)

/-- `eventFulfillsDisplayNameCondition(cond, ev)`. -/
def eventFulfillsDisplayNameCondition (client : Client) (ev : MatrixEvent) : Bool :=
  let content :=
    match ev.isEncrypted, ev.clearContent with
    | true, some clear => clear
    | _, _ => ev.content
  match content.get "body" with
  | some (Json.str body) =>
    if body = "" then false
    else
      match client.getRoom ev.roomId with
      | none => false
      | some room =>
        match room.currentState with
        | none => false
        | some state =>
          if !state.members then false
          else
            match state.getMember client.userId with
            | none => false
            | some displayName =>
              client.regExpTest ("(^|\\W)" ++ client.escapeRegExp displayName ++ "(\\W|$)") body
  | _ => false

/-- `eventFulfillsSenderNotifPermCondition(cond, ev)`. -/
def eventFulfillsSenderNotifPermCondition (client : Client) (cond : PushRuleCondition)
    (ev : MatrixEvent) : Bool :=
  match cond.key with
  | none => false
  | some notifLevelKey =>
    if notifLevelKey = "" then false
    else
      match client.getRoom ev.roomId with
      | none => false
      | some room =>
        match room.currentState with
        | none => false
        | some state => state.mayTriggerNotifOfType notifLevelKey ev.sender

/-- The character class `[=<>]`. -/
def isInequalityChar (c : Char) : Bool := c = '=' || c = '<' || c = '>'

/-- The match of `/^([=<>]*)([0-9]*)$/`: the two groups, `none` when the text does not match.
The first group takes every leading `=`, `<` and `>`; the rest has to be digits. -/
def matchMemberCount (text : List Char) : Option (List Char × List Char) :=
  if (text.dropWhile isInequalityChar).all Char.isDigit then
    some (text.takeWhile isInequalityChar, text.dropWhile isInequalityChar)
  else none

/-- The value of a run of decimal digits. -/
def digitsValue (digits : List Char) : Nat :=
  digits.foldl (fun value digit => 10 * value + (digit.toNat - '0'.toNat)) 0

/-- `parseInt` on a run of decimal digits: `NaN` (`none`) on the empty text. -/
def parseInt (digits : List Char) : Option Nat :=
  if digits = [] then none else some (digitsValue digits)

/-- `eventFulfillsRoomMemberCountCondition(cond, ev)`. -/
def eventFulfillsRoomMemberCountCondition (client : Client) (cond : PushRuleCondition)
    (ev : MatrixEvent) : Bool :=
  match cond.is with
  | none => false
  | some is =>
    if is = "" then false
    else
      match client.getRoom ev.roomId with
      | none => false
      | some room =>
        match room.currentState with
        | none => false
        | some state =>
          if !state.members then false
          else
            let memberCount := state.joinedMemberCount
            match matchMemberCount is.data with
            | none => false
            | some (ineq, digits) =>
              match parseInt digits with
              | none => false
              | some rhs =>
                if ineq = [] ∨ ineq = ['=', '='] then decide (memberCount = rhs)
                else if ineq = ['<'] then decide (memberCount < rhs)
                else if ineq = ['>'] then decide (memberCount > rhs)
                else if ineq = ['<', '='] then decide (memberCount ≤ rhs)
                else if ineq = ['>', '='] then decide (memberCount ≥ rhs)
                else false

/-- `eventFulfillsCondition(cond, ev)`. -/
def eventFulfillsCondition (client : Client) (cache : RegexCache) (cond : PushRuleCondition)
    (ev : MatrixEvent) : Bool × RegexCache :=
  if cond.kind = kindEventMatch then eventFulfillsEventMatchCondition client cache cond ev
  else if cond.kind = kindContainsDisplayName then
    (eventFulfillsDisplayNameCondition client ev, cache)
  else if cond.kind = kindRoomMemberCount then
    (eventFulfillsRoomMemberCountCondition client cond ev, cache)
  else if cond.kind = kindSenderNotificationPermission then
    (eventFulfillsSenderNotifPermCondition client cond ev, cache)
  else (false, cache)

/-- The loop of `ruleMatchesEvent`: `ret &= eventFulfillsCondition(cond, ev)` for every
condition, none skipped. -/
def conditionsMatch (client : Client) (ev : MatrixEvent) :
    List PushRuleCondition → Bool → RegexCache → Bool × RegexCache
  | [], ret, cache => (ret, cache)
  | cond :: conditions, ret, cache =>
    let fulfilled := eventFulfillsCondition client cache cond ev
    conditionsMatch client ev conditions (ret && fulfilled.1) fulfilled.2

/-- `ruleMatchesEvent(rule, ev)`. -/
def ruleMatchesEvent (client : Client) (cache : RegexCache) (rule : RawRule) (ev : MatrixEvent) :
    Bool × RegexCache :=
  conditionsMatch client ev rule.conditions true cache

/-- The inner loop of `matchingRuleFromKindSet`, over the rules of one kind. -/
def matchingRuleFromRuleset (client : Client) (ev : MatrixEvent) (kind : PushRuleKind) :
    List PushRule → RegexCache → Option (PushRule × PushRuleKind) × RegexCache
  | [], cache => (none, cache)
  | rule :: ruleset, cache =>
    if !rule.enabled then matchingRuleFromRuleset client ev kind ruleset cache
    else
      match templateRuleToRaw kind rule with
      | none => matchingRuleFromRuleset client ev kind ruleset cache
      | some rawrule =>
        let matched := ruleMatchesEvent client cache rawrule ev
        if matched.1 then (some (rule, kind), matched.2)
        else matchingRuleFromRuleset client ev kind ruleset matched.2

/-- The outer loop of `matchingRuleFromKindSet`, over the kinds. -/
def matchingRuleFromKinds (client : Client) (ev : MatrixEvent) (kindset : PushRuleSet) :
    List PushRuleKind → RegexCache → Option (PushRule × PushRuleKind) × RegexCache
  | [], cache => (none, cache)
  | kind :: kinds, cache =>
    match kindset.get kind with
    | none => matchingRuleFromKinds client ev kindset kinds cache
    | some ruleset =>
      let found := matchingRuleFromRuleset client ev kind ruleset cache
      match found.1 with
      | some rule => (some rule, found.2)
      | none => matchingRuleFromKinds client ev kindset kinds found.2

/-- `matchingRuleFromKindSet(ev, kindset)`: the rule with its kind, `null` when none matches. -/
def matchingRuleFromKindSet (client : Client) (cache : RegexCache) (ev : MatrixEvent)
    (kindset : PushRuleSet) : Option (PushRule × PushRuleKind) × RegexCache :=
  matchingRuleFromKinds client ev kindset RULEKINDS_IN_ORDER cache

/-- `matchingRuleForEventWithRulesets(ev, rulesets)`. -/
def matchingRuleForEventWithRulesets (client : Client) (cache : RegexCache) (ev : MatrixEvent)
    (rulesets : Option PushRules) : Option (PushRule × PushRuleKind) × RegexCache :=
  match rulesets with
  | none => (none, cache)
  | some rulesets =>
    if ev.sender = client.userId then (none, cache)
    else matchingRuleFromKindSet client cache ev rulesets.global

/-- The actions of a matched rule with the implicit `highlight` tweak added: the second half
of `pushActionsForEventAndRulesets`. -/
def actionsOfRule (rule : PushRule) (kind : PushRuleKind) : PushActions :=
  let actionObj := actionListToActionsObject rule.actions
  match actionObj.tweaks "highlight" with
  | none =>
    { notify := some actionObj.notify,
      tweaks :=
        some (Function.update actionObj.tweaks "highlight"
          (some (Json.bool (decide (kind = PushRuleKind.ContentSpecific))))) }
  | some _ => { notify := some actionObj.notify, tweaks := some actionObj.tweaks }

/-- `pushActionsForEventAndRulesets(ev, rulesets)`. -/
def pushActionsForEventAndRulesets (client : Client) (cache : RegexCache) (ev : MatrixEvent)
    (rulesets : Option PushRules) : PushActions × RegexCache :=
  let found := matchingRuleForEventWithRulesets client cache ev rulesets
  match found.1 with
  | none => ({ notify := none, tweaks := none }, found.2)
  | some (rule, kind) => (actionsOfRule rule kind, found.2)

/-- `actionsForEvent(ev)`. -/
def actionsForEvent (client : Client) (cache : RegexCache) (ev : MatrixEvent) :
    PushActions × RegexCache :=
  pushActionsForEventAndRulesets client cache ev client.pushRules

/-- A client of the examples: the user `@me:hs`, one room `!r:hs` with three joined members, no
push rules of its own, and helpers that leave texts as they are and compare them literally. -/
def sampleClient : Client where
  userId := "@me:hs"
  getRoom := fun roomId =>
    if roomId = "!r:hs" then
      some
        { currentState :=
            some
              { members := true, joinedMemberCount := 3, getMember := fun _ => some "Me",
                mayTriggerNotifOfType := fun _ _ => false } }
    else none
  pushRules := none
  escapeRegExp := fun text => text
  globToRegexp := fun glob => glob
  regExpTest := fun source text => decide (source = text)

/-- A message of the examples in the room `!r:hs`. -/
def messageFrom (sender : String) : MatrixEvent where
  sender := sender
  roomId := "!r:hs"
  type := "m.room.message"
  content := Json.obj [("body", Json.str "hello")]
  event := Json.obj [("room_id", Json.str "!r:hs"), ("type", Json.str "m.room.message")]
  isEncrypted := false
  clearContent := none

/-- A rule without conditions that notifies. -/
def notifyAlways (rule_id : String) : PushRule where
  rule_id := rule_id
  default := false
  enabled := true
  conditions := []
  actions := [PushRuleAction.name "notify"]
  pattern := none

/-- A rule without conditions that does not notify. -/
def notifyNever (rule_id : String) : PushRule where
  rule_id := rule_id
  default := false
  enabled := true
  conditions := []
  actions := [PushRuleAction.name "dont_notify"]
  pattern := none

/-- Push rules with one override rule and one underride rule, both without conditions. -/
def sampleRules : PushRules where
  global :=
    { override := some [notifyNever "o"], content := none, room := none, sender := none,
      underride := some [notifyAlways "u"] }

/-- The cache before any regular expression is compiled. -/
def emptyCache : RegexCache := fun _ => none

/-- A room-member-count condition with the given text in `is`. -/
def memberCountCondition (is : Option String) : PushRuleCondition where
  kind := kindRoomMemberCount
  key := none
  pattern := none
  value := none
  is := is

/-- The rules of a rule set in the order of the specification: the kinds in the order override,
content, room, sender, underride, and the rules of a kind in the order of their list. -/
def rulesInOrder (kindset : PushRuleSet) : List (PushRuleKind × PushRule) :=
  ((kindset.override.getD []).map (fun rule => (PushRuleKind.Override, rule))) ++
    ((kindset.content.getD []).map (fun rule => (PushRuleKind.ContentSpecific, rule))) ++
    ((kindset.room.getD []).map (fun rule => (PushRuleKind.RoomSpecific, rule))) ++
    ((kindset.sender.getD []).map (fun rule => (PushRuleKind.SenderSpecific, rule))) ++
    ((kindset.underride.getD []).map (fun rule => (PushRuleKind.Underride, rule)))

/-- Whether a rule of a kind is enabled and all its conditions hold for the event, where the
conditions of a content, room or sender rule are those `templateRuleToRaw` gives it; next to
the answer, the cache after the conditions have been evaluated. -/
def ruleHolds (client : Client) (ev : MatrixEvent) (cache : RegexCache)
    (candidate : PushRuleKind × PushRule) : Bool × RegexCache :=
  if candidate.2.enabled then
    match templateRuleToRaw candidate.1 candidate.2 with
    | some rawrule => ruleMatchesEvent client cache rawrule ev
    | none => (false, cache)
  else (false, cache)

/-- The cache after the rules of a list have been tried one after the other. -/
def cacheAfter (client : Client) (ev : MatrixEvent) :
    List (PushRuleKind × PushRule) → RegexCache → RegexCache
  | [], cache => cache
  | candidate :: rest, cache => cacheAfter client ev rest (ruleHolds client ev cache candidate).2

/-- The specification of the match: the first rule of the list that holds, each rule tried in
the cache the rules before it have left. -/
def firstRuleThatHolds (client : Client) (ev : MatrixEvent) :
    List (PushRuleKind × PushRule) → RegexCache → Option (PushRule × PushRuleKind) × RegexCache
  | [], cache => (none, cache)
  | candidate :: rest, cache =>
    if (ruleHolds client ev cache candidate).1 then
      (some (candidate.2, candidate.1), (ruleHolds client ev cache candidate).2)
    else firstRuleThatHolds client ev rest (ruleHolds client ev cache candidate).2

/-- The rules of the listed kinds, kind after kind; a kind the rule set lacks has no rules. -/
def rulesOfKinds (kindset : PushRuleSet) : List PushRuleKind → List (PushRuleKind × PushRule)
  | [] => []
  | kind :: kinds =>
    ((kindset.get kind).getD []).map (fun rule => (kind, rule)) ++ rulesOfKinds kindset kinds

/-- Whether no rule of the list holds, each rule tried in the cache the rules before it have
left. -/
def noneHolds (client : Client) (ev : MatrixEvent) :
    List (PushRuleKind × PushRule) → RegexCache → Bool
  | [], _ => true
  | candidate :: rest, cache =>
    !(ruleHolds client ev cache candidate).1 &&
      noneHolds client ev rest (ruleHolds client ev cache candidate).2

/-- The push rules as they reach `rewriteDefaultRules`: `global` may be missing, and so may
`global.override`. -/
structure IncomingPushRules where
  global : Option PushRuleSet

/-- The first of the `DEFAULT_OVERRIDE_RULES`, for homeservers without MSC1930. -/
def tombstoneRule : PushRule where
  rule_id := ".m.rule.tombstone"
  default := true
  enabled := true
  conditions :=
    [{ kind := kindEventMatch, key := some "type", pattern := some "m.room.tombstone",
       value := none, is := none },
     { kind := kindEventMatch, key := some "state_key", pattern := some "", value := none,
       is := none }]
  actions :=
    [PushRuleAction.name "notify", PushRuleAction.tweak "highlight" (some (Json.bool true))]
  pattern := none

/-- The second of the `DEFAULT_OVERRIDE_RULES`, for homeservers without MSC2153. -/
def reactionRule : PushRule where
  rule_id := ".m.rule.reaction"
  default := true
  enabled := true
  conditions :=
    [{ kind := kindEventMatch, key := some "type", pattern := some "m.reaction",
       value := none, is := none }]
  actions := [PushRuleAction.name "dont_notify"]
  pattern := none

/-- `DEFAULT_OVERRIDE_RULES`. -/
def DEFAULT_OVERRIDE_RULES : List PushRule := [tombstoneRule, reactionRule]

/-- The three assignments to `existingRule`: `default`, `conditions` and `actions` are taken
from the default rule, the rest of the rule stays. -/
def copyDefault (existingRule override : PushRule) : PushRule :=
  { existingRule with
    default := override.default
    conditions := override.conditions
    actions := override.actions }

/-- The assignments reach the object `find` has returned, which is the first rule of the array
with the ID of the default rule. -/
def assignToFirst (override : PushRule) : List PushRule → List PushRule
  | [] => []
  | r :: rest =>
    if r.rule_id = override.rule_id then copyDefault r override :: rest
    else r :: assignToFirst override rest

/-- The body of the loop over `DEFAULT_OVERRIDE_RULES`: the rule found is rewritten in place,
and when none is found the default rule is pushed. -/
def mergeDefault (globalOverrides : List PushRule) (override : PushRule) : List PushRule :=
  match globalOverrides.find? (fun r => decide (r.rule_id = override.rule_id)) with
  | some _ => assignToFirst override globalOverrides
  | none => globalOverrides ++ [override]

/-- `rewriteDefaultRules(incomingRules)`: it works on a deep clone, `null` rules become `{}`,
a missing `global` becomes `{}` and a missing `global.override` becomes `[]`. -/
def rewriteDefaultRules (incomingRules : Option IncomingPushRules) : PushRules :=
  let newRules : IncomingPushRules := incomingRules.getD { global := none }
  let global : PushRuleSet :=
    newRules.global.getD
      { override := none, content := none, room := none, sender := none, underride := none }
  let globalOverrides : List PushRule := global.override.getD []
  { global := { global with override := some (DEFAULT_OVERRIDE_RULES.foldl mergeDefault globalOverrides) } }

/-- The override rules of the incoming rules, none when a level is missing. -/
def incomingOverrides (incomingRules : Option IncomingPushRules) : List PushRule :=
  match incomingRules with
  | some rules =>
    match rules.global with
    | some global => global.override.getD []
    | none => []
  | none => []

/-- The rules of a kind in the incoming rules, `undefined` when a level is missing. -/
def incomingKind (incomingRules : Option IncomingPushRules) (kind : PushRuleKind) :
    Option (List PushRule) :=
  match incomingRules with
  | some rules =>
    match rules.global with
    | some global => global.get kind
    | none => none
  | none => none

/-- Incoming rules in which the server declares the reaction rule, disabled and with actions
of its own, between two rules of the user. -/
def incomingSample : IncomingPushRules where
  global :=
    some
      { override :=
          some
            [notifyNever "mine",
             { rule_id := ".m.rule.reaction", default := true, enabled := false, conditions := [],
               actions := [PushRuleAction.name "notify"], pattern := none },
             notifyAlways "other"],
        content := none, room := none, sender := none,
        underride := some [notifyAlways "u"] }

/-- The value of the last action of the list that sets the tweak of the given name, a missing
value read as `true`; `none` when no action sets it. -/
def lastTweak (name : String) (actionList : List PushRuleAction) : Option Json :=
  (actionList.filterMap
    (fun action =>
      match action with
      | PushRuleAction.tweak set_tweak value =>
        if set_tweak = name then some (value.getD (Json.bool true)) else none
      | PushRuleAction.name _ => none)).getLast?

/-- The class `\w` of regular expressions. -/
def isWordChar (c : Char) : Bool := c.isAlphanum || c = '_'

/-- Whether the word starts the text, after the character `previous` (`none` at the start of
the text), with no word character on either side. -/
def wordAt (word : List Char) (previous : Option Char) (text : List Char) : Bool :=
  word.isPrefixOf text && previous.all (fun c => !isWordChar c) &&
    (text.drop word.length).head?.all (fun c => !isWordChar c)

/-- Whether `(^|\W)word(\W|$)` matches somewhere in the text. -/
def containsWord (word : List Char) : Option Char → List Char → Bool
  | previous, [] => wordAt word previous []
  | previous, c :: rest => wordAt word previous (c :: rest) || containsWord word (some c) rest

/-- A regular expression engine for the examples. It knows the two shapes of expression that
`eventFulfillsEventMatchCondition` builds, `(^|\W)word(\W|$)` and `^word$`, for a word without
special characters, and ignores case as the flag `i` asks. -/
def wordRegExpTest (source text : String) : Bool :=
  let s := source.data.map Char.toLower
  let t := text.data.map Char.toLower
  if "(^|\\W)".data.map Char.toLower |>.isPrefixOf s then
    containsWord ((s.drop 6).take (s.length - 12)) none t
  else if s.head? = some '^' ∧ s.getLast? = some '$' then
    decide ((s.drop 1).take (s.length - 2) = t)
  else false

/-- The client of the examples with the engine `wordRegExpTest`. -/
def wordClient : Client := { sampleClient with regExpTest := wordRegExpTest }

/-- A message whose content has the body `hello world` and the same text as `topic`. -/
def helloWorld : MatrixEvent where
  sender := "@a:hs"
  roomId := "!r:hs"
  type := "m.room.message"
  content := Json.obj [("body", Json.str "hello world"), ("topic", Json.str "hello world")]
  event := Json.obj [("room_id", Json.str "!r:hs"), ("type", Json.str "m.room.message")]
  isEncrypted := false
  clearContent := none

/-- An `event_match` condition with a key and a pattern. -/
def matchCondition (key pattern : String) : PushRuleCondition where
  kind := kindEventMatch
  key := some key
  pattern := some pattern
  value := none
  is := none

end PushProcessor

namespace HttpApi

/-!
Retrying a network operation (`lib/http-api.js`)

* The callback is an effect: what its calls do, one after the other, is the sequence
  `callback`, whose entry `k` is what the call after `k` earlier calls does. A call resolves
  with a value or fails with an error, and `err instanceof ConnectionError` is a field of the
  error.
* The run of `retryNetworkOperation` is the list of what it does, calls of the callback and
  waits, followed by its result: the value it resolves with or the value it throws, which is
  `null` when there was no connection error.
* `maxAttempts` is a natural number.
-/

/-- An error a callback fails with; `isConnectionError` is `err instanceof ConnectionError`. -/
structure JsError where
  isConnectionError : Bool
  message : String
  deriving DecidableEq, Repr

/-- What one call of the callback does. -/
inductive Outcome (α : Type) where
  | resolved (value : α)
  | rejected (err : JsError)
  deriving DecidableEq, Repr

/-- What `retryNetworkOperation` does on the way: it calls the callback (`index` earlier calls
have been made) or waits for `setTimeout(r, timeout)`. -/
inductive Action where
  | call (index : Nat)
  | wait (timeout : Nat)
  deriving DecidableEq, Repr

/-- The `while` loop of `retryNetworkOperation`, entered with the values of `attempts` and
`lastConnectionError`. `remaining` is `maxAttempts - attempts`, so the test
`attempts < maxAttempts` is `remaining ≠ 0`; every round that does not leave the loop adds one
to `attempts`. -/
def retryLoop {α : Type} (callback : Nat → Outcome α) :
    Nat → Nat → Option JsError → List Action × Except (Option JsError) α
  | 0, _, lastConnectionError => ([], Except.error lastConnectionError)
  | remaining + 1, attempts, _ =>
    let waited : List Action :=
      if attempts > 0 then [Action.wait (1000 * 2 ^ attempts)] else []
    match callback attempts with
    | Outcome.resolved value => (waited ++ [Action.call attempts], Except.ok value)
    | Outcome.rejected err =>
      if err.isConnectionError then
        let rest := retryLoop callback remaining (attempts + 1) (some err)
        (waited ++ [Action.call attempts] ++ rest.1, rest.2)
      else (waited ++ [Action.call attempts], Except.error (some err))

/-- `retryNetworkOperation(maxAttempts, callback)`. -/
def retryNetworkOperation {α : Type} (maxAttempts : Nat) (callback : Nat → Outcome α) :
    List Action × Except (Option JsError) α :=
  retryLoop callback maxAttempts 0 none

/-- Whether an action is a call of the callback. -/
def Action.isCall : Action → Bool
  | Action.call _ => true
  | Action.wait _ => false

/-- The calls and waits of the description, for `count` calls of which the first is made after
`start` failures: a call that follows `k` failures, `k` at least one, comes after a wait of
`1000 * 2 ^ k` milliseconds. -/
def expectedFrom (start : Nat) : Nat → List Action
  | 0 => []
  | count + 1 =>
    (if 0 < start then [Action.wait (1000 * 2 ^ start), Action.call start]
      else [Action.call start]) ++ expectedFrom (start + 1) count

/-- The calls and waits of the description when `calls` calls are made. -/
def expectedActions (calls : Nat) : List Action := expectedFrom 0 calls

/-- The result of the description when the call with the given outcome ends the run: its
value, or the error it fails with. -/
def resultOf {α : Type} (outcome : Outcome α) : Except (Option JsError) α :=
  match outcome with
  | Outcome.resolved value => Except.ok value
  | Outcome.rejected err => Except.error (some err)

/-- Whether a call fails with a `ConnectionError`. -/
def failsWithConnectionError {α : Type} (outcome : Outcome α) : Bool :=
  match outcome with
  | Outcome.rejected err => err.isConnectionError
  | Outcome.resolved _ => false

/-- A connection error of the examples. -/
def connectionError (message : String) : JsError :=
  { isConnectionError := true, message := message }

/-- A callback that fails twice with a connection error and then resolves with 7. -/
def flakyCallback : Nat → Outcome Nat
  | 0 => Outcome.rejected (connectionError "first")
  | 1 => Outcome.rejected (connectionError "second")
  | _ => Outcome.resolved 7

end HttpApi

namespace FilterComponent

/-!
Filter components (`lib/filter-component.js`)

* A list of the filter definition that is missing (or `null`) is `none`; `contains_url` is
  missing (`none`), `null` (`some none`) or a boolean.
* Texts are compared by their characters.
-/

/-- The filter definition `filterJson`. -/
structure FilterJson where
  types : Option (List String)
  not_types : Option (List String)
  rooms : Option (List String)
  not_rooms : Option (List String)
  senders : Option (List String)
  not_senders : Option (List String)
  contains_url : Option (Option Bool)

/-- The content of an event: only whether `url` is defined is read. -/
structure Content where
  url : Option String
  deriving DecidableEq, Repr

/-- The event as the filter reads it: `getRoomId()`, `getSender()`, `getType()` and
`getContent()`, which may be missing. -/
structure MatrixEvent where
  roomId : String
  sender : String
  type : String
  content : Option Content
  deriving DecidableEq, Repr

/-- `matchesWildcard(actualValue, filterValue)`. -/
def matchesWildcard (actualValue filterValue : String) : Bool :=
  if filterValue.data.getLast? = some '*' then
    let stem := filterValue.data.dropLast
    decide (actualValue.data.take stem.length = stem)
  else decide (actualValue = filterValue)

/-- `this.filterJson[name]` for the names `checkFields` builds. -/
def FilterJson.get (filterJson : FilterJson) (name : String) : Option (List String) :=
  if name = "types" then filterJson.types
  else if name = "not_types" then filterJson.not_types
  else if name = "rooms" then filterJson.rooms
  else if name = "not_rooms" then filterJson.not_rooms
  else if name = "senders" then filterJson.senders
  else if name = "not_senders" then filterJson.not_senders
  else none

/-- The object `literalKeys` of `checkFields`, in the order of `Object.keys`. -/
def literalKeys (roomId sender eventType : String) : List (String × (String → Bool)) :=
  [("rooms", fun v => decide (roomId = v)),
   ("senders", fun v => decide (sender = v)),
   ("types", fun v => matchesWildcard eventType v)]

/-- The loop of `checkFields` over the literal keys: `false` when a round returns `false`. -/
def checkLiteralKeys (filterJson : FilterJson) : List (String × (String → Bool)) → Bool
  | [] => true
  | (name, matchFunc) :: rest =>
    let notName := "not_" ++ name
    let disallowedValues := filterJson.get notName
    if (match disallowedValues with
        | some values => values.any matchFunc
        | none => false) then false
    else
      let allowedValues := filterJson.get name
      if (match allowedValues with
          | some values => !values.any matchFunc
          | none => false) then false
      else checkLiteralKeys filterJson rest

/-- `checkFields(roomId, sender, eventType, containsUrl)`. -/
def checkFields (filterJson : FilterJson) (roomId sender eventType : String)
    (containsUrl : Bool) : Bool :=
  if !checkLiteralKeys filterJson (literalKeys roomId sender eventType) then false
  else
    match filterJson.contains_url with
    | some containsUrlFilter => if containsUrlFilter ≠ some containsUrl then false else true
    | none => true

/-- `check(event)`. -/
def check (filterJson : FilterJson) (event : MatrixEvent) : Bool :=
  checkFields filterJson event.roomId event.sender event.type
    (match event.content with
      | some content => content.url.isSome
      | none => false)

/-- `filter(events)`. -/
def filter (filterJson : FilterJson) (events : List MatrixEvent) : List MatrixEvent :=
  events.filter (check filterJson)

/-- The matching of event types in the words of the description: a pattern that ends in `*`
matches the types that start with the pattern minus that `*`, any other pattern matches the
identical type only. -/
def TypeMatches (eventType pattern : String) : Prop :=
  (∃ stem, pattern.data = stem ++ ['*'] ∧ ∃ rest, eventType.data = stem ++ rest) ∨
    (pattern.data.getLast? ≠ some '*' ∧ eventType = pattern)

/-- A filter of the examples: room events that `@spam:hs` has not sent. -/
def sampleFilter : FilterJson where
  types := some ["m.room.*"]
  not_types := none
  rooms := none
  not_rooms := none
  senders := none
  not_senders := some ["@spam:hs"]
  contains_url := none

/-- An event of the examples, without a URL. -/
def sampleEvent (sender type : String) : MatrixEvent where
  roomId := "!r:hs"
  sender := sender
  type := type
  content := some { url := none }

end FilterComponent

namespace Relations

/-! ## What each helper writes and emits -/

section fields

variable (s : Bucket) (event : MatrixEvent)

/-- `addAnnotationToAggregation` writes the three annotation structures only. -/
theorem addAnnotationToAggregation_frame :
    (addAnnotationToAggregation s event).1.relationType = s.relationType ∧
    (addAnnotationToAggregation s event).1.eventType = s.eventType ∧
    (addAnnotationToAggregation s event).1.relationEventIds = s.relationEventIds ∧
    (addAnnotationToAggregation s event).1.relations = s.relations ∧
    (addAnnotationToAggregation s event).1.targetEvent = s.targetEvent ∧
    (addAnnotationToAggregation s event).1.creationEmitted = s.creationEmitted ∧
    (addAnnotationToAggregation s event).1.eventStatus = s.eventStatus ∧
    (addAnnotationToAggregation s event).1.statusListeners = s.statusListeners ∧
    (addAnnotationToAggregation s event).1.redactionListeners = s.redactionListeners := by
  unfold addAnnotationToAggregation
  cases keyOf event with
  | none => simp
  | some key =>
    cases hk : isInherited key <;> cases hs : isInherited event.sender <;>
      cases h : s.annotationsByKey key <;> simp [h, hk, hs]

/-- `removeAnnotationFromAggregation` writes the three annotation structures only. -/
theorem removeAnnotationFromAggregation_frame :
    (removeAnnotationFromAggregation s event).1.relationType = s.relationType ∧
    (removeAnnotationFromAggregation s event).1.eventType = s.eventType ∧
    (removeAnnotationFromAggregation s event).1.relationEventIds = s.relationEventIds ∧
    (removeAnnotationFromAggregation s event).1.relations = s.relations ∧
    (removeAnnotationFromAggregation s event).1.targetEvent = s.targetEvent ∧
    (removeAnnotationFromAggregation s event).1.creationEmitted = s.creationEmitted ∧
    (removeAnnotationFromAggregation s event).1.eventStatus = s.eventStatus ∧
    (removeAnnotationFromAggregation s event).1.statusListeners = s.statusListeners ∧
    (removeAnnotationFromAggregation s event).1.redactionListeners = s.redactionListeners := by
  unfold removeAnnotationFromAggregation
  cases keyOf event with
  | none => simp
  | some key =>
    cases hk : isInherited key <;> cases hs : isInherited event.sender <;>
      cases h : s.annotationsByKey key <;> cases h2 : s.annotationsBySender event.sender <;>
      simp [h, h2, hk, hs]

/-- `addAnnotationToAggregation` throws exactly for the events of `aggregationThrows`. -/
theorem addAnnotationToAggregation_error :
    (addAnnotationToAggregation s event).2 = none ↔ aggregationThrows event = false := by
  unfold addAnnotationToAggregation aggregationThrows
  cases keyOf event with
  | none => simp
  | some key =>
    cases hk : isInherited key <;> cases hs : isInherited event.sender <;> simp [hk, hs]

/-- `removeAnnotationFromAggregation` throws exactly for the events of `aggregationThrows`. -/
theorem removeAnnotationFromAggregation_error :
    (removeAnnotationFromAggregation s event).2 = none ↔ aggregationThrows event = false := by
  unfold removeAnnotationFromAggregation aggregationThrows
  cases keyOf event with
  | none => simp
  | some key =>
    cases hk : isInherited key <;> cases hs : isInherited event.sender <;>
      cases h2 : (match s.annotationsByKey key with
        | some eventsForKey =>
          ({ s with
            annotationsByKey :=
              Function.update s.annotationsByKey key (some (setDelete eventsForKey event))
            sortedAnnotationsByKey :=
              sortPairs
                (Function.update s.annotationsByKey key (some (setDelete eventsForKey event)))
                s.sortedAnnotationsByKey } : Bucket)
        | none => s).annotationsBySender event.sender <;> simp [h2, hk, hs]

/-- `maybeEmitCreated` writes the `creationEmitted` flag only. -/
theorem maybeEmitCreated_frame :
    (maybeEmitCreated s).1 = { s with creationEmitted := (maybeEmitCreated s).1.creationEmitted } := by
  unfold maybeEmitCreated
  split
  · rfl
  · split
    · rfl
    · split <;> rfl

/-- `maybeEmitCreated` emits `Event.relationsCreated` or nothing. -/
theorem maybeEmitCreated_emitted (x : Emitted) (hx : x ∈ (maybeEmitCreated s).2) :
    ∃ target, s.targetEvent = some target ∧ s.creationEmitted = false ∧ s.relations ≠ [] ∧
      (maybeEmitCreated s).2 = [Emitted.relationsCreated target s.relationType s.eventType] ∧
      x = Emitted.relationsCreated target s.relationType s.eventType ∧
      (maybeEmitCreated s).1.creationEmitted = true := by
  unfold maybeEmitCreated at hx ⊢
  cases hc : s.creationEmitted with
  | true => simp [hc] at hx
  | false =>
    cases ht : s.targetEvent with
    | none => simp [hc, ht] at hx
    | some target =>
      by_cases hl : s.relations.length = 0
      · simp [hc, ht, hl] at hx
      · have hne : s.relations ≠ [] := fun h => hl (by simp [h])
        simp [hc, ht, hl, hne] at hx ⊢
        exact hx

/-- `recomputeReplacement` emits `makeReplaced` calls only. -/
theorem recomputeReplacement_emitted (x : Emitted) (hx : x ∈ recomputeReplacement s) :
    ∃ target, s.targetEvent = some target ∧ x = Emitted.makeReplaced target (getLastReplacement s) := by
  unfold recomputeReplacement at hx
  split at hx
  · split at hx
    · rename_i target ht
      exact ⟨target, ht, by simpa using hx⟩
    · simp at hx
  · simp at hx

end fields

/-! ## `addEvent` on a known and on a new event ID -/

theorem addEvent_of_known (s : Bucket) (event : MatrixEvent)
    (h : event.id ∈ s.relationEventIds) : addEvent s event = (s, []) := by
  simp [addEvent, h]

theorem accepts_iff (s : Bucket) (event : MatrixEvent) :
    accepts s event = true ↔ event.id ∉ s.relationEventIds ∧
      ∃ relation, event.relation = some relation ∧ s.relationType = relation.rel_type ∧
        s.eventType = event.type := by
  unfold accepts
  cases hr : event.relation with
  | none => simp
  | some relation => simp

theorem throwsFor_iff (s : Bucket) (event : MatrixEvent) :
    throwsFor s event = true ↔
      s.relationType = relTypeAnnotation ∧ aggregationThrows event = true := by
  simp [throwsFor]

theorem recorded_relationType (s : Bucket) (event : MatrixEvent) :
    (recorded s event).relationType = s.relationType := by
  unfold recorded
  simp only []
  split <;> rfl

/-- An accepted `addEvent` from the call of the aggregation on. -/
theorem addEvent_unfold (s : Bucket) (event : MatrixEvent) (h : accepts s event = true) :
    addEvent s event =
      match (if s.relationType = relTypeAnnotation then
          addAnnotationToAggregation (recorded s event) event else (recorded s event, none)).2 with
      | some error =>
        ((if s.relationType = relTypeAnnotation then
            addAnnotationToAggregation (recorded s event) event
          else (recorded s event, none)).1, [Emitted.typeError error])
      | none =>
        ((maybeEmitCreated
            { (if s.relationType = relTypeAnnotation then
                addAnnotationToAggregation (recorded s event) event
              else (recorded s event, none)).1 with
              redactionListeners :=
                (if s.relationType = relTypeAnnotation then
                  addAnnotationToAggregation (recorded s event) event
                else (recorded s event, none)).1.redactionListeners ++ [event] }).1,
          (if s.relationType = relTypeAnnotation then []
            else recomputeReplacement (recorded s event)) ++ [Emitted.relationsAdd event] ++
            (maybeEmitCreated
              { (if s.relationType = relTypeAnnotation then
                  addAnnotationToAggregation (recorded s event) event
                else (recorded s event, none)).1 with
                redactionListeners :=
                  (if s.relationType = relTypeAnnotation then
                    addAnnotationToAggregation (recorded s event) event
                  else (recorded s event, none)).1.redactionListeners ++ [event] }).2) := by
  obtain ⟨hk, relation, hr, hrt, he⟩ := (accepts_iff s event).mp h
  have hdef : addEvent s event =
      match (if (recorded s event).relationType = relTypeAnnotation then
          addAnnotationToAggregation (recorded s event) event else (recorded s event, none)).2 with
      | some error =>
        ((if (recorded s event).relationType = relTypeAnnotation then
            addAnnotationToAggregation (recorded s event) event
          else (recorded s event, none)).1, [Emitted.typeError error])
      | none =>
        ((maybeEmitCreated
            { (if (recorded s event).relationType = relTypeAnnotation then
                addAnnotationToAggregation (recorded s event) event
              else (recorded s event, none)).1 with
              redactionListeners :=
                (if (recorded s event).relationType = relTypeAnnotation then
                  addAnnotationToAggregation (recorded s event) event
                else (recorded s event, none)).1.redactionListeners ++ [event] }).1,
          (if (recorded s event).relationType = relTypeAnnotation then []
            else recomputeReplacement (recorded s event)) ++ [Emitted.relationsAdd event] ++
            (maybeEmitCreated
              { (if (recorded s event).relationType = relTypeAnnotation then
                  addAnnotationToAggregation (recorded s event) event
                else (recorded s event, none)).1 with
                redactionListeners :=
                  (if (recorded s event).relationType = relTypeAnnotation then
                    addAnnotationToAggregation (recorded s event) event
                  else (recorded s event, none)).1.redactionListeners ++ [event] }).2) := by
    unfold addEvent
    simp only [hk, hr, ← hrt, ← he, if_false, ne_eq, not_true_eq_false, or_self]
    rfl
  rw [hdef]
  simp only [recorded_relationType]

/-- An accepted `addEvent` that meets an inherited property: the event and its ID are
recorded, the aggregation has written what it writes before it throws, and the `TypeError` is
all that comes out. -/
theorem addEvent_of_throws (s : Bucket) (event : MatrixEvent) (h : accepts s event = true)
    (ht : throwsFor s event = true) :
    ∃ message, addEvent s event =
      ((addAnnotationToAggregation (recorded s event) event).1, [Emitted.typeError message]) := by
  obtain ⟨hann, hthrows⟩ := (throwsFor_iff s event).mp ht
  have herr : (addAnnotationToAggregation (recorded s event) event).2 ≠ none := by
    rw [ne_eq, addAnnotationToAggregation_error, hthrows]
    simp
  obtain ⟨message, hm⟩ := Option.ne_none_iff_exists'.mp herr
  refine ⟨message, ?_⟩
  rw [addEvent_unfold s event h]
  simp only [hann, if_true, hm]

/-- An accepted `addEvent` that meets no inherited property runs to its end. -/
theorem addEvent_of_plain (s : Bucket) (event : MatrixEvent) (h : accepts s event = true)
    (ht : throwsFor s event = false) :
    addEvent s event =
      ((maybeEmitCreated
          { (if s.relationType = relTypeAnnotation then
              (addAnnotationToAggregation (recorded s event) event).1
            else recorded s event) with
            redactionListeners :=
              (if s.relationType = relTypeAnnotation then
                (addAnnotationToAggregation (recorded s event) event).1
              else recorded s event).redactionListeners ++ [event] }).1,
        (if s.relationType = relTypeAnnotation then [] else recomputeReplacement (recorded s event))
          ++ [Emitted.relationsAdd event] ++
          (maybeEmitCreated
            { (if s.relationType = relTypeAnnotation then
                (addAnnotationToAggregation (recorded s event) event).1
              else recorded s event) with
              redactionListeners :=
                (if s.relationType = relTypeAnnotation then
                  (addAnnotationToAggregation (recorded s event) event).1
                else recorded s event).redactionListeners ++ [event] }).2) := by
  rw [addEvent_unfold s event h]
  by_cases hann : s.relationType = relTypeAnnotation
  · have herr : (addAnnotationToAggregation (recorded s event) event).2 = none := by
      rw [addAnnotationToAggregation_error]
      cases hth : aggregationThrows event with
      | false => rfl
      | true =>
        have := (throwsFor_iff s event).mpr ⟨hann, hth⟩
        rw [ht] at this
        cases this
    simp only [hann, if_true, herr]
  · simp only [hann, if_false]

/-- The state `addEvent` has reached when it calls the aggregation, field by field. -/
theorem recorded_fields (s : Bucket) (event : MatrixEvent) :
    (recorded s event).relationType = s.relationType ∧
    (recorded s event).eventType = s.eventType ∧
    (recorded s event).targetEvent = s.targetEvent ∧
    (recorded s event).eventStatus = s.eventStatus ∧
    (recorded s event).relations = setAdd s.relations event ∧
    (recorded s event).relationEventIds = setAdd s.relationEventIds event.id ∧
    (recorded s event).statusListeners =
      (if isSending (s.eventStatus event) then s.statusListeners ++ [event]
        else s.statusListeners) ∧
    (recorded s event).redactionListeners = s.redactionListeners ∧
    (recorded s event).creationEmitted = s.creationEmitted ∧
    (recorded s event).annotationsByKey = s.annotationsByKey ∧
    (recorded s event).annotationsBySender = s.annotationsBySender ∧
    (recorded s event).sortedAnnotationsByKey = s.sortedAnnotationsByKey := by
  unfold recorded
  simp only []
  split <;> simp

theorem addEvent_of_not_accepts (s : Bucket) (event : MatrixEvent)
    (h : accepts s event = false) : addEvent s event = (s, []) := by
  unfold accepts at h
  unfold addEvent
  by_cases hk : event.id ∈ s.relationEventIds
  · simp [hk]
  · cases hr : event.relation with
    | none => simp [hk]
    | some relation =>
      simp only [hk, hr, not_false_eq_true, decide_True, Bool.true_and,
        decide_eq_false_iff_not, not_and_or] at h
      simp only [hk, if_false, ne_eq]
      rw [if_pos h]

/-- The state after an accepted `addEvent`, field by field; the redaction listener is attached
unless the call has ended in a `TypeError`. -/
theorem addEvent_of_accepts (s : Bucket) (event : MatrixEvent) (h : accepts s event = true) :
    (addEvent s event).1.relationType = s.relationType ∧
    (addEvent s event).1.eventType = s.eventType ∧
    (addEvent s event).1.targetEvent = s.targetEvent ∧
    (addEvent s event).1.eventStatus = s.eventStatus ∧
    (addEvent s event).1.relations = setAdd s.relations event ∧
    (addEvent s event).1.relationEventIds = s.relationEventIds ++ [event.id] ∧
    (addEvent s event).1.statusListeners =
      (if isSending (s.eventStatus event) then s.statusListeners ++ [event]
        else s.statusListeners) ∧
    (addEvent s event).1.redactionListeners =
      (if throwsFor s event then s.redactionListeners
        else s.redactionListeners ++ [event]) := by
  have hk := ((accepts_iff s event).mp h).1
  have hr := recorded_fields s event
  have hids : setAdd s.relationEventIds event.id = s.relationEventIds ++ [event.id] := by
    simp [setAdd, hk]
  have ha := addAnnotationToAggregation_frame (recorded s event) event
  cases ht : throwsFor s event with
  | true =>
    obtain ⟨message, hm⟩ := addEvent_of_throws s event h ht
    rw [hm]
    simp only [ha.1, ha.2.1, ha.2.2.1, ha.2.2.2.1, ha.2.2.2.2.1, ha.2.2.2.2.2.2.1,
      ha.2.2.2.2.2.2.2.1, ha.2.2.2.2.2.2.2.2, hr.1, hr.2.1, hr.2.2.1, hr.2.2.2.1, hr.2.2.2.2.1,
      hr.2.2.2.2.2.1, hr.2.2.2.2.2.2.1, hr.2.2.2.2.2.2.2.1, hids, Bool.true_eq_false, if_true,
      and_self]
  | false =>
    rw [addEvent_of_plain s event h ht, maybeEmitCreated_frame]
    by_cases hann : s.relationType = relTypeAnnotation
    · simp only [hann, if_true, ha.1, ha.2.1, ha.2.2.1, ha.2.2.2.1, ha.2.2.2.2.1,
        ha.2.2.2.2.2.2.1, ha.2.2.2.2.2.2.2.1, ha.2.2.2.2.2.2.2.2, hr.1, hr.2.1, hr.2.2.1,
        hr.2.2.2.1, hr.2.2.2.2.1, hr.2.2.2.2.2.1, hr.2.2.2.2.2.2.1, hr.2.2.2.2.2.2.2.1, hids,
        Bool.false_eq_true, if_false, and_self]
    · simp only [hann, if_false, hr.1, hr.2.1, hr.2.2.1, hr.2.2.2.1, hr.2.2.2.2.1,
        hr.2.2.2.2.2.1, hr.2.2.2.2.2.2.1, hr.2.2.2.2.2.2.2.1, hids, Bool.false_eq_true,
        and_self]

theorem addEvent_relationEventIds (s : Bucket) (event : MatrixEvent) (relation : RelationInfo)
    (hr : event.relation = some relation) (ht : s.relationType = relation.rel_type)
    (he : s.eventType = event.type) : event.id ∈ (addEvent s event).1.relationEventIds := by
  by_cases hk : event.id ∈ s.relationEventIds
  · rw [addEvent_of_known s event hk]; exact hk
  · have hacc : accepts s event = true := (accepts_iff s event).mpr ⟨hk, relation, hr, ht, he⟩
    rw [(addEvent_of_accepts s event hacc).2.2.2.2.2.1]
    simp

/-- An `addEvent` that runs to its end emits `Relations.add` for the event exactly once; one
that ends in a `TypeError` does not emit it. -/
theorem addEvent_count_add (s : Bucket) (event : MatrixEvent) (hacc : accepts s event = true) :
    (addEvent s event).2.count (Emitted.relationsAdd event) =
      if throwsFor s event then 0 else 1 := by
  cases ht : throwsFor s event with
  | true =>
    obtain ⟨message, hm⟩ := addEvent_of_throws s event hacc ht
    rw [hm]
    simp
  | false =>
    rw [addEvent_of_plain s event hacc ht]
    simp only [Bool.false_eq_true, if_false]
    rw [List.count_append, List.count_append]
    have h1 : ∀ b : Bucket, (recomputeReplacement b).count (Emitted.relationsAdd event) = 0 := by
      intro b
      rw [List.count_eq_zero]
      intro hx
      obtain ⟨t, -, h⟩ := recomputeReplacement_emitted b _ hx
      cases h
    have h2 : ∀ b : Bucket, (maybeEmitCreated b).2.count (Emitted.relationsAdd event) = 0 := by
      intro b
      rw [List.count_eq_zero]
      intro hx
      obtain ⟨t, -, -, -, -, h, -⟩ := maybeEmitCreated_emitted b _ hx
      cases h
    rw [h2]
    split <;> simp [h1]

/-! ## C1: inserting the same event twice -/

/-- C1 as stated fails: the event matches the bucket, yet the two `addEvent` calls emit
`Relations.add` for it zero times, not once, because the bucket already knows its ID: from
another event object with the same ID in the first bucket, from an earlier insertion of the
event that was followed by its removal in the second. -/
theorem addEvent_twice_counterexample :
    (sampleReaction 1 "$a" "@u:hs" "+").relation
        = some { rel_type := bucketWithCopy.relationType, key := some "+" } ∧
      (sampleReaction 1 "$a" "@u:hs" "+").type = bucketWithCopy.eventType ∧
      sampleReaction 1 "$a" "@u:hs" "+" ∉ getRelations bucketWithCopy ∧
      ((addEvent bucketWithCopy (sampleReaction 1 "$a" "@u:hs" "+")).2 ++
        (addEvent (addEvent bucketWithCopy (sampleReaction 1 "$a" "@u:hs" "+")).1
          (sampleReaction 1 "$a" "@u:hs" "+")).2).count
        (Emitted.relationsAdd (sampleReaction 1 "$a" "@u:hs" "+")) ≠ 1 ∧
      (sampleReaction 1 "$a" "@u:hs" "+").relation
        = some { rel_type := bucketAfterRemoval.relationType, key := some "+" } ∧
      (sampleReaction 1 "$a" "@u:hs" "+").type = bucketAfterRemoval.eventType ∧
      ((addEvent bucketAfterRemoval (sampleReaction 1 "$a" "@u:hs" "+")).2 ++
        (addEvent (addEvent bucketAfterRemoval (sampleReaction 1 "$a" "@u:hs" "+")).1
          (sampleReaction 1 "$a" "@u:hs" "+")).2).count
        (Emitted.relationsAdd (sampleReaction 1 "$a" "@u:hs" "+")) ≠ 1 := by
  decide

/-- C1, amended: for an event that matches the bucket, a second `addEvent` returns the state
of the first unchanged (members, known IDs, groupings, sorted keys, listeners) and emits
nothing. When the first call runs to its end, that is unless the bucket holds annotations and
the key or the sender of the event names a property inherited from `Object.prototype`,
`Relations.add` is emitted for the event over both calls once when its ID was new to the
bucket and not at all when the bucket knew the ID already. -/
theorem addEvent_twice (s : Bucket) (event : MatrixEvent) (relation : RelationInfo)
    (hr : event.relation = some relation) (ht : s.relationType = relation.rel_type)
    (he : s.eventType = event.type) :
    addEvent (addEvent s event).1 event = ((addEvent s event).1, []) ∧
      (throwsFor s event = false →
        ((addEvent s event).2 ++ (addEvent (addEvent s event).1 event).2).count
            (Emitted.relationsAdd event)
          = if event.id ∈ s.relationEventIds then 0 else 1) := by
  have h2 : addEvent (addEvent s event).1 event = ((addEvent s event).1, []) :=
    addEvent_of_known _ _ (addEvent_relationEventIds s event relation hr ht he)
  refine ⟨h2, ?_⟩
  intro hplain
  rw [h2]
  by_cases hk : event.id ∈ s.relationEventIds
  · simp [hk, addEvent_of_known s event hk]
  · have hacc : accepts s event = true := (accepts_iff s event).mpr ⟨hk, relation, hr, ht, he⟩
    simp [hk, addEvent_count_add s event hacc, hplain]

/-- Witness for `addEvent_twice`: a new reaction in a new bucket. -/
theorem addEvent_twice_witness :
    addEvent (addEvent (Bucket.create relTypeAnnotation "m.reaction")
          (sampleReaction 1 "$a" "@u:hs" "+")).1 (sampleReaction 1 "$a" "@u:hs" "+")
        = ((addEvent (Bucket.create relTypeAnnotation "m.reaction")
          (sampleReaction 1 "$a" "@u:hs" "+")).1, []) ∧
      ((addEvent (Bucket.create relTypeAnnotation "m.reaction")
            (sampleReaction 1 "$a" "@u:hs" "+")).2 ++
          (addEvent (addEvent (Bucket.create relTypeAnnotation "m.reaction")
            (sampleReaction 1 "$a" "@u:hs" "+")).1 (sampleReaction 1 "$a" "@u:hs" "+")).2).count
          (Emitted.relationsAdd (sampleReaction 1 "$a" "@u:hs" "+")) = 1 :=
  ⟨(addEvent_twice (Bucket.create relTypeAnnotation "m.reaction")
      (sampleReaction 1 "$a" "@u:hs" "+")
      { rel_type := relTypeAnnotation, key := some "+" } rfl rfl rfl).1,
    ((addEvent_twice (Bucket.create relTypeAnnotation "m.reaction")
      (sampleReaction 1 "$a" "@u:hs" "+")
      { rel_type := relTypeAnnotation, key := some "+" } rfl rfl rfl).2 (by decide)).trans
      (by decide)⟩

/-! ## The replacement fold -/

theorem replacementStep_of_not_passes (target event : MatrixEvent) (last : Option MatrixEvent)
    (h : passesFilters target event = false) :
    replacementStep target target.serverReplaceTs last event = last := by
  unfold replacementStep
  unfold passesFilters at h
  by_cases hs : event.sender = target.sender
  · cases hm : target.serverReplaceTs with
    | none => simp [hs, hm] at h
    | some m =>
      simp only [hs, hm, decide_True, Bool.true_and, decide_eq_false_iff_not, not_le] at h
      have hm0 : m ≠ 0 := by omega
      simp [hs, hm0, h]
  · simp [hs]

theorem replacementStep_of_passes (target event : MatrixEvent) (last : Option MatrixEvent)
    (h : passesFilters target event = true) :
    replacementStep target target.serverReplaceTs last event =
      match last with
      | some l => if event.ts < l.ts then some l else some event
      | none => some event := by
  unfold replacementStep
  unfold passesFilters at h
  simp only [Bool.and_eq_true, decide_eq_true_eq] at h
  obtain ⟨hs, hm⟩ := h
  have h1 : (match target.serverReplaceTs with
      | some m => decide (m ≠ 0) && decide (m > event.ts)
      | none => false) = false := by
    cases hts : target.serverReplaceTs with
    | none => rfl
    | some m =>
      rw [hts] at hm
      simp only [decide_eq_true_eq] at hm
      have : ¬ (event.ts < m) := by omega
      simp [this]
  rw [h1]
  cases last with
  | none => simp [hs]
  | some l => simp [hs]

/-- What the fold returns: nothing when no member passes the filters; otherwise a member that
passes them, with no passing member of a larger timestamp before it and every passing member
after it of a strictly smaller timestamp. -/
theorem foldl_replacementStep (target : MatrixEvent) (l : List MatrixEvent) :
    match l.foldl (replacementStep target target.serverReplaceTs) none with
    | none => ∀ e ∈ l, passesFilters target e = false
    | some r => ∃ l1 l2, l = l1 ++ r :: l2 ∧ passesFilters target r = true ∧
        (∀ e ∈ l1, passesFilters target e = true → e.ts ≤ r.ts) ∧
        (∀ e ∈ l2, passesFilters target e = true → e.ts < r.ts) := by
  induction l using List.reverseRecOn with
  | nil => simp
  | append_singleton l e ih =>
    rw [List.foldl_append, List.foldl_cons, List.foldl_nil]
    by_cases hp : passesFilters target e = true
    · rw [replacementStep_of_passes target e _ hp]
      cases hf : l.foldl (replacementStep target target.serverReplaceTs) none with
      | none =>
        rw [hf] at ih
        exact ⟨l, [], rfl, hp, fun e2 h2 hp2 => by simp [ih e2 h2] at hp2, by simp⟩
      | some r =>
        rw [hf] at ih
        obtain ⟨l1, l2, hl, hr, h1, h2⟩ := ih
        by_cases hlt : e.ts < r.ts
        · simp only [hlt, if_true]
          refine ⟨l1, l2 ++ [e], by simp [hl], hr, h1, ?_⟩
          intro e2 he2 hp2
          rcases List.mem_append.mp he2 with h | h
          · exact h2 e2 h hp2
          · simp at h; subst h; exact hlt
        · simp only [hlt, if_false]
          refine ⟨l, [], rfl, hp, ?_, by simp⟩
          intro e2 he2 hp2
          rw [hl] at he2
          rcases List.mem_append.mp he2 with h | h
          · have := h1 e2 h hp2; omega
          · rcases List.mem_cons.mp h with h | h
            · subst h; omega
            · have := h2 e2 h hp2; omega
    · have hp : passesFilters target e = false := by simpa using hp
      rw [replacementStep_of_not_passes target e _ hp]
      cases hf : l.foldl (replacementStep target target.serverReplaceTs) none with
      | none =>
        rw [hf] at ih
        intro e2 he2
        rcases List.mem_append.mp he2 with h | h
        · exact ih e2 h
        · simp at h; subst h; exact hp
      | some r =>
        rw [hf] at ih
        obtain ⟨l1, l2, hl, hr, h1, h2⟩ := ih
        refine ⟨l1, l2 ++ [e], by simp [hl], hr, h1, ?_⟩
        intro e2 he2 hp2
        rcases List.mem_append.mp he2 with h | h
        · exact h2 e2 h hp2
        · simp at h; subst h; simp [hp] at hp2

theorem getLastReplacement_eq_foldl (s : Bucket) (target : MatrixEvent)
    (ht : s.relationType = relTypeReplace) (hs : s.targetEvent = some target) :
    getLastReplacement s =
      (getRelations s).foldl (replacementStep target target.serverReplaceTs) none := by
  simp [getLastReplacement, ht, hs]

theorem getLastReplacement_some (s : Bucket) (r : MatrixEvent)
    (h : getLastReplacement s = some r) :
    s.relationType = relTypeReplace ∧ ∃ target, s.targetEvent = some target ∧
      ∃ l1 l2, getRelations s = l1 ++ r :: l2 ∧ passesFilters target r = true ∧
        (∀ e ∈ l1, passesFilters target e = true → e.ts ≤ r.ts) ∧
        (∀ e ∈ l2, passesFilters target e = true → e.ts < r.ts) := by
  by_cases ht : s.relationType = relTypeReplace
  · cases hs : s.targetEvent with
    | none => simp [getLastReplacement, ht, hs] at h
    | some target =>
      refine ⟨ht, target, rfl, ?_⟩
      have hf := foldl_replacementStep target (getRelations s)
      rw [← getLastReplacement_eq_foldl s target ht hs, h] at hf
      exact hf
  · simp [getLastReplacement, ht] at h

theorem getLastReplacement_none (s : Bucket) (target : MatrixEvent)
    (ht : s.relationType = relTypeReplace) (hs : s.targetEvent = some target) :
    getLastReplacement s = none ↔ ∀ e ∈ getRelations s, passesFilters target e = false := by
  have hf := foldl_replacementStep target (getRelations s)
  rw [← getLastReplacement_eq_foldl s target ht hs] at hf
  constructor
  · intro h
    rw [h] at hf
    exact hf
  · intro h
    cases hr : getLastReplacement s with
    | none => rfl
    | some r =>
      rw [hr] at hf
      obtain ⟨l1, l2, hl, hp, -, -⟩ := hf
      have := h r (by rw [hl]; simp)
      simp [this] at hp

/-! ## C2: what `getLastReplacement` returns -/

/-- C2: a returned event `r` is a member sent by the target's sender, with a timestamp not
below the server-declared replacement timestamp of the target, and no member passing these two
filters has a larger timestamp; `null` is returned exactly when the bucket is not of type
`m.replace`, or the target is unknown, or no member passes both filters. -/
theorem getLastReplacement_spec (s : Bucket) :
    (∀ r, getLastReplacement s = some r →
      s.relationType = relTypeReplace ∧ ∃ target, s.targetEvent = some target ∧
        r ∈ getRelations s ∧ r.sender = target.sender ∧
        (∀ m, target.serverReplaceTs = some m → m ≤ r.ts) ∧
        ∀ e ∈ getRelations s, passesFilters target e = true → e.ts ≤ r.ts) ∧
    (getLastReplacement s = none ↔
      (s.relationType ≠ relTypeReplace ∨ s.targetEvent = none ∨
        ∃ target, s.targetEvent = some target ∧
          ∀ e ∈ getRelations s, passesFilters target e = false)) := by
  constructor
  · intro r h
    obtain ⟨ht, target, hs, l1, l2, hl, hp, h1, h2⟩ := getLastReplacement_some s r h
    refine ⟨ht, target, hs, by rw [hl]; simp, ?_, ?_, ?_⟩
    · unfold passesFilters at hp
      simp only [Bool.and_eq_true, decide_eq_true_eq] at hp
      exact hp.1
    · intro m hm
      unfold passesFilters at hp
      simp only [Bool.and_eq_true, decide_eq_true_eq, hm] at hp
      exact hp.2
    · intro e he hpe
      rw [hl] at he
      rcases List.mem_append.mp he with h | h
      · exact h1 e h hpe
      · rcases List.mem_cons.mp h with h | h
        · subst h; exact le_refl _
        · exact le_of_lt (h2 e h hpe)
  · by_cases ht : s.relationType = relTypeReplace
    · cases hs : s.targetEvent with
      | none => simp [getLastReplacement, ht, hs]
      | some target =>
        rw [getLastReplacement_none s target ht hs]
        simp [ht]
    · simp [getLastReplacement, ht]

/-- Witness for `getLastReplacement_spec`: the bucket of edits returns the second edit. -/
theorem getLastReplacement_spec_witness :
    bucketOfEdits.relationType = relTypeReplace ∧ ∃ target, bucketOfEdits.targetEvent = some target ∧
      sampleEdit 2 "$e2" "@a:hs" 5 ∈ getRelations bucketOfEdits ∧
      (sampleEdit 2 "$e2" "@a:hs" 5).sender = target.sender ∧
      (∀ m, target.serverReplaceTs = some m → m ≤ (sampleEdit 2 "$e2" "@a:hs" 5).ts) ∧
      ∀ e ∈ getRelations bucketOfEdits, passesFilters target e = true →
        e.ts ≤ (sampleEdit 2 "$e2" "@a:hs" 5).ts :=
  (getLastReplacement_spec bucketOfEdits).1 (sampleEdit 2 "$e2" "@a:hs" 5) (by decide)

/-! ## C3: equal timestamps -/

/-- C3 as stated fails: the two edits `$e1` and `$e2` pass both filters and share the largest
timestamp, `$e1` was inserted first, and the fold returns `$e2`. -/
theorem getLastReplacement_tie_counterexample :
    getRelations bucketOfEdits =
        [sampleEdit 1 "$e1" "@a:hs" 5, sampleEdit 2 "$e2" "@a:hs" 5,
         sampleEdit 3 "$e3" "@a:hs" 2, sampleEdit 4 "$e4" "@b:hs" 9] ∧
      passesFilters (sampleMessage "@a:hs" (some 3)) (sampleEdit 1 "$e1" "@a:hs" 5) = true ∧
      passesFilters (sampleMessage "@a:hs" (some 3)) (sampleEdit 2 "$e2" "@a:hs" 5) = true ∧
      getLastReplacement bucketOfEdits = some (sampleEdit 2 "$e2" "@a:hs" 5) ∧
      getLastReplacement bucketOfEdits ≠ some (sampleEdit 1 "$e1" "@a:hs" 5) := by
  decide

/-- C3, amended: when several members that pass both filters share the largest timestamp, the
fold returns the one inserted last: every passing member that comes after the returned event in
insertion order has a strictly smaller timestamp, and none before it has a larger one. -/
theorem getLastReplacement_tie (s : Bucket) (r : MatrixEvent)
    (h : getLastReplacement s = some r) :
    ∃ target, s.targetEvent = some target ∧
      ∃ before after, getRelations s = before ++ r :: after ∧
        (∀ e ∈ before, passesFilters target e = true → e.ts ≤ r.ts) ∧
        (∀ e ∈ after, passesFilters target e = true → e.ts < r.ts) := by
  obtain ⟨-, target, hs, l1, l2, hl, -, h1, h2⟩ := getLastReplacement_some s r h
  exact ⟨target, hs, l1, l2, hl, h1, h2⟩

/-- Witness for `getLastReplacement_tie` on the bucket of edits. -/
theorem getLastReplacement_tie_witness :
    ∃ target, bucketOfEdits.targetEvent = some target ∧
      ∃ before after,
        getRelations bucketOfEdits = before ++ sampleEdit 2 "$e2" "@a:hs" 5 :: after ∧
        (∀ e ∈ before, passesFilters target e = true → e.ts ≤ (sampleEdit 2 "$e2" "@a:hs" 5).ts) ∧
        (∀ e ∈ after, passesFilters target e = true → e.ts < (sampleEdit 2 "$e2" "@a:hs" 5).ts) :=
  getLastReplacement_tie bucketOfEdits (sampleEdit 2 "$e2" "@a:hs" 5) (by decide)

/-! ## What the operations keep -/

theorem addEvent_relationType (s : Bucket) (event : MatrixEvent) :
    (addEvent s event).1.relationType = s.relationType := by
  cases h : accepts s event
  · rw [addEvent_of_not_accepts s event h]
  · exact (addEvent_of_accepts s event h).1

theorem addEvent_eventType (s : Bucket) (event : MatrixEvent) :
    (addEvent s event).1.eventType = s.eventType := by
  cases h : accepts s event
  · rw [addEvent_of_not_accepts s event h]
  · exact (addEvent_of_accepts s event h).2.1

theorem addEvent_targetEvent (s : Bucket) (event : MatrixEvent) :
    (addEvent s event).1.targetEvent = s.targetEvent := by
  cases h : accepts s event
  · rw [addEvent_of_not_accepts s event h]
  · exact (addEvent_of_accepts s event h).2.2.1

theorem addEvent_relations (s : Bucket) (event : MatrixEvent) :
    (addEvent s event).1.relations =
      if accepts s event then setAdd s.relations event else s.relations := by
  cases h : accepts s event
  · rw [addEvent_of_not_accepts s event h]; simp
  · simpa using (addEvent_of_accepts s event h).2.2.2.2.1

/-- The state `removeEvent` returns: the state it was called on, or the state with the member
deleted, or that state as `removeAnnotationFromAggregation` leaves it. -/
theorem removeEvent_fst (s : Bucket) (event : MatrixEvent) :
    (removeEvent s event).1 = s ∨ (removeEvent s event).1 = unrecorded s event ∨
      (removeEvent s event).1 = (removeAnnotationFromAggregation (unrecorded s event) event).1 := by
  unfold removeEvent unrecorded
  split
  · simp
  · split
    · simp
    · split
      · simp
      · simp only []
        by_cases hann : s.relationType = relTypeAnnotation
        · simp only [hann, if_true]
          right; right
          split <;> rfl
        · simp only [hann, if_false]
          right; left; trivial

/-- The state after `removeEvent`: only the member set and the groupings change. -/
theorem removeEvent_frame (s : Bucket) (event : MatrixEvent) :
    (removeEvent s event).1.relationType = s.relationType ∧
    (removeEvent s event).1.eventType = s.eventType ∧
    (removeEvent s event).1.targetEvent = s.targetEvent ∧
    (removeEvent s event).1.eventStatus = s.eventStatus ∧
    (removeEvent s event).1.relationEventIds = s.relationEventIds ∧
    (removeEvent s event).1.statusListeners = s.statusListeners ∧
    (removeEvent s event).1.redactionListeners = s.redactionListeners ∧
    (removeEvent s event).1.creationEmitted = s.creationEmitted ∧
    ((removeEvent s event).1.relations = s.relations ∨
      (removeEvent s event).1.relations = setDelete s.relations event) := by
  rcases removeEvent_fst s event with h | h | h <;> rw [h]
  · simp
  · simp [unrecorded]
  · simp [removeAnnotationFromAggregation_frame, unrecorded]

/-- The state `onBeforeRedaction` returns: the state it was called on, or, with the member
deleted, the state as the aggregation leaves it, with the listener detached unless the
aggregation has thrown. -/
theorem onBeforeRedaction_fst (s : Bucket) (event : MatrixEvent) :
    (onBeforeRedaction s event).1 = s ∨
      (onBeforeRedaction s event).1 = (removeAnnotationFromAggregation (unrecorded s event) event).1 ∨
      (onBeforeRedaction s event).1 =
        { (unrecorded s event) with
          redactionListeners := removeListener s.redactionListeners event } ∨
      (onBeforeRedaction s event).1 =
        { (removeAnnotationFromAggregation (unrecorded s event) event).1 with
          redactionListeners := removeListener s.redactionListeners event } := by
  unfold onBeforeRedaction unrecorded
  split
  · simp
  · simp only []
    by_cases hann : s.relationType = relTypeAnnotation
    · simp only [hann, if_true]
      split
      · right; left; rfl
      · right; right; right
        simp only [removeAnnotationFromAggregation_frame]
    · simp only [hann, if_false]
      right; right; left; trivial

theorem onBeforeRedaction_frame (s : Bucket) (event : MatrixEvent) :
    (onBeforeRedaction s event).1.relationType = s.relationType ∧
    (onBeforeRedaction s event).1.eventType = s.eventType ∧
    (onBeforeRedaction s event).1.targetEvent = s.targetEvent ∧
    (onBeforeRedaction s event).1.eventStatus = s.eventStatus ∧
    (onBeforeRedaction s event).1.relationEventIds = s.relationEventIds ∧
    (onBeforeRedaction s event).1.statusListeners = s.statusListeners ∧
    (onBeforeRedaction s event).1.creationEmitted = s.creationEmitted ∧
    ((onBeforeRedaction s event).1.relations = s.relations ∨
      (onBeforeRedaction s event).1.relations = setDelete s.relations event) := by
  rcases onBeforeRedaction_fst s event with h | h | h | h <;> rw [h]
  · simp
  · simp [removeAnnotationFromAggregation_frame, unrecorded]
  · simp [unrecorded]
  · simp [removeAnnotationFromAggregation_frame, unrecorded]

theorem onEventStatus_frame (s : Bucket) (event : MatrixEvent) (status : Option EventStatus) :
    (onEventStatus s event status).1.relationType = s.relationType ∧
    (onEventStatus s event status).1.eventType = s.eventType ∧
    (onEventStatus s event status).1.targetEvent = s.targetEvent ∧
    (onEventStatus s event status).1.eventStatus = s.eventStatus ∧
    (onEventStatus s event status).1.relationEventIds = s.relationEventIds ∧
    (onEventStatus s event status).1.redactionListeners = s.redactionListeners ∧
    (onEventStatus s event status).1.creationEmitted = s.creationEmitted ∧
    ((onEventStatus s event status).1.relations = s.relations ∨
      (onEventStatus s event status).1.relations = setDelete s.relations event) := by
  unfold onEventStatus
  split
  · simp
  · split
    · simp
    · have h := removeEvent_frame
        { s with statusListeners := removeListener s.statusListeners event } event
      simpa using ⟨h.1, h.2.1, h.2.2.1, h.2.2.2.1, h.2.2.2.2.1, h.2.2.2.2.2.2.1,
        h.2.2.2.2.2.2.2.1, h.2.2.2.2.2.2.2.2⟩

theorem setTargetEvent_frame (s : Bucket) (event : MatrixEvent) :
    (setTargetEvent s event).1.relationType = s.relationType ∧
    (setTargetEvent s event).1.eventType = s.eventType ∧
    (setTargetEvent s event).1.targetEvent = some (s.targetEvent.getD event) ∧
    (setTargetEvent s event).1.eventStatus = s.eventStatus ∧
    (setTargetEvent s event).1.relationEventIds = s.relationEventIds ∧
    (setTargetEvent s event).1.relations = s.relations ∧
    (setTargetEvent s event).1.annotationsByKey = s.annotationsByKey ∧
    (setTargetEvent s event).1.annotationsBySender = s.annotationsBySender ∧
    (setTargetEvent s event).1.sortedAnnotationsByKey = s.sortedAnnotationsByKey ∧
    (setTargetEvent s event).1.statusListeners = s.statusListeners ∧
    (setTargetEvent s event).1.redactionListeners = s.redactionListeners := by
  unfold setTargetEvent
  cases h : s.targetEvent with
  | some t => simp [h]
  | none =>
    simp only []
    rw [maybeEmitCreated_frame]
    simp

/-! ## Invariants along a sequence of operations -/

theorem callListeners_preserves (P : Bucket → Prop) (listener : Bucket → Bucket × List Emitted)
    (h : ∀ s, P s → P (listener s).1) (n : Nat) (s : Bucket) (hs : P s) :
    P (callListeners listener n s).1 := by
  induction n generalizing s with
  | zero => exact hs
  | succ n ih => exact ih (listener s).1 (h s hs)

/-- A property kept by the three methods, by the two listeners and by a change of an event's
status is kept by every operation. -/
theorem step_preserves (P : Bucket → Prop)
    (hadd : ∀ s e, P s → P (addEvent s e).1)
    (hremove : ∀ s e, P s → P (removeEvent s e).1)
    (htarget : ∀ s e, P s → P (setTargetEvent s e).1)
    (hstatus : ∀ s e st, P s → P (onEventStatus s e st).1)
    (hredact : ∀ s e, P s → P (onBeforeRedaction s e).1)
    (hupdate : ∀ s f, P s → P { s with eventStatus := f })
    (s : Bucket) (op : Op) (hs : P s) : P (step s op).1 := by
  cases op with
  | addEvent e => exact hadd s e hs
  | removeEvent e => exact hremove s e hs
  | setTargetEvent e => exact htarget s e hs
  | setStatus e st =>
    exact callListeners_preserves P _ (fun b hb => hstatus b e st hb) _ _ (hupdate s _ hs)
  | beforeRedaction e =>
    exact callListeners_preserves P _ (fun b hb => hredact b e hb) _ _ hs

theorem run_preserves (P : Bucket → Prop) (h : ∀ s op, P s → P (step s op).1)
    (ops : List Op) (s : Bucket) (hs : P s) : P (run s ops).1 := by
  induction ops generalizing s with
  | nil => exact hs
  | cons op ops ih => exact ih (step s op).1 (h s op hs)

/-- No operation changes the relation type or the event type of a bucket, and none changes a
target event that is set. -/
theorem step_identity (rt et : String) (target : Option MatrixEvent) (s : Bucket) (op : Op)
    (hs : s.relationType = rt ∧ s.eventType = et ∧ (∀ t, target = some t → s.targetEvent = some t)) :
    (step s op).1.relationType = rt ∧ (step s op).1.eventType = et ∧
      (∀ t, target = some t → (step s op).1.targetEvent = some t) := by
  refine step_preserves
    (fun b => b.relationType = rt ∧ b.eventType = et ∧ (∀ t, target = some t → b.targetEvent = some t))
    ?_ ?_ ?_ ?_ ?_ ?_ s op hs
  · intro b e hb
    rw [addEvent_relationType, addEvent_eventType, addEvent_targetEvent]
    exact hb
  · intro b e hb
    have h := removeEvent_frame b e
    rw [h.1, h.2.1, h.2.2.1]
    exact hb
  · intro b e hb
    have h := setTargetEvent_frame b e
    rw [h.1, h.2.1, h.2.2.1]
    refine ⟨hb.1, hb.2.1, fun t ht => ?_⟩
    rw [hb.2.2 t ht]
    rfl
  · intro b e st hb
    have h := onEventStatus_frame b e st
    rw [h.1, h.2.1, h.2.2.1]
    exact hb
  · intro b e hb
    have h := onBeforeRedaction_frame b e
    rw [h.1, h.2.1, h.2.2.1]
    exact hb
  · intro b f hb
    exact hb

theorem run_identity (rt et : String) (target : Option MatrixEvent) (ops : List Op) (s : Bucket)
    (hs : s.relationType = rt ∧ s.eventType = et ∧ (∀ t, target = some t → s.targetEvent = some t)) :
    (run s ops).1.relationType = rt ∧ (run s ops).1.eventType = et ∧
      (∀ t, target = some t → (run s ops).1.targetEvent = some t) :=
  run_preserves _ (step_identity rt et target) ops s hs

/-! ## C4: edits of other senders -/

/-- C4: in a bucket whose target event is known, whatever operations follow (insertions,
removals, cancellations, redactions), `getLastReplacement` never returns an event whose
sender differs from the sender of the target. -/
theorem getLastReplacement_sender (s : Bucket) (target : MatrixEvent) (ops : List Op)
    (hs : s.targetEvent = some target) (r : MatrixEvent)
    (hr : getLastReplacement (run s ops).1 = some r) : r.sender = target.sender := by
  have hrun := (run_identity s.relationType s.eventType (some target) ops s
    ⟨rfl, rfl, fun t ht => by rw [hs, ← ht]⟩).2.2 target rfl
  obtain ⟨-, t, ht, -, -, -, hp, -⟩ := getLastReplacement_some (run s ops).1 r hr
  rw [hrun] at ht
  cases ht
  unfold passesFilters at hp
  simp only [Bool.and_eq_true, decide_eq_true_eq] at hp
  exact hp.1

/-- Witness for `getLastReplacement_sender`: the newest edit of the bucket of edits comes from
another sender and is not returned, also after the returned edit has been removed. -/
theorem getLastReplacement_sender_witness :
    (sampleEdit 1 "$e1" "@a:hs" 5).sender = (sampleMessage "@a:hs" (some 3)).sender :=
  getLastReplacement_sender bucketOfEdits (sampleMessage "@a:hs" (some 3))
    [Op.removeEvent (sampleEdit 2 "$e2" "@a:hs" 5)] (by decide)
    (sampleEdit 1 "$e1" "@a:hs" 5) (by decide)

/-! ## C5: the replacement after further insertions -/

theorem getLastReplacement_congr (s t : Bucket) (h1 : t.relationType = s.relationType)
    (h2 : t.targetEvent = s.targetEvent) (h3 : t.relations = s.relations) :
    getLastReplacement t = getLastReplacement s := by
  simp [getLastReplacement, getRelations, h1, h2, h3]

theorem getLastReplacement_addEvent (s : Bucket) (event r : MatrixEvent)
    (h : getLastReplacement s = some r) :
    ∃ r2, getLastReplacement (addEvent s event).1 = some r2 ∧ r.ts ≤ r2.ts := by
  have hrel := addEvent_relations s event
  by_cases hsame : (addEvent s event).1.relations = s.relations
  · refine ⟨r, ?_, le_refl _⟩
    rw [getLastReplacement_congr s _ (addEvent_relationType s event)
      (addEvent_targetEvent s event) hsame, h]
  · have happ : (addEvent s event).1.relations = s.relations ++ [event] := by
      rw [hrel] at hsame ⊢
      unfold setAdd at hsame ⊢
      split at hsame
      · split at hsame
        · exact absurd rfl hsame
        · rename_i h1 h2; simp [h1, h2]
      · exact absurd rfl hsame
    obtain ⟨ht, target, hs, -⟩ := getLastReplacement_some s r h
    have h2 : getLastReplacement (addEvent s event).1 =
        replacementStep target target.serverReplaceTs (some r) event := by
      rw [getLastReplacement_eq_foldl _ target
        (by rw [addEvent_relationType, ht]) (by rw [addEvent_targetEvent, hs])]
      rw [getLastReplacement_eq_foldl s target ht hs] at h
      unfold getRelations at h ⊢
      rw [happ, List.foldl_append, h]
      rfl
    rw [h2]
    cases hp : passesFilters target event
    · exact ⟨r, replacementStep_of_not_passes target event _ hp, le_refl _⟩
    · rw [replacementStep_of_passes target event _ hp]
      by_cases hlt : event.ts < r.ts
      · exact ⟨r, by simp [hlt], le_refl _⟩
      · exact ⟨event, by simp [hlt], by omega⟩

/-- C5: once `getLastReplacement` has returned an event with timestamp `T`, it returns an
event with a timestamp of at least `T` after any further `addEvent` calls, whatever the
senders and timestamps of the added events. -/
theorem getLastReplacement_monotone (s : Bucket) (r : MatrixEvent) (events : List MatrixEvent)
    (h : getLastReplacement s = some r) :
    ∃ r2, getLastReplacement (run s (events.map Op.addEvent)).1 = some r2 ∧ r.ts ≤ r2.ts := by
  induction events generalizing s r with
  | nil => exact ⟨r, h, le_refl _⟩
  | cons e events ih =>
    obtain ⟨r1, h1, hle1⟩ := getLastReplacement_addEvent s e r h
    obtain ⟨r2, h2, hle2⟩ := ih (addEvent s e).1 r1 h1
    exact ⟨r2, h2, le_trans hle1 hle2⟩

/-- Witness for `getLastReplacement_monotone`: an older edit by the author and a newer edit
by someone else are added to the bucket of edits. -/
theorem getLastReplacement_monotone_witness :
    ∃ r2, getLastReplacement (run bucketOfEdits
        ([sampleEdit 5 "$e5" "@a:hs" 4, sampleEdit 6 "$e6" "@b:hs" 7].map Op.addEvent)).1 = some r2 ∧
      (sampleEdit 2 "$e2" "@a:hs" 5).ts ≤ r2.ts :=
  getLastReplacement_monotone bucketOfEdits (sampleEdit 2 "$e2" "@a:hs" 5)
    [sampleEdit 5 "$e5" "@a:hs" 4, sampleEdit 6 "$e6" "@b:hs" 7] (by decide)

/-! ## C6 -/

/-- The key structures after `addAnnotationToAggregation` of an event whose key names no
inherited property; they are written before the sender is looked up. -/
theorem addAnnotationToAggregation_byKey (s : Bucket) (event : MatrixEvent) (key : String)
    (hkey : keyOf event = some key) (hin : isInherited key = false) :
    (addAnnotationToAggregation s event).1.annotationsByKey =
        Function.update s.annotationsByKey key
          (some (setAdd ((s.annotationsByKey key).getD []) event)) ∧
      (addAnnotationToAggregation s event).1.sortedAnnotationsByKey =
        sortPairs (Function.update s.annotationsByKey key
            (some (setAdd ((s.annotationsByKey key).getD []) event)))
          (if s.annotationsByKey key = none then s.sortedAnnotationsByKey ++ [key]
            else s.sortedAnnotationsByKey) := by
  unfold addAnnotationToAggregation
  simp only [hkey, hin]
  cases hb : s.annotationsByKey key <;> cases hs : isInherited event.sender <;> simp [hb, hs]

/-- The key structures `addAnnotationToAggregation` leaves for an event whose key names an
inherited property are those it found. -/
theorem addAnnotationToAggregation_inherited (s : Bucket) (event : MatrixEvent) (key : String)
    (hkey : keyOf event = some key) (hin : isInherited key = true) :
    (addAnnotationToAggregation s event).1 = s := by
  unfold addAnnotationToAggregation
  simp [hkey, hin]

/-- The three annotation structures after an accepted `addEvent` are those the aggregation
leaves in an annotation bucket, and those of the state before in another bucket. -/
theorem addEvent_groups (s : Bucket) (event : MatrixEvent) (hacc : accepts s event = true) :
    (addEvent s event).1.annotationsByKey =
        (if s.relationType = relTypeAnnotation then
          (addAnnotationToAggregation (recorded s event) event).1 else s).annotationsByKey ∧
      (addEvent s event).1.annotationsBySender =
        (if s.relationType = relTypeAnnotation then
          (addAnnotationToAggregation (recorded s event) event).1 else s).annotationsBySender ∧
      (addEvent s event).1.sortedAnnotationsByKey =
        (if s.relationType = relTypeAnnotation then
          (addAnnotationToAggregation (recorded s event) event).1
          else s).sortedAnnotationsByKey := by
  have hr := recorded_fields s event
  cases ht : throwsFor s event with
  | true =>
    obtain ⟨message, hm⟩ := addEvent_of_throws s event hacc ht
    rw [hm]
    simp [((throwsFor_iff s event).mp ht).1]
  | false =>
    rw [addEvent_of_plain s event hacc ht, maybeEmitCreated_frame]
    by_cases hann : s.relationType = relTypeAnnotation
    · simp [hann]
    · simp [hann, hr.2.2.2.2.2.2.2.2.2.1, hr.2.2.2.2.2.2.2.2.2.2.1, hr.2.2.2.2.2.2.2.2.2.2.2]

/-- The annotation structures after an accepted `addEvent` of an event with a key that names
no inherited property. -/
theorem addEvent_annotation (s : Bucket) (event : MatrixEvent) (key : String)
    (hrt : s.relationType = relTypeAnnotation) (hacc : accepts s event = true)
    (hkey : keyOf event = some key) (hin : isInherited key = false) :
    (addEvent s event).1.annotationsByKey =
        Function.update s.annotationsByKey key
          (some (setAdd ((s.annotationsByKey key).getD []) event)) ∧
      (addEvent s event).1.sortedAnnotationsByKey =
        sortPairs (Function.update s.annotationsByKey key
            (some (setAdd ((s.annotationsByKey key).getD []) event)))
          (if s.annotationsByKey key = none then s.sortedAnnotationsByKey ++ [key]
            else s.sortedAnnotationsByKey) := by
  have hg := addEvent_groups s event hacc
  have hr := recorded_fields s event
  have h := addAnnotationToAggregation_byKey (recorded s event) event key hkey hin
  rw [hg.1, hg.2.2, if_pos hrt, h.1, h.2, hr.2.2.2.2.2.2.2.2.2.1, hr.2.2.2.2.2.2.2.2.2.2.2]
  exact ⟨rfl, rfl⟩

/-- The key structures after `removeAnnotationFromAggregation` of an event with a key that
names no inherited property; they are written before the sender is looked up. -/
theorem removeAnnotationFromAggregation_byKey (s : Bucket) (event : MatrixEvent) (key : String)
    (hkey : keyOf event = some key) (hin : isInherited key = false) :
    (removeAnnotationFromAggregation s event).1.annotationsByKey =
        (match s.annotationsByKey key with
          | some events => Function.update s.annotationsByKey key (some (setDelete events event))
          | none => s.annotationsByKey) ∧
      (removeAnnotationFromAggregation s event).1.sortedAnnotationsByKey =
        (match s.annotationsByKey key with
          | some events =>
            sortPairs (Function.update s.annotationsByKey key (some (setDelete events event)))
              s.sortedAnnotationsByKey
          | none => s.sortedAnnotationsByKey) := by
  unfold removeAnnotationFromAggregation
  simp only [hkey, hin]
  cases hb : s.annotationsByKey key <;> cases hi : isInherited event.sender <;>
    cases hs : s.annotationsBySender event.sender <;> simp [hs, hi]

/-- The state `removeAnnotationFromAggregation` leaves for an event whose key names an
inherited property is the state it found. -/
theorem removeAnnotationFromAggregation_inherited (s : Bucket) (event : MatrixEvent)
    (key : String) (hkey : keyOf event = some key) (hin : isInherited key = true) :
    (removeAnnotationFromAggregation s event).1 = s := by
  unfold removeAnnotationFromAggregation
  simp [hkey, hin]

/-- The state `removeEvent` returns for a member that matches an annotation bucket. -/
theorem removeEvent_in_annotations (s : Bucket) (event : MatrixEvent)
    (hrt : s.relationType = relTypeAnnotation) (hmem : event ∈ s.relations)
    (hmatch : ∃ relation, event.relation = some relation ∧
      s.relationType = relation.rel_type ∧ s.eventType = event.type) :
    (removeEvent s event).1 = (removeAnnotationFromAggregation (unrecorded s event) event).1 := by
  obtain ⟨relation, hr, ht, he⟩ := hmatch
  unfold removeEvent unrecorded
  simp only [hmem, hr, ← ht, ← he, not_true_eq_false, if_false, ne_eq, or_self]
  simp only [hrt, if_true]
  split <;> rfl

/-- The state after `removeEvent` of a member with a key that names no inherited property in
an annotation bucket. -/
theorem removeEvent_annotation (s : Bucket) (event : MatrixEvent) (key : String)
    (hrt : s.relationType = relTypeAnnotation) (hmem : event ∈ s.relations)
    (hmatch : ∃ relation, event.relation = some relation ∧
      s.relationType = relation.rel_type ∧ s.eventType = event.type)
    (hkey : keyOf event = some key) (hin : isInherited key = false) :
    (removeEvent s event).1.relations = setDelete s.relations event ∧
      (removeEvent s event).1.annotationsByKey =
        (match s.annotationsByKey key with
          | some events => Function.update s.annotationsByKey key (some (setDelete events event))
          | none => s.annotationsByKey) ∧
      (removeEvent s event).1.sortedAnnotationsByKey =
        (match s.annotationsByKey key with
          | some events =>
            sortPairs (Function.update s.annotationsByKey key (some (setDelete events event)))
              s.sortedAnnotationsByKey
          | none => s.sortedAnnotationsByKey) := by
  rw [removeEvent_in_annotations s event hrt hmem hmatch]
  have h := removeAnnotationFromAggregation_byKey (unrecorded s event) event key hkey hin
  exact ⟨(removeAnnotationFromAggregation_frame _ _).2.2.2.1, h.1, h.2⟩

theorem sortPairs_singleton (byKey : String → Option (List MatrixEvent)) (a : String) :
    sortPairs byKey [a] = [a] := rfl

theorem sortPairs_pair (byKey : String → Option (List MatrixEvent)) (a b : String) :
    sortPairs byKey [a, b] = if pairSize byKey b ≤ pairSize byKey a then [a, b] else [b, a] := by
  simp [sortPairs, List.insertionSort, List.orderedInsert, sizeDescending]

theorem setDelete_length {l : List MatrixEvent} {x : MatrixEvent} (hl : l.Nodup) (hx : x ∈ l) :
    (setDelete l x).length + 1 = l.length := by
  unfold setDelete
  have h : l.filter (fun b => decide (b ≠ x)) = l.erase x := by
    rw [hl.erase_eq_filter]
    congr 1
    funext b
    simp [bne, beq_eq_decide]
  rw [h, List.length_erase_of_mem hx]
  have : 0 < l.length := List.length_pos_of_mem hx
  omega

theorem setDelete_nodup {l : List MatrixEvent} (x : MatrixEvent) (hl : l.Nodup) :
    (setDelete l x).Nodup := hl.filter _

theorem mem_setDelete {l : List MatrixEvent} {x y : MatrixEvent} :
    y ∈ setDelete l x ↔ y ∈ l ∧ y ≠ x := by
  simp [setDelete]

theorem tracked_addEvent_first {s : Bucket} {et : String} {ids : List String}
    {rel : List MatrixEvent} {k1 k2 : String} {v1 v2 : Option (List MatrixEvent)}
    {sorted : List String} (h : Tracked s et ids rel k1 k2 v1 v2 sorted) (hk : k1 ≠ k2)
    (event : MatrixEvent) (sorted2 : List String)
    (hid : event.id ∉ ids) (hne : event ∉ rel)
    (hm : ∃ relation, event.relation = some relation ∧ relation.rel_type = relTypeAnnotation ∧
      event.type = et)
    (hkey : keyOf event = some k1) (hin : isInherited k1 = false)
    (hsort : ∀ f : String → Option (List MatrixEvent),
      f k1 = some (setAdd (v1.getD []) event) → f k2 = v2 →
      sortPairs f (if v1 = none then sorted ++ [k1] else sorted) = sorted2) :
    Tracked (addEvent s event).1 et (ids ++ [event.id]) (rel ++ [event]) k1 k2
      (some (setAdd (v1.getD []) event)) v2 sorted2 := by
  obtain ⟨hrt, het, hids, hrel, hv1, hv2, hso⟩ := h
  obtain ⟨relation, hr, hrr, hty⟩ := hm
  have hacc : accepts s event = true :=
    (accepts_iff s event).mpr ⟨by rw [hids]; exact hid, relation, hr, by rw [hrt, hrr], by rw [het, hty]⟩
  have h1 := addEvent_of_accepts s event hacc
  have h2 := addEvent_annotation s event k1 hrt hacc hkey hin
  have hb1 : (addEvent s event).1.annotationsByKey k1 = some (setAdd (v1.getD []) event) := by
    rw [h2.1, Function.update_same, hv1]
  have hb2 : (addEvent s event).1.annotationsByKey k2 = v2 := by
    rw [h2.1, Function.update_noteq hk.symm, hv2]
  refine ⟨by rw [h1.1, hrt], by rw [h1.2.1, het], by rw [h1.2.2.2.2.2.1, hids], ?_, hb1, hb2, ?_⟩
  · rw [h1.2.2.2.2.1, hrel]; simp [setAdd, hne]
  · rw [h2.2, ← h2.1, hv1, hso]
    exact hsort _ hb1 hb2

theorem tracked_swap {s : Bucket} {et : String} {ids : List String}
    {rel : List MatrixEvent} {k1 k2 : String} {v1 v2 : Option (List MatrixEvent)}
    {sorted : List String} (h : Tracked s et ids rel k1 k2 v1 v2 sorted) :
    Tracked s et ids rel k2 k1 v2 v1 sorted := by
  obtain ⟨hrt, het, hids, hrel, hv1, hv2, hso⟩ := h
  exact ⟨hrt, het, hids, hrel, hv2, hv1, hso⟩

theorem tracked_removeEvent_first {s : Bucket} {et : String} {ids : List String}
    {rel : List MatrixEvent} {k1 k2 : String} {set : List MatrixEvent}
    {v2 : Option (List MatrixEvent)}
    {sorted : List String} (h : Tracked s et ids rel k1 k2 (some set) v2 sorted) (hk : k1 ≠ k2)
    (event : MatrixEvent) (sorted2 : List String)
    (hmem : event ∈ rel)
    (hm : ∃ relation, event.relation = some relation ∧ relation.rel_type = relTypeAnnotation ∧
      event.type = et)
    (hkey : keyOf event = some k1) (hin : isInherited k1 = false)
    (hsort : ∀ f : String → Option (List MatrixEvent),
      f k1 = some (setDelete set event) → f k2 = v2 → sortPairs f sorted = sorted2) :
    Tracked (removeEvent s event).1 et ids (setDelete rel event) k1 k2
      (some (setDelete set event)) v2 sorted2 := by
  obtain ⟨hrt, het, hids, hrel, hv1, hv2, hso⟩ := h
  obtain ⟨relation, hr, hrr, hty⟩ := hm
  have h1 := removeEvent_frame s event
  have h2 := removeEvent_annotation s event k1 hrt (by rw [hrel]; exact hmem)
    ⟨relation, hr, by rw [hrt, hrr], by rw [het, hty]⟩ hkey hin
  simp only [hv1] at h2
  have hb1 : (removeEvent s event).1.annotationsByKey k1 = some (setDelete set event) := by
    rw [h2.2.1, Function.update_same]
  have hb2 : (removeEvent s event).1.annotationsByKey k2 = v2 := by
    rw [h2.2.1, Function.update_noteq hk.symm, hv2]
  refine ⟨by rw [h1.1, hrt], by rw [h1.2.1, het], by rw [h1.2.2.2.2.1, hids],
    by rw [h2.1, hrel], hb1, hb2, ?_⟩
  rw [h2.2.2, ← h2.2.1, hso]
  exact hsort _ hb1 hb2

/-! ## C6: three reactions with one key, then five with another -/

theorem tracked_create (et k1 k2 : String) :
    Tracked (Bucket.create relTypeAnnotation et) et [] [] k1 k2 none none [] :=
  ⟨rfl, rfl, rfl, rfl, rfl, rfl, rfl⟩

theorem getSortedAnnotationsByKey_tracked {s : Bucket} {et : String} {ids : List String}
    {rel : List MatrixEvent} {k1 k2 : String} {v1 v2 : List MatrixEvent}
    (h : Tracked s et ids rel k1 k2 (some v1) (some v2) [k2, k1]) :
    getSortedAnnotationsByKey s = some [(k2, v2), (k1, v1)] := by
  obtain ⟨hrt, -, -, -, hv1, hv2, hso⟩ := h
  simp [getSortedAnnotationsByKey, hrt, hso, hv1, hv2]

theorem not_mem_of_nodup_append {α : Type} {e : α} (l1 l2 : List α)
    (h : (l1 ++ e :: l2).Nodup) : e ∉ l1 :=
  fun hmem => (List.nodup_append.mp h).2.2 hmem (List.mem_cons_self _ _)

/-- C6 as stated fails: after three `thumbsup` and five `heart` reactions the array is
`[(heart, 5), (thumbsup, 3)]` as claimed, but after two `heart` reactions are removed it is
`[(heart, 3), (thumbsup, 3)]`, not `[(thumbsup, 3), (heart, 3)]`. -/
theorem sortedAnnotations_counterexample :
    (getSortedAnnotationsByKey (run (Bucket.create relTypeAnnotation "m.reaction")
        (sampleReactions.map Op.addEvent)).1).map
          (List.map (fun pair => (pair.1, pair.2.length)))
        = some [("heart", 5), ("thumbsup", 3)] ∧
      (getSortedAnnotationsByKey (run (Bucket.create relTypeAnnotation "m.reaction")
        (sampleReactions.map Op.addEvent ++
          [Op.removeEvent (sampleReaction 4 "$b1" "@p:hs" "heart"),
           Op.removeEvent (sampleReaction 5 "$b2" "@q:hs" "heart")])).1).map
          (List.map (fun pair => (pair.1, pair.2.length)))
        = some [("heart", 3), ("thumbsup", 3)] ∧
      (getSortedAnnotationsByKey (run (Bucket.create relTypeAnnotation "m.reaction")
        (sampleReactions.map Op.addEvent ++
          [Op.removeEvent (sampleReaction 4 "$b1" "@p:hs" "heart"),
           Op.removeEvent (sampleReaction 5 "$b2" "@q:hs" "heart")])).1).map
          (List.map (fun pair => (pair.1, pair.2.length)))
        ≠ some [("thumbsup", 3), ("heart", 3)] := by
  decide

/-- C6, amended: for two keys `K1` and `K2` that name no property inherited from
`Object.prototype`, in a new annotation bucket, after 3 events with key `K1` and then 5 events
with key `K2` are inserted, `getSortedAnnotationsByKey` returns
`[(K2, 5 events), (K1, 3 events)]`; after any two of the `K2` events are then removed it
returns `[(K2, 3 events), (K1, 3 events)]`: groups of equal size keep the order they had in
the array before the removal. -/
theorem sortedAnnotations_scenario (et K1 K2 : String)
    (a1 a2 a3 b1 b2 b3 b4 b5 x y : MatrixEvent) (hK : K1 ≠ K2)
    (hK1 : isInherited K1 = false) (hK2 : isInherited K2 = false)
    (ha : ∀ e ∈ [a1, a2, a3], keyOf e = some K1)
    (hb : ∀ e ∈ [b1, b2, b3, b4, b5], keyOf e = some K2)
    (hm : ∀ e ∈ [a1, a2, a3, b1, b2, b3, b4, b5], ∃ relation, e.relation = some relation ∧
      relation.rel_type = relTypeAnnotation ∧ e.type = et)
    (hid : ([a1, a2, a3, b1, b2, b3, b4, b5].map MatrixEvent.id).Nodup)
    (hx : x ∈ [b1, b2, b3, b4, b5]) (hy : y ∈ [b1, b2, b3, b4, b5]) (hxy : x ≠ y) :
    getSortedAnnotationsByKey
        (run (Bucket.create relTypeAnnotation et)
          ([a1, a2, a3, b1, b2, b3, b4, b5].map Op.addEvent)).1
      = some [(K2, [b1, b2, b3, b4, b5]), (K1, [a1, a2, a3])] ∧
    getSortedAnnotationsByKey
        (run (Bucket.create relTypeAnnotation et)
          ([a1, a2, a3, b1, b2, b3, b4, b5].map Op.addEvent ++
            [Op.removeEvent x, Op.removeEvent y])).1
      = some [(K2, setDelete (setDelete [b1, b2, b3, b4, b5] x) y), (K1, [a1, a2, a3])] ∧
    (setDelete (setDelete [b1, b2, b3, b4, b5] x) y).length = 3 := by
  have hev : [a1, a2, a3, b1, b2, b3, b4, b5].Nodup := List.Nodup.of_map _ hid
  have hbn : [b1, b2, b3, b4, b5].Nodup := by
    have := hev
    simp only [List.nodup_cons] at this ⊢
    exact this.2.2.2
  simp only [List.map, List.cons_append, List.nil_append, run, step] at hid ⊢
  have t0 := tracked_create et K1 K2
  generalize Bucket.create relTypeAnnotation et = s0 at t0 ⊢
  have t1 : Tracked (addEvent s0 a1).1 et [a1.id] [a1] K1 K2 (some [a1]) none [K1] := by
    have hid2 : a1.id ∉ [] :=
      not_mem_of_nodup_append [] [a2.id, a3.id, b1.id, b2.id, b3.id, b4.id, b5.id] hid
    have hne2 : a1 ∉ [] :=
      not_mem_of_nodup_append [] [a2, a3, b1, b2, b3, b4, b5] hev
    have hs := tracked_addEvent_first t0 hK a1 [K1] hid2 hne2
      (hm a1 (by simp)) (ha a1 (by simp)) hK1
      (fun f h1 h2 => by
        simp [sortPairs_singleton, sortPairs_pair, pairSize, h1, h2, setAdd, hne2])
    simpa [setAdd, hne2] using hs
  clear t0
  generalize (addEvent s0 a1).1 = s1 at t1 ⊢
  have t2 : Tracked (addEvent s1 a2).1 et [a1.id, a2.id] [a1, a2] K1 K2 (some [a1, a2]) none [K1] := by
    have hid2 : a2.id ∉ [a1.id] :=
      not_mem_of_nodup_append [a1.id] [a3.id, b1.id, b2.id, b3.id, b4.id, b5.id] hid
    have hne2 : a2 ∉ [a1] :=
      not_mem_of_nodup_append [a1] [a3, b1, b2, b3, b4, b5] hev
    have hne3 := hne2
    simp only [List.mem_cons, List.mem_singleton, List.not_mem_nil, or_false, not_or] at hne3
    have hs := tracked_addEvent_first t1 hK a2 [K1] hid2 hne2
      (hm a2 (by simp)) (ha a2 (by simp)) hK1
      (fun f h1 h2 => by
        simp [sortPairs_singleton, sortPairs_pair, pairSize, h1, h2, setAdd, hne3])
    simpa [setAdd, hne3] using hs
  clear t1
  generalize (addEvent s1 a2).1 = s2 at t2 ⊢
  have t3 : Tracked (addEvent s2 a3).1 et [a1.id, a2.id, a3.id] [a1, a2, a3] K1 K2 (some [a1, a2, a3]) none [K1] := by
    have hid2 : a3.id ∉ [a1.id, a2.id] :=
      not_mem_of_nodup_append [a1.id, a2.id] [b1.id, b2.id, b3.id, b4.id, b5.id] hid
    have hne2 : a3 ∉ [a1, a2] :=
      not_mem_of_nodup_append [a1, a2] [b1, b2, b3, b4, b5] hev
    have hne3 := hne2
    simp only [List.mem_cons, List.mem_singleton, List.not_mem_nil, or_false, not_or] at hne3
    have hs := tracked_addEvent_first t2 hK a3 [K1] hid2 hne2
      (hm a3 (by simp)) (ha a3 (by simp)) hK1
      (fun f h1 h2 => by
        simp [sortPairs_singleton, sortPairs_pair, pairSize, h1, h2, setAdd, hne3])
    simpa [setAdd, hne3] using hs
  clear t2
  generalize (addEvent s2 a3).1 = s3 at t3 ⊢
  have t4 : Tracked (addEvent s3 b1).1 et [a1.id, a2.id, a3.id, b1.id] [a1, a2, a3, b1] K1 K2 (some [a1, a2, a3]) (some [b1]) [K1, K2] := by
    have hid2 : b1.id ∉ [a1.id, a2.id, a3.id] :=
      not_mem_of_nodup_append [a1.id, a2.id, a3.id] [b2.id, b3.id, b4.id, b5.id] hid
    have hne2 : b1 ∉ [a1, a2, a3] :=
      not_mem_of_nodup_append [a1, a2, a3] [b2, b3, b4, b5] hev
    have hne3 := hne2
    simp only [List.mem_cons, List.mem_singleton, List.not_mem_nil, or_false, not_or] at hne3
    have hs := tracked_swap (tracked_addEvent_first (tracked_swap t3) hK.symm b1 [K1, K2] hid2 hne2
      (hm b1 (by simp)) (hb b1 (by simp)) hK2
      (fun f h1 h2 => by
        simp [sortPairs_singleton, sortPairs_pair, pairSize, h1, h2, setAdd, hne3]))
    simpa [setAdd, hne3] using hs
  clear t3
  generalize (addEvent s3 b1).1 = s4 at t4 ⊢
  have t5 : Tracked (addEvent s4 b2).1 et [a1.id, a2.id, a3.id, b1.id, b2.id] [a1, a2, a3, b1, b2] K1 K2 (some [a1, a2, a3]) (some [b1, b2]) [K1, K2] := by
    have hid2 : b2.id ∉ [a1.id, a2.id, a3.id, b1.id] :=
      not_mem_of_nodup_append [a1.id, a2.id, a3.id, b1.id] [b3.id, b4.id, b5.id] hid
    have hne2 : b2 ∉ [a1, a2, a3, b1] :=
      not_mem_of_nodup_append [a1, a2, a3, b1] [b3, b4, b5] hev
    have hne3 := hne2
    simp only [List.mem_cons, List.mem_singleton, List.not_mem_nil, or_false, not_or] at hne3
    have hs := tracked_swap (tracked_addEvent_first (tracked_swap t4) hK.symm b2 [K1, K2] hid2 hne2
      (hm b2 (by simp)) (hb b2 (by simp)) hK2
      (fun f h1 h2 => by
        simp [sortPairs_singleton, sortPairs_pair, pairSize, h1, h2, setAdd, hne3]))
    simpa [setAdd, hne3] using hs
  clear t4
  generalize (addEvent s4 b2).1 = s5 at t5 ⊢
  have t6 : Tracked (addEvent s5 b3).1 et [a1.id, a2.id, a3.id, b1.id, b2.id, b3.id] [a1, a2, a3, b1, b2, b3] K1 K2 (some [a1, a2, a3]) (some [b1, b2, b3]) [K1, K2] := by
    have hid2 : b3.id ∉ [a1.id, a2.id, a3.id, b1.id, b2.id] :=
      not_mem_of_nodup_append [a1.id, a2.id, a3.id, b1.id, b2.id] [b4.id, b5.id] hid
    have hne2 : b3 ∉ [a1, a2, a3, b1, b2] :=
      not_mem_of_nodup_append [a1, a2, a3, b1, b2] [b4, b5] hev
    have hne3 := hne2
    simp only [List.mem_cons, List.mem_singleton, List.not_mem_nil, or_false, not_or] at hne3
    have hs := tracked_swap (tracked_addEvent_first (tracked_swap t5) hK.symm b3 [K1, K2] hid2 hne2
      (hm b3 (by simp)) (hb b3 (by simp)) hK2
      (fun f h1 h2 => by
        simp [sortPairs_singleton, sortPairs_pair, pairSize, h1, h2, setAdd, hne3]))
    simpa [setAdd, hne3] using hs
  clear t5
  generalize (addEvent s5 b3).1 = s6 at t6 ⊢
  have t7 : Tracked (addEvent s6 b4).1 et [a1.id, a2.id, a3.id, b1.id, b2.id, b3.id, b4.id] [a1, a2, a3, b1, b2, b3, b4] K1 K2 (some [a1, a2, a3]) (some [b1, b2, b3, b4]) [K2, K1] := by
    have hid2 : b4.id ∉ [a1.id, a2.id, a3.id, b1.id, b2.id, b3.id] :=
      not_mem_of_nodup_append [a1.id, a2.id, a3.id, b1.id, b2.id, b3.id] [b5.id] hid
    have hne2 : b4 ∉ [a1, a2, a3, b1, b2, b3] :=
      not_mem_of_nodup_append [a1, a2, a3, b1, b2, b3] [b5] hev
    have hne3 := hne2
    simp only [List.mem_cons, List.mem_singleton, List.not_mem_nil, or_false, not_or] at hne3
    have hs := tracked_swap (tracked_addEvent_first (tracked_swap t6) hK.symm b4 [K2, K1] hid2 hne2
      (hm b4 (by simp)) (hb b4 (by simp)) hK2
      (fun f h1 h2 => by
        simp [sortPairs_singleton, sortPairs_pair, pairSize, h1, h2, setAdd, hne3]))
    simpa [setAdd, hne3] using hs
  clear t6
  generalize (addEvent s6 b4).1 = s7 at t7 ⊢
  have t8 : Tracked (addEvent s7 b5).1 et [a1.id, a2.id, a3.id, b1.id, b2.id, b3.id, b4.id, b5.id] [a1, a2, a3, b1, b2, b3, b4, b5] K1 K2 (some [a1, a2, a3]) (some [b1, b2, b3, b4, b5]) [K2, K1] := by
    have hid2 : b5.id ∉ [a1.id, a2.id, a3.id, b1.id, b2.id, b3.id, b4.id] :=
      not_mem_of_nodup_append [a1.id, a2.id, a3.id, b1.id, b2.id, b3.id, b4.id] [] hid
    have hne2 : b5 ∉ [a1, a2, a3, b1, b2, b3, b4] :=
      not_mem_of_nodup_append [a1, a2, a3, b1, b2, b3, b4] [] hev
    have hne3 := hne2
    simp only [List.mem_cons, List.mem_singleton, List.not_mem_nil, or_false, not_or] at hne3
    have hs := tracked_swap (tracked_addEvent_first (tracked_swap t7) hK.symm b5 [K2, K1] hid2 hne2
      (hm b5 (by simp)) (hb b5 (by simp)) hK2
      (fun f h1 h2 => by
        simp [sortPairs_singleton, sortPairs_pair, pairSize, h1, h2, setAdd, hne3]))
    simpa [setAdd, hne3] using hs
  clear t7
  generalize (addEvent s7 b5).1 = s8 at t8 ⊢
  have hxfull : x ∈ [a1, a2, a3, b1, b2, b3, b4, b5] := List.mem_append_right [a1, a2, a3] hx
  have hyfull : y ∈ [a1, a2, a3, b1, b2, b3, b4, b5] := List.mem_append_right [a1, a2, a3] hy
  have hlen1 : (setDelete [b1, b2, b3, b4, b5] x).length = 4 := by
    have := setDelete_length hbn hx
    simp only [List.length_cons, List.length_nil] at this
    omega
  have hmemy : y ∈ setDelete [b1, b2, b3, b4, b5] x := mem_setDelete.mpr ⟨hy, hxy.symm⟩
  have hlen2 : (setDelete (setDelete [b1, b2, b3, b4, b5] x) y).length = 3 := by
    have := setDelete_length (setDelete_nodup x hbn) hmemy
    omega
  have t9 := tracked_swap (tracked_removeEvent_first (tracked_swap t8) hK.symm x [K2, K1] hxfull
    (hm x hxfull) (hb x hx) hK2
    (fun f h1 h2 => by rw [sortPairs_pair]; simp [pairSize, h1, h2, hlen1]))
  have t10 := tracked_swap (tracked_removeEvent_first (tracked_swap t9) hK.symm y [K2, K1]
    (mem_setDelete.mpr ⟨hyfull, hxy.symm⟩) (hm y hyfull) (hb y hy) hK2
    (fun f h1 h2 => by rw [sortPairs_pair]; simp [pairSize, h1, h2, hlen2]))
  exact ⟨getSortedAnnotationsByKey_tracked t8, getSortedAnnotationsByKey_tracked t10, hlen2⟩


/-- Witness for `sortedAnnotations_scenario`: the sample reactions, with the first two `heart`
reactions removed. -/
theorem sortedAnnotations_scenario_witness :
    getSortedAnnotationsByKey
        (run (Bucket.create relTypeAnnotation "m.reaction")
          ([sampleReaction 1 "$a1" "@p:hs" "thumbsup", sampleReaction 2 "$a2" "@q:hs" "thumbsup",
            sampleReaction 3 "$a3" "@r:hs" "thumbsup", sampleReaction 4 "$b1" "@p:hs" "heart",
            sampleReaction 5 "$b2" "@q:hs" "heart", sampleReaction 6 "$b3" "@r:hs" "heart",
            sampleReaction 7 "$b4" "@s:hs" "heart",
            sampleReaction 8 "$b5" "@t:hs" "heart"].map Op.addEvent)).1
      = some [("heart", [sampleReaction 4 "$b1" "@p:hs" "heart",
            sampleReaction 5 "$b2" "@q:hs" "heart", sampleReaction 6 "$b3" "@r:hs" "heart",
            sampleReaction 7 "$b4" "@s:hs" "heart", sampleReaction 8 "$b5" "@t:hs" "heart"]),
          ("thumbsup", [sampleReaction 1 "$a1" "@p:hs" "thumbsup",
            sampleReaction 2 "$a2" "@q:hs" "thumbsup",
            sampleReaction 3 "$a3" "@r:hs" "thumbsup"])] ∧
    getSortedAnnotationsByKey
        (run (Bucket.create relTypeAnnotation "m.reaction")
          ([sampleReaction 1 "$a1" "@p:hs" "thumbsup", sampleReaction 2 "$a2" "@q:hs" "thumbsup",
            sampleReaction 3 "$a3" "@r:hs" "thumbsup", sampleReaction 4 "$b1" "@p:hs" "heart",
            sampleReaction 5 "$b2" "@q:hs" "heart", sampleReaction 6 "$b3" "@r:hs" "heart",
            sampleReaction 7 "$b4" "@s:hs" "heart",
            sampleReaction 8 "$b5" "@t:hs" "heart"].map Op.addEvent ++
            [Op.removeEvent (sampleReaction 4 "$b1" "@p:hs" "heart"),
             Op.removeEvent (sampleReaction 5 "$b2" "@q:hs" "heart")])).1
      = some [("heart", setDelete (setDelete [sampleReaction 4 "$b1" "@p:hs" "heart",
            sampleReaction 5 "$b2" "@q:hs" "heart", sampleReaction 6 "$b3" "@r:hs" "heart",
            sampleReaction 7 "$b4" "@s:hs" "heart", sampleReaction 8 "$b5" "@t:hs" "heart"]
            (sampleReaction 4 "$b1" "@p:hs" "heart")) (sampleReaction 5 "$b2" "@q:hs" "heart")),
          ("thumbsup", [sampleReaction 1 "$a1" "@p:hs" "thumbsup",
            sampleReaction 2 "$a2" "@q:hs" "thumbsup",
            sampleReaction 3 "$a3" "@r:hs" "thumbsup"])] ∧
    (setDelete (setDelete [sampleReaction 4 "$b1" "@p:hs" "heart",
        sampleReaction 5 "$b2" "@q:hs" "heart", sampleReaction 6 "$b3" "@r:hs" "heart",
        sampleReaction 7 "$b4" "@s:hs" "heart", sampleReaction 8 "$b5" "@t:hs" "heart"]
        (sampleReaction 4 "$b1" "@p:hs" "heart")) (sampleReaction 5 "$b2" "@q:hs" "heart")).length
      = 3 :=
  sortedAnnotations_scenario "m.reaction" "thumbsup" "heart" _ _ _ _ _ _ _ _ _ _
    (by decide) (by decide) (by decide) (by decide) (by decide)
    (by
      intro e he
      simp only [List.mem_cons, List.mem_singleton, List.not_mem_nil, or_false] at he
      rcases he with h | h | h | h | h | h | h | h <;> subst h <;> exact ⟨_, rfl, rfl, rfl⟩)
    (by decide) (by decide) (by decide) (by decide)

/-! ## The invariant of annotation buckets -/

instance sizeDescending_total (byKey : String → Option (List MatrixEvent)) :
    IsTotal String (sizeDescending byKey) :=
  ⟨fun a b => Nat.le_total (pairSize byKey b) (pairSize byKey a)⟩

instance sizeDescending_trans (byKey : String → Option (List MatrixEvent)) :
    IsTrans String (sizeDescending byKey) :=
  ⟨fun _ _ _ hab hbc => Nat.le_trans hbc hab⟩

theorem sortPairs_sorted (byKey : String → Option (List MatrixEvent)) (pairs : List String) :
    (sortPairs byKey pairs).Sorted (sizeDescending byKey) :=
  List.sorted_insertionSort _ _

theorem mem_sortPairs (byKey : String → Option (List MatrixEvent)) (pairs : List String)
    (k : String) : k ∈ sortPairs byKey pairs ↔ k ∈ pairs :=
  (List.perm_insertionSort _ _).mem_iff

theorem keyOf_ne_empty {event : MatrixEvent} {k : String} (h : keyOf event = some k) :
    k ≠ "" := by
  unfold keyOf at h
  split at h
  · split at h
    · split at h
      · cases h
      · cases h; assumption
    · cases h
  · cases h

/-- Adding a new member with a key that names no inherited property keeps the structures
consistent. -/
theorem consistent_add_key {ids : List String} {rel : List MatrixEvent}
    {byKey : String → Option (List MatrixEvent)} {sorted : List String}
    (h : Consistent ids rel byKey sorted) (event : MatrixEvent) (key : String)
    (hid : event.id ∉ ids) (hkey : keyOf event = some key) (hin : isInherited key = false) :
    Consistent (ids ++ [event.id]) (setAdd rel event)
      (Function.update byKey key (some (setAdd ((byKey key).getD []) event)))
      (sortPairs (Function.update byKey key (some (setAdd ((byKey key).getD []) event)))
        (if byKey key = none then sorted ++ [key] else sorted)) := by
  obtain ⟨h1, h2, h3, h4, -⟩ := h
  have hne : event ∉ rel := fun hm => hid (h1 event hm)
  have hrel : setAdd rel event = rel ++ [event] := by simp [setAdd, hne]
  rw [hrel]
  have hmem : ∀ k, k ∈ (if byKey key = none then sorted ++ [key] else sorted) ↔
      k ∈ sorted ∨ k = key := by
    intro k
    by_cases hb : byKey key = none
    · simp [hb]
    · simp only [hb, if_false]
      constructor
      · exact Or.inl
      · rintro (h | h)
        · exact h
        · rw [h]; exact h2 key hb
  refine ⟨?_, ?_, ?_, ?_, sortPairs_sorted _ _⟩
  · intro e he
    rcases List.mem_append.mp he with h | h
    · exact List.mem_append_left _ (h1 e h)
    · simp at h; subst h; simp
  · intro k hk
    rw [mem_sortPairs, hmem]
    by_cases hkk : k = key
    · exact Or.inr hkk
    · rw [Function.update_noteq hkk] at hk
      exact Or.inl (h2 k hk)
  · intro k hk
    rw [mem_sortPairs, hmem] at hk
    by_cases hkk : k = key
    · subst hkk
      refine ⟨⟨keyOf_ne_empty hkey, hin⟩, ?_⟩
      rw [Function.update_same, List.filter_append]
      by_cases hb : byKey k = none
      · have hnone : rel.filter (fun e => decide (keyOf e = some k)) = [] := by
          rw [List.filter_eq_nil_iff]
          intro e he hk2
          have hks := h4 e he k (by simpa using hk2) hin
          have := (h3 k hks).2
          rw [hb] at this
          cases this
        simp [hb, hnone, setAdd, hkey]
      · have hks := h2 k hb
        have hset := (h3 k hks).2
        have hnotin : event ∉ rel.filter (fun e => decide (keyOf e = some k)) :=
          fun hm => hne (List.mem_filter.mp hm).1
        simp [hset, setAdd, hnotin, hkey]
    · rcases hk with hk | hk
      · refine ⟨(h3 k hk).1, ?_⟩
        rw [Function.update_noteq hkk, (h3 k hk).2, List.filter_append]
        have : keyOf event ≠ some k := by
          rw [hkey]; intro hh; cases hh; exact hkk rfl
        simp [this]
      · exact absurd hk hkk
  · intro e he k hk hki
    rw [mem_sortPairs, hmem]
    rcases List.mem_append.mp he with h | h
    · exact Or.inl (h4 e h k hk hki)
    · simp at h; subst h
      rw [hkey] at hk
      cases hk
      exact Or.inr rfl

/-- Adding a new member to the member set alone keeps the structures consistent when it has
no key or its key names an inherited property. -/
theorem consistent_add_nokey {ids : List String} {rel : List MatrixEvent}
    {byKey : String → Option (List MatrixEvent)} {sorted : List String}
    (h : Consistent ids rel byKey sorted) (event : MatrixEvent)
    (hid : event.id ∉ ids) (hkey : ∀ k, keyOf event = some k → isInherited k = true) :
    Consistent (ids ++ [event.id]) (setAdd rel event) byKey sorted := by
  obtain ⟨h1, h2, h3, h4, h5⟩ := h
  have hne : event ∉ rel := fun hm => hid (h1 event hm)
  have hrel : setAdd rel event = rel ++ [event] := by simp [setAdd, hne]
  rw [hrel]
  refine ⟨?_, h2, ?_, ?_, h5⟩
  · intro e he
    rcases List.mem_append.mp he with h | h
    · exact List.mem_append_left _ (h1 e h)
    · simp at h; subst h; simp
  · intro k hk
    refine ⟨(h3 k hk).1, ?_⟩
    rw [(h3 k hk).2, List.filter_append]
    have : keyOf event ≠ some k := by
      intro hh
      have := hkey k hh
      rw [(h3 k hk).1.2] at this
      cases this
    simp [this]
  · intro e he k hk hki
    rcases List.mem_append.mp he with h | h
    · exact h4 e h k hk hki
    · simp at h; subst h
      have := hkey k hk
      rw [hki] at this
      cases this

theorem setDelete_filter (rel : List MatrixEvent) (event : MatrixEvent)
    (p : MatrixEvent → Bool) :
    setDelete (rel.filter p) event = (setDelete rel event).filter p := by
  unfold setDelete
  rw [List.filter_filter, List.filter_filter]
  congr 1
  funext b
  exact Bool.and_comm _ _

theorem setDelete_filter_of_ne (rel : List MatrixEvent) (event : MatrixEvent)
    (p : MatrixEvent → Bool) (hp : p event = false) :
    (setDelete rel event).filter p = rel.filter p := by
  unfold setDelete
  rw [List.filter_filter]
  apply List.filter_congr
  intro b _
  by_cases hb : b = event
  · subst hb; simp [hp]
  · simp [hb]

/-- Deleting an event with a key from the member set and from the set of its key keeps the
structures consistent. -/
theorem consistent_delete_key {ids : List String} {rel : List MatrixEvent}
    {byKey : String → Option (List MatrixEvent)} {sorted : List String}
    (h : Consistent ids rel byKey sorted) (event : MatrixEvent) (key : String)
    (events : List MatrixEvent) (hkey : keyOf event = some key) (hb : byKey key = some events) :
    Consistent ids (setDelete rel event)
      (Function.update byKey key (some (setDelete events event)))
      (sortPairs (Function.update byKey key (some (setDelete events event))) sorted) := by
  obtain ⟨h1, h2, h3, h4, -⟩ := h
  have hks : key ∈ sorted := h2 key (by rw [hb]; simp)
  refine ⟨?_, ?_, ?_, ?_, sortPairs_sorted _ _⟩
  · intro e he
    exact h1 e (mem_setDelete.mp he).1
  · intro k hk
    rw [mem_sortPairs]
    by_cases hkk : k = key
    · rw [hkk]; exact hks
    · rw [Function.update_noteq hkk] at hk
      exact h2 k hk
  · intro k hk
    rw [mem_sortPairs] at hk
    refine ⟨(h3 k hk).1, ?_⟩
    by_cases hkk : k = key
    · subst hkk
      have hset := (h3 k hk).2
      rw [hb] at hset
      cases hset
      rw [Function.update_same, setDelete_filter]
    · rw [Function.update_noteq hkk, (h3 k hk).2, setDelete_filter_of_ne]
      have : keyOf event ≠ some k := by
        rw [hkey]; intro hh; cases hh; exact hkk rfl
      simp [this]
  · intro e he k hk hki
    rw [mem_sortPairs]
    exact h4 e (mem_setDelete.mp he).1 k hk hki

/-- Deleting an event from the member set alone keeps the structures consistent when no set
holds the event: it has no key, or its key has no set. -/
theorem consistent_delete_nokey {ids : List String} {rel : List MatrixEvent}
    {byKey : String → Option (List MatrixEvent)} {sorted : List String}
    (h : Consistent ids rel byKey sorted) (event : MatrixEvent)
    (hkey : ∀ key, keyOf event = some key → byKey key = none) :
    Consistent ids (setDelete rel event) byKey sorted := by
  obtain ⟨h1, h2, h3, h4, h5⟩ := h
  refine ⟨?_, h2, ?_, ?_, h5⟩
  · intro e he
    exact h1 e (mem_setDelete.mp he).1
  · intro k hk
    refine ⟨(h3 k hk).1, ?_⟩
    rw [(h3 k hk).2, setDelete_filter_of_ne]
    have : keyOf event ≠ some k := by
      intro hh
      have := hkey k hh
      rw [(h3 k hk).2] at this
      cases this
    simp [this]
  · intro e he k hk hki
    exact h4 e (mem_setDelete.mp he).1 k hk hki

/-- In consistent structures no set is stored under a name of an inherited property. -/
theorem consistent_inherited {ids : List String} {rel : List MatrixEvent}
    {byKey : String → Option (List MatrixEvent)} {sorted : List String}
    (h : Consistent ids rel byKey sorted) (key : String) (hin : isInherited key = true) :
    byKey key = none := by
  by_contra hb
  have := (h.2.2.1 key (h.2.1 key hb)).1.2
  rw [hin] at this
  cases this

/-- The aggregation methods return the state they were given, and do not throw, for an event
without a key. -/
theorem aggregation_nokey (s : Bucket) (event : MatrixEvent) (hkey : keyOf event = none) :
    addAnnotationToAggregation s event = (s, none) ∧
      removeAnnotationFromAggregation s event = (s, none) := by
  unfold addAnnotationToAggregation removeAnnotationFromAggregation
  simp [hkey]

/-- The deletion step shared by `removeEvent` and `onBeforeRedaction` keeps the invariant,
also when it throws. -/
theorem annotationInvariant_delete (s : Bucket) (event : MatrixEvent)
    (h : AnnotationInvariant s) :
    AnnotationInvariant (removeAnnotationFromAggregation (unrecorded s event) event).1 := by
  obtain ⟨hrt, hc⟩ := h
  have hf := removeAnnotationFromAggregation_frame (unrecorded s event) event
  refine ⟨by rw [hf.1]; exact hrt, ?_⟩
  rw [hf.2.2.1, hf.2.2.2.1]
  cases hkey : keyOf event with
  | none =>
    rw [(aggregation_nokey _ event hkey).2]
    exact consistent_delete_nokey hc event (fun key hk => by rw [hkey] at hk; cases hk)
  | some key =>
    cases hin : isInherited key with
    | true =>
      rw [removeAnnotationFromAggregation_inherited _ event key hkey hin]
      exact consistent_delete_nokey hc event
        (fun key2 hk2 => by rw [hkey] at hk2; cases hk2; exact consistent_inherited hc key hin)
    | false =>
      have hk := removeAnnotationFromAggregation_byKey (unrecorded s event) event key hkey hin
      rw [hk.1, hk.2]
      cases hb : s.annotationsByKey key with
      | none =>
        simp only [unrecorded, hb]
        exact consistent_delete_nokey hc event
          (fun key2 hk2 => by rw [hkey] at hk2; cases hk2; exact hb)
      | some events =>
        simp only [unrecorded, hb]
        exact consistent_delete_key hc event key events hkey hb

theorem annotationInvariant_congr (s t : Bucket) (h1 : t.relationType = s.relationType)
    (h2 : t.relationEventIds = s.relationEventIds) (h3 : t.relations = s.relations)
    (h4 : t.annotationsByKey = s.annotationsByKey)
    (h5 : t.sortedAnnotationsByKey = s.sortedAnnotationsByKey)
    (h : AnnotationInvariant s) : AnnotationInvariant t := by
  unfold AnnotationInvariant at h ⊢
  rw [h1, h2, h3, h4, h5]
  exact h

/-- The key structures after an accepted `addEvent` of an event without a key. -/
theorem addEvent_annotation_nokey (s : Bucket) (event : MatrixEvent)
    (hrt : s.relationType = relTypeAnnotation) (hacc : accepts s event = true)
    (hkey : keyOf event = none) :
    (addEvent s event).1.annotationsByKey = s.annotationsByKey ∧
      (addEvent s event).1.annotationsBySender = s.annotationsBySender ∧
      (addEvent s event).1.sortedAnnotationsByKey = s.sortedAnnotationsByKey := by
  have hg := addEvent_groups s event hacc
  have hr := recorded_fields s event
  rw [hg.1, hg.2.1, hg.2.2, if_pos hrt, (aggregation_nokey _ event hkey).1]
  exact ⟨hr.2.2.2.2.2.2.2.2.2.1, hr.2.2.2.2.2.2.2.2.2.2.1, hr.2.2.2.2.2.2.2.2.2.2.2⟩

/-- The annotation structures after an accepted `addEvent` of an event whose key names an
inherited property are those before it: the call ends in a `TypeError`. -/
theorem addEvent_annotation_inherited (s : Bucket) (event : MatrixEvent) (key : String)
    (hrt : s.relationType = relTypeAnnotation) (hacc : accepts s event = true)
    (hkey : keyOf event = some key) (hin : isInherited key = true) :
    (addEvent s event).1.annotationsByKey = s.annotationsByKey ∧
      (addEvent s event).1.annotationsBySender = s.annotationsBySender ∧
      (addEvent s event).1.sortedAnnotationsByKey = s.sortedAnnotationsByKey := by
  have hg := addEvent_groups s event hacc
  have hr := recorded_fields s event
  rw [hg.1, hg.2.1, hg.2.2, if_pos hrt, addAnnotationToAggregation_inherited _ event key hkey hin]
  exact ⟨hr.2.2.2.2.2.2.2.2.2.1, hr.2.2.2.2.2.2.2.2.2.2.1, hr.2.2.2.2.2.2.2.2.2.2.2⟩

theorem annotationInvariant_addEvent (s : Bucket) (event : MatrixEvent)
    (h : AnnotationInvariant s) : AnnotationInvariant (addEvent s event).1 := by
  cases hacc : accepts s event with
  | false => rw [addEvent_of_not_accepts s event hacc]; exact h
  | true =>
    obtain ⟨hrt, hc⟩ := h
    have hf := addEvent_of_accepts s event hacc
    have hid := ((accepts_iff s event).mp hacc).1
    refine ⟨by rw [hf.1]; exact hrt, ?_⟩
    rw [hf.2.2.2.2.1, hf.2.2.2.2.2.1]
    cases hkey : keyOf event with
    | none =>
      have hk := addEvent_annotation_nokey s event hrt hacc hkey
      rw [hk.1, hk.2.2]
      exact consistent_add_nokey hc event hid (fun k hk2 => by rw [hkey] at hk2; cases hk2)
    | some key =>
      cases hin : isInherited key with
      | true =>
        have hk := addEvent_annotation_inherited s event key hrt hacc hkey hin
        rw [hk.1, hk.2.2]
        exact consistent_add_nokey hc event hid
          (fun k hk2 => by rw [hkey] at hk2; cases hk2; exact hin)
      | false =>
        have hk := addEvent_annotation s event key hrt hacc hkey hin
        rw [hk.1, hk.2]
        exact consistent_add_key hc event key hid hkey hin

/-- The method `removeEvent` on a member that matches the bucket, from the call of the
aggregation on. -/
theorem removeEvent_unfold (s : Bucket) (event : MatrixEvent) (hm : event ∈ s.relations)
    (hmatch : ∃ relation, event.relation = some relation ∧
      s.relationType = relation.rel_type ∧ s.eventType = event.type) :
    removeEvent s event =
      match (if s.relationType = relTypeAnnotation then
          removeAnnotationFromAggregation (unrecorded s event) event
        else (unrecorded s event, none)).2 with
      | some error =>
        ((if s.relationType = relTypeAnnotation then
            removeAnnotationFromAggregation (unrecorded s event) event
          else (unrecorded s event, none)).1, [Emitted.typeError error])
      | none =>
        ((if s.relationType = relTypeAnnotation then
            removeAnnotationFromAggregation (unrecorded s event) event
          else (unrecorded s event, none)).1,
          (if s.relationType = relTypeAnnotation then []
            else recomputeReplacement (unrecorded s event)) ++ [Emitted.relationsRemove event]) := by
  obtain ⟨relation, hr, ht, he⟩ := hmatch
  unfold removeEvent
  simp only [hm, hr, ← ht, ← he, not_true_eq_false, if_false, ne_eq, or_self]
  rfl

/-- A `removeEvent` that meets an inherited property: the member is deleted, the aggregation
has written what it writes before it throws, and the `TypeError` is all that comes out. -/
theorem removeEvent_of_throws (s : Bucket) (event : MatrixEvent) (hm : event ∈ s.relations)
    (hmatch : ∃ relation, event.relation = some relation ∧
      s.relationType = relation.rel_type ∧ s.eventType = event.type)
    (ht : throwsFor s event = true) :
    ∃ message, removeEvent s event =
      ((removeAnnotationFromAggregation (unrecorded s event) event).1,
        [Emitted.typeError message]) := by
  obtain ⟨hann, hthrows⟩ := (throwsFor_iff s event).mp ht
  have herr : (removeAnnotationFromAggregation (unrecorded s event) event).2 ≠ none := by
    rw [ne_eq, removeAnnotationFromAggregation_error, hthrows]
    simp
  obtain ⟨message, hmsg⟩ := Option.ne_none_iff_exists'.mp herr
  refine ⟨message, ?_⟩
  rw [removeEvent_unfold s event hm hmatch]
  simp only [hann, if_true, hmsg]

/-- A `removeEvent` that meets no inherited property runs to its end. -/
theorem removeEvent_of_plain (s : Bucket) (event : MatrixEvent) (hm : event ∈ s.relations)
    (hmatch : ∃ relation, event.relation = some relation ∧
      s.relationType = relation.rel_type ∧ s.eventType = event.type)
    (ht : throwsFor s event = false) :
    removeEvent s event =
      ((if s.relationType = relTypeAnnotation then
          (removeAnnotationFromAggregation (unrecorded s event) event).1
        else unrecorded s event),
        (if s.relationType = relTypeAnnotation then []
          else recomputeReplacement (unrecorded s event)) ++ [Emitted.relationsRemove event]) := by
  rw [removeEvent_unfold s event hm hmatch]
  by_cases hann : s.relationType = relTypeAnnotation
  · have hplain : aggregationThrows event = false := by
      cases h : aggregationThrows event with
      | false => rfl
      | true => rw [(throwsFor_iff s event).mpr ⟨hann, h⟩] at ht; cases ht
    have herr := (removeAnnotationFromAggregation_error (unrecorded s event) event).mpr hplain
    simp only [hann, if_true, herr]
  · simp only [hann, if_false]

/-- What `removeEvent` does: nothing, or it deletes the member and re-aggregates; it then
emits `Relations.remove` after the `makeReplaced` call of a replace bucket, unless the
aggregation has thrown. -/
theorem removeEvent_cases (s : Bucket) (event : MatrixEvent) :
    removeEvent s event = (s, []) ∨
      (event ∈ s.relations ∧
        (removeEvent s event).1 =
          (if s.relationType = relTypeAnnotation then
            (removeAnnotationFromAggregation (unrecorded s event) event).1
          else unrecorded s event) ∧
        ((throwsFor s event = false ∧
          (removeEvent s event).2 =
            (if s.relationType = relTypeAnnotation then []
              else recomputeReplacement (unrecorded s event)) ++
            [Emitted.relationsRemove event]) ∨
          (throwsFor s event = true ∧
            ∃ message, (removeEvent s event).2 = [Emitted.typeError message]))) := by
  by_cases hm : event ∈ s.relations
  · cases hr : event.relation with
    | none => left; simp [removeEvent, hm, hr]
    | some relation =>
      by_cases ht : s.relationType ≠ relation.rel_type ∨ s.eventType ≠ event.type
      · left
        unfold removeEvent
        simp only [hm, not_true_eq_false, if_false, hr]; rw [if_pos ht]
      · right
        have hmatch : ∃ relation, event.relation = some relation ∧
            s.relationType = relation.rel_type ∧ s.eventType = event.type := by
          rw [not_or, not_not, not_not] at ht
          exact ⟨relation, hr, ht.1, ht.2⟩
        refine ⟨hm, ?_⟩
        cases hthrows : throwsFor s event with
        | true =>
          obtain ⟨message, hmsg⟩ := removeEvent_of_throws s event hm hmatch hthrows
          rw [hmsg]
          exact ⟨by rw [if_pos ((throwsFor_iff s event).mp hthrows).1],
            Or.inr ⟨rfl, message, rfl⟩⟩
        | false =>
          rw [removeEvent_of_plain s event hm hmatch hthrows]
          exact ⟨rfl, Or.inl ⟨rfl, rfl⟩⟩
  · left; simp [removeEvent, hm]

theorem annotationInvariant_removeEvent (s : Bucket) (event : MatrixEvent)
    (h : AnnotationInvariant s) : AnnotationInvariant (removeEvent s event).1 := by
  rcases removeEvent_cases s event with h1 | ⟨-, h1, -⟩
  · rw [h1]; exact h
  · rw [h1, if_pos h.1]
    exact annotationInvariant_delete s event h

/-- What `onBeforeRedaction` does: nothing, or it deletes the member and re-aggregates; it
then detaches its listener and emits `Relations.redaction` after the `makeReplaced` call of a
replace bucket, unless the aggregation has thrown. -/
theorem onBeforeRedaction_cases (s : Bucket) (event : MatrixEvent) :
    onBeforeRedaction s event = (s, []) ∨
      (event ∈ s.relations ∧
        ((throwsFor s event = false ∧
          (onBeforeRedaction s event).1 =
            { (if s.relationType = relTypeAnnotation then
                (removeAnnotationFromAggregation (unrecorded s event) event).1
              else unrecorded s event) with
              redactionListeners := removeListener s.redactionListeners event } ∧
          (onBeforeRedaction s event).2 =
            (if s.relationType = relTypeAnnotation then []
              else recomputeReplacement (unrecorded s event)) ++
            [Emitted.relationsRedaction event]) ∨
          (throwsFor s event = true ∧
            (onBeforeRedaction s event).1 =
              (removeAnnotationFromAggregation (unrecorded s event) event).1 ∧
            ∃ message, (onBeforeRedaction s event).2 = [Emitted.typeError message]))) := by
  by_cases hm : event ∈ s.relations
  · right
    refine ⟨hm, ?_⟩
    have hdef : onBeforeRedaction s event =
        match (if s.relationType = relTypeAnnotation then
            removeAnnotationFromAggregation (unrecorded s event) event
          else (unrecorded s event, none)).2 with
        | some error =>
          ((if s.relationType = relTypeAnnotation then
              removeAnnotationFromAggregation (unrecorded s event) event
            else (unrecorded s event, none)).1, [Emitted.typeError error])
        | none =>
          ({ (if s.relationType = relTypeAnnotation then
                removeAnnotationFromAggregation (unrecorded s event) event
              else (unrecorded s event, none)).1 with
              redactionListeners :=
                removeListener
                  (if s.relationType = relTypeAnnotation then
                    removeAnnotationFromAggregation (unrecorded s event) event
                  else (unrecorded s event, none)).1.redactionListeners event },
            (if s.relationType = relTypeAnnotation then []
              else recomputeReplacement (unrecorded s event)) ++
              [Emitted.relationsRedaction event]) := by
      unfold onBeforeRedaction
      simp only [hm, not_true_eq_false, if_false]
      rfl
    rw [hdef]
    have hf := removeAnnotationFromAggregation_frame (unrecorded s event) event
    have he := removeAnnotationFromAggregation_error (unrecorded s event) event
    by_cases hann : s.relationType = relTypeAnnotation
    · cases hthrows : aggregationThrows event with
      | true =>
        have herr : (removeAnnotationFromAggregation (unrecorded s event) event).2 ≠ none := by
          rw [ne_eq, he, hthrows]
          simp
        obtain ⟨message, hmsg⟩ := Option.ne_none_iff_exists'.mp herr
        refine Or.inr ⟨(throwsFor_iff s event).mpr ⟨hann, hthrows⟩, ?_, message, ?_⟩ <;>
          simp only [hann, if_true, hmsg]
      | false =>
        have hnone := he.mpr hthrows
        refine Or.inl ⟨by simp [throwsFor, hthrows], ?_, ?_⟩
        · simp only [hann, if_true, hnone, hf.2.2.2.2.2.2.2.2]
          rfl
        · simp only [hann, if_true, hnone]
    · refine Or.inl ⟨by simp [throwsFor, hann], ?_, ?_⟩
      · simp only [hann, if_false]
        rfl
      · simp only [hann, if_false]
  · left; simp [onBeforeRedaction, hm]

theorem annotationInvariant_onBeforeRedaction (s : Bucket) (event : MatrixEvent)
    (h : AnnotationInvariant s) : AnnotationInvariant (onBeforeRedaction s event).1 := by
  have hd := annotationInvariant_delete s event h
  rcases onBeforeRedaction_cases s event with h1 | ⟨-, ⟨-, h1, -⟩ | ⟨-, h1, -⟩⟩
  · rw [h1]; exact h
  · rw [h1, if_pos h.1]
    exact annotationInvariant_congr _ _ rfl rfl rfl rfl rfl hd
  · rw [h1]; exact hd

theorem annotationInvariant_onEventStatus (s : Bucket) (event : MatrixEvent)
    (status : Option EventStatus) (h : AnnotationInvariant s) :
    AnnotationInvariant (onEventStatus s event status).1 := by
  unfold onEventStatus
  split
  · exact annotationInvariant_congr s _ rfl rfl rfl rfl rfl h
  · split
    · exact h
    · exact annotationInvariant_removeEvent _ event
        (annotationInvariant_congr s _ rfl rfl rfl rfl rfl h)

theorem annotationInvariant_setTargetEvent (s : Bucket) (event : MatrixEvent)
    (h : AnnotationInvariant s) : AnnotationInvariant (setTargetEvent s event).1 := by
  have hf := setTargetEvent_frame s event
  exact annotationInvariant_congr s _ hf.1 hf.2.2.2.2.1 hf.2.2.2.2.2.1 hf.2.2.2.2.2.2.1
    hf.2.2.2.2.2.2.2.2.1 h

theorem annotationInvariant_create (eventType : String) :
    AnnotationInvariant (Bucket.create relTypeAnnotation eventType) := by
  refine ⟨rfl, ?_, ?_, ?_, ?_, ?_⟩ <;> simp [Bucket.create]

theorem annotationInvariant_run (s : Bucket) (ops : List Op) (h : AnnotationInvariant s) :
    AnnotationInvariant (run s ops).1 :=
  run_preserves AnnotationInvariant
    (step_preserves AnnotationInvariant annotationInvariant_addEvent
      annotationInvariant_removeEvent annotationInvariant_setTargetEvent
      annotationInvariant_onEventStatus annotationInvariant_onBeforeRedaction
      (fun s _ hs => annotationInvariant_congr s _ rfl rfl rfl rfl rfl hs))
    ops s h

/-! ## C7: the sorted array of an annotation bucket -/

theorem pairSize_eq (byKey : String → Option (List MatrixEvent)) (key : String) :
    pairSize byKey key = ((byKey key).getD []).length := by
  unfold pairSize
  cases byKey key <;> rfl

theorem keyOf_eq_some_iff (event : MatrixEvent) (k : String) (hk : k ≠ "") :
    keyOf event = some k ↔ ∃ relation, event.relation = some relation ∧ relation.key = some k := by
  unfold keyOf
  cases hr : event.relation with
  | none => simp
  | some relation =>
    cases hkey : relation.key with
    | none => simp [hkey]
    | some key =>
      by_cases he : key = ""
      · subst he
        simp [hkey, Ne.symm hk]
      · simp [hkey, he]

/-- C7: after every sequence of operations on a new annotation bucket (insertions, removals,
status changes and redactions, in any order), `getSortedAnnotationsByKey` returns a list of
(key, events) pairs ordered by non-increasing number of events, and the events of each pair
are exactly the current members whose relation carries that key. -/
theorem getSortedAnnotationsByKey_invariant (eventType : String) (ops : List Op) :
    ∃ pairs,
      getSortedAnnotationsByKey (run (Bucket.create relTypeAnnotation eventType) ops).1
        = some pairs ∧
      pairs.Sorted (fun p q => q.2.length ≤ p.2.length) ∧
      ∀ p ∈ pairs, ∀ e, e ∈ p.2 ↔
        (e ∈ getRelations (run (Bucket.create relTypeAnnotation eventType) ops).1 ∧
          ∃ relation, e.relation = some relation ∧ relation.key = some p.1) := by
  obtain ⟨hrt, -, -, h3, -, h5⟩ :=
    annotationInvariant_run _ ops (annotationInvariant_create eventType)
  generalize (run (Bucket.create relTypeAnnotation eventType) ops).1 = s at hrt h3 h5 ⊢
  refine ⟨s.sortedAnnotationsByKey.map (fun key => (key, (s.annotationsByKey key).getD [])),
    by simp [getSortedAnnotationsByKey, hrt], ?_, ?_⟩
  · unfold List.Sorted at h5 ⊢
    rw [List.pairwise_map]
    refine h5.imp ?_
    intro a b hab
    unfold sizeDescending at hab
    rw [pairSize_eq, pairSize_eq] at hab
    exact hab
  · intro p hp e
    rw [List.mem_map] at hp
    obtain ⟨k, hk, rfl⟩ := hp
    obtain ⟨hne, hset⟩ := h3 k hk
    simp only [hset, Option.getD_some, List.mem_filter, decide_eq_true_eq, getRelations]
    rw [keyOf_eq_some_iff e k hne.1]

/-- Witness for `getSortedAnnotationsByKey_invariant`: the sample reactions are inserted, one
is removed, one is redacted and one is cancelled. -/
theorem getSortedAnnotationsByKey_invariant_witness :
    ∃ pairs,
      getSortedAnnotationsByKey (run (Bucket.create relTypeAnnotation "m.reaction")
          (sampleReactions.map Op.addEvent ++
            [Op.removeEvent (sampleReaction 4 "$b1" "@p:hs" "heart"),
             Op.beforeRedaction (sampleReaction 5 "$b2" "@q:hs" "heart"),
             Op.setStatus (sampleReaction 6 "$b3" "@r:hs" "heart")
               (some EventStatus.CANCELLED)])).1
        = some pairs ∧
      pairs.Sorted (fun p q => q.2.length ≤ p.2.length) ∧
      ∀ p ∈ pairs, ∀ e, e ∈ p.2 ↔
        (e ∈ getRelations (run (Bucket.create relTypeAnnotation "m.reaction")
          (sampleReactions.map Op.addEvent ++
            [Op.removeEvent (sampleReaction 4 "$b1" "@p:hs" "heart"),
             Op.beforeRedaction (sampleReaction 5 "$b2" "@q:hs" "heart"),
             Op.setStatus (sampleReaction 6 "$b3" "@r:hs" "heart")
               (some EventStatus.CANCELLED)])).1 ∧
          ∃ relation, e.relation = some relation ∧ relation.key = some p.1) :=
  getSortedAnnotationsByKey_invariant "m.reaction" _

/-! ## C8: events that do not belong to the bucket -/

theorem membersMatch_of_subset (rt et : String) (s t : Bucket) (h : MembersMatch rt et s)
    (h1 : t.relationType = s.relationType) (h2 : t.eventType = s.eventType)
    (h3 : ∀ e ∈ t.relations, e ∈ s.relations) : MembersMatch rt et t :=
  ⟨by rw [h1]; exact h.1, by rw [h2]; exact h.2.1, fun e he => h.2.2 e (h3 e he)⟩

theorem subset_of_eq_or_setDelete {l l2 : List MatrixEvent} {event : MatrixEvent}
    (h : l2 = l ∨ l2 = setDelete l event) : ∀ e ∈ l2, e ∈ l := by
  intro e he
  rcases h with h | h
  · rw [h] at he; exact he
  · rw [h] at he; exact (mem_setDelete.mp he).1

theorem membersMatch_step (rt et : String) (s : Bucket) (op : Op) (h : MembersMatch rt et s) :
    MembersMatch rt et (step s op).1 := by
  refine step_preserves (MembersMatch rt et) ?_ ?_ ?_ ?_ ?_ ?_ s op h
  · intro b e hb
    cases hacc : accepts b e with
    | false => rw [addEvent_of_not_accepts b e hacc]; exact hb
    | true =>
      have hf := addEvent_of_accepts b e hacc
      obtain ⟨-, relation, hr, ht, he⟩ := (accepts_iff b e).mp hacc
      refine ⟨by rw [hf.1]; exact hb.1, by rw [hf.2.1]; exact hb.2.1, ?_⟩
      intro x hx
      rw [hf.2.2.2.2.1] at hx
      unfold setAdd at hx
      split at hx
      · exact hb.2.2 x hx
      · rcases List.mem_append.mp hx with hx | hx
        · exact hb.2.2 x hx
        · simp at hx
          subst hx
          exact ⟨relation, hr, by rw [← ht, hb.1], by rw [← he, hb.2.1]⟩
  · intro b e hb
    have hf := removeEvent_frame b e
    exact membersMatch_of_subset rt et b _ hb hf.1 hf.2.1
      (subset_of_eq_or_setDelete hf.2.2.2.2.2.2.2.2)
  · intro b e hb
    have hf := setTargetEvent_frame b e
    exact membersMatch_of_subset rt et b _ hb hf.1 hf.2.1
      (fun x hx => by rw [hf.2.2.2.2.2.1] at hx; exact hx)
  · intro b e st hb
    have hf := onEventStatus_frame b e st
    exact membersMatch_of_subset rt et b _ hb hf.1 hf.2.1
      (subset_of_eq_or_setDelete hf.2.2.2.2.2.2.2)
  · intro b e hb
    have hf := onBeforeRedaction_frame b e
    exact membersMatch_of_subset rt et b _ hb hf.1 hf.2.1
      (subset_of_eq_or_setDelete hf.2.2.2.2.2.2.2)
  · intro b f hb
    exact hb

/-- C8: `addEvent` with an event that has no relation descriptor, or whose relation type or
event type differs from the bucket's, returns the state it was given (members, known IDs,
groupings, listeners) and emits nothing; and after every sequence of operations on a new
bucket every member carries a relation of the bucket's relation type and has the bucket's
event type. -/
theorem addEvent_mismatch :
    (∀ (s : Bucket) (event : MatrixEvent),
      (event.relation = none ∨ ∃ relation, event.relation = some relation ∧
        (relation.rel_type ≠ s.relationType ∨ event.type ≠ s.eventType)) →
      addEvent s event = (s, [])) ∧
    (∀ (relationType eventType : String) (ops : List Op),
      ∀ e ∈ getRelations (run (Bucket.create relationType eventType) ops).1,
        ∃ relation, e.relation = some relation ∧ relation.rel_type = relationType ∧
          e.type = eventType) := by
  constructor
  · intro s event h
    apply addEvent_of_not_accepts
    cases hacc : accepts s event with
    | false => rfl
    | true =>
      obtain ⟨-, relation, hr, ht, he⟩ := (accepts_iff s event).mp hacc
      rcases h with h | ⟨relation2, hr2, h⟩
      · rw [h] at hr; cases hr
      · rw [hr2] at hr
        cases hr
        rcases h with h | h
        · exact absurd ht.symm h
        · exact absurd he.symm h
  · intro rt et ops
    have h := run_preserves (MembersMatch rt et) (membersMatch_step rt et) ops
      (Bucket.create rt et) ⟨rfl, rfl, by simp [Bucket.create]⟩
    exact h.2.2

/-- Witness for `addEvent_mismatch`: an edit offered to a bucket of reactions is dropped. -/
theorem addEvent_mismatch_witness :
    addEvent bucketAfterRemoval (sampleEdit 1 "$e1" "@a:hs" 5) = (bucketAfterRemoval, []) :=
  addEvent_mismatch.1 bucketAfterRemoval (sampleEdit 1 "$e1" "@a:hs" 5)
    (Or.inr ⟨_, rfl, Or.inl (by decide)⟩)

/-! ## What the operations emit -/

theorem recomputeReplacement_isReplaced (s : Bucket) :
    ∀ x ∈ recomputeReplacement s, x.isReplaced = true := by
  intro x hx
  obtain ⟨t, -, h⟩ := recomputeReplacement_emitted s x hx
  rw [h]; rfl

/-- An accepted `addEvent` that runs to its end ends in `maybeEmitCreated` on a state that
has the new member and the old target and `creationEmitted` flag; before that it emits
`makeReplaced` calls, if any, and `Relations.add`. -/
theorem addEvent_emits (s : Bucket) (event : MatrixEvent) (hacc : accepts s event = true)
    (hplain : throwsFor s event = false) :
    ∃ (s4 : Bucket) (replaced : List Emitted),
      s4.creationEmitted = s.creationEmitted ∧ s4.targetEvent = s.targetEvent ∧
      s4.relations = setAdd s.relations event ∧
      (∀ x ∈ replaced, x.isReplaced = true) ∧
      (addEvent s event).1 = (maybeEmitCreated s4).1 ∧
      (addEvent s event).2 = replaced ++ [Emitted.relationsAdd event] ++ (maybeEmitCreated s4).2 := by
  rw [addEvent_of_plain s event hacc hplain]
  have hr := recorded_fields s event
  have ha := addAnnotationToAggregation_frame (recorded s event) event
  refine ⟨_, _, ?_, ?_, ?_, ?_, rfl, rfl⟩
  · by_cases hrt : s.relationType = relTypeAnnotation
    · simp [hrt, ha.2.2.2.2.2.1, hr.2.2.2.2.2.2.2.2.1]
    · simp [hrt, hr.2.2.2.2.2.2.2.2.1]
  · by_cases hrt : s.relationType = relTypeAnnotation
    · simp [hrt, ha.2.2.2.2.1, hr.2.2.1]
    · simp [hrt, hr.2.2.1]
  · by_cases hrt : s.relationType = relTypeAnnotation
    · simp [hrt, ha.2.2.2.1, hr.2.2.2.2.1]
    · simp [hrt, hr.2.2.2.2.1]
  · intro x hx
    by_cases hrt : s.relationType = relTypeAnnotation
    · simp [hrt] at hx
    · simp only [hrt, if_false] at hx
      exact recomputeReplacement_isReplaced _ x hx

/-- An accepted `addEvent` that ends in a `TypeError` keeps the target and the
`creationEmitted` flag. -/
theorem addEvent_throws_frame (s : Bucket) (event : MatrixEvent) (hacc : accepts s event = true)
    (hthrows : throwsFor s event = true) :
    (addEvent s event).1.creationEmitted = s.creationEmitted ∧
      (addEvent s event).1.targetEvent = s.targetEvent ∧
      ∃ message, (addEvent s event).2 = [Emitted.typeError message] := by
  obtain ⟨message, hm⟩ := addEvent_of_throws s event hacc hthrows
  have hr := recorded_fields s event
  have ha := addAnnotationToAggregation_frame (recorded s event) event
  rw [hm]
  exact ⟨by simp [ha.2.2.2.2.2.1, hr.2.2.2.2.2.2.2.2.1], by simp [ha.2.2.2.2.1, hr.2.2.1],
    message, rfl⟩

theorem maybeEmitCreated_budget (s : Bucket) :
    (maybeEmitCreated s).2.countP Emitted.isCreated + creationBudget (maybeEmitCreated s).1
      ≤ creationBudget s := by
  unfold maybeEmitCreated creationBudget
  cases hc : s.creationEmitted with
  | true => simp [hc]
  | false =>
    cases ht : s.targetEvent with
    | none => simp [hc]
    | some target =>
      by_cases hl : s.relations.length = 0
      · simp [hc, hl]
      · simp [hc, hl, Emitted.isCreated]

theorem countP_isCreated_of_isReplaced (l : List Emitted) (h : ∀ x ∈ l, x.isReplaced = true) :
    l.countP Emitted.isCreated = 0 := by
  rw [List.countP_eq_zero]
  intro x hx hc
  have := h x hx
  cases x <;> simp [Emitted.isCreated, Emitted.isReplaced] at hc this

theorem addEvent_budget (s : Bucket) (event : MatrixEvent) :
    (addEvent s event).2.countP Emitted.isCreated + creationBudget (addEvent s event).1
      ≤ creationBudget s := by
  cases hacc : accepts s event with
  | false => rw [addEvent_of_not_accepts s event hacc]; simp
  | true =>
    cases hthrows : throwsFor s event with
    | true =>
      obtain ⟨h1, -, message, h3⟩ := addEvent_throws_frame s event hacc hthrows
      rw [h3]
      unfold creationBudget
      rw [h1]
      simp [Emitted.isCreated]
    | false =>
      obtain ⟨s4, replaced, h1, -, -, h4, h5, h6⟩ := addEvent_emits s event hacc hthrows
      rw [h5, h6, List.countP_append, List.countP_append,
        countP_isCreated_of_isReplaced replaced h4]
      have := maybeEmitCreated_budget s4
      have hb : creationBudget s4 = creationBudget s := by unfold creationBudget; rw [h1]
      rw [hb] at this
      simpa [Emitted.isCreated] using this

/-- What `removeEvent` emits: `makeReplaced` calls or a `TypeError`, and `Relations.remove`
for a member. -/
theorem removeEvent_emits (s : Bucket) (event : MatrixEvent) :
    ∀ x ∈ (removeEvent s event).2,
      (x.isReplaced = true ∨ x.isError = true) ∨
        (x = Emitted.relationsRemove event ∧ event ∈ s.relations) := by
  intro x hx
  rcases removeEvent_cases s event with h | ⟨hm, -, ⟨-, h⟩ | ⟨-, message, h⟩⟩
  · rw [h] at hx; simp at hx
  · rw [h] at hx
    rcases List.mem_append.mp hx with hx | hx
    · left; left
      split at hx
      · simp at hx
      · exact recomputeReplacement_isReplaced _ x hx
    · right
      simp at hx
      exact ⟨hx, hm⟩
  · rw [h] at hx
    simp at hx
    left; right
    rw [hx]; rfl

/-- What `onBeforeRedaction` emits: `makeReplaced` calls or a `TypeError`, and
`Relations.redaction`. -/
theorem onBeforeRedaction_emits (s : Bucket) (event : MatrixEvent) :
    ∀ x ∈ (onBeforeRedaction s event).2,
      (x.isReplaced = true ∨ x.isError = true) ∨ x = Emitted.relationsRedaction event := by
  intro x hx
  rcases onBeforeRedaction_cases s event with h | ⟨-, ⟨-, -, h⟩ | ⟨-, -, message, h⟩⟩
  · rw [h] at hx; simp at hx
  · rw [h] at hx
    rcases List.mem_append.mp hx with hx | hx
    · left; left
      split at hx
      · simp at hx
      · exact recomputeReplacement_isReplaced _ x hx
    · right
      simpa using hx
  · rw [h] at hx
    simp at hx
    left; right
    rw [hx]; rfl

theorem onEventStatus_emits (s : Bucket) (event : MatrixEvent) (status : Option EventStatus) :
    ∀ x ∈ (onEventStatus s event status).2,
      (x.isReplaced = true ∨ x.isError = true) ∨
        (x = Emitted.relationsRemove event ∧ event ∈ s.relations) := by
  intro x hx
  unfold onEventStatus at hx
  split at hx
  · simp at hx
  · split at hx
    · simp at hx
    · exact removeEvent_emits
        { s with statusListeners := removeListener s.statusListeners event } event x hx

theorem callListeners_emits (listener : Bucket → Bucket × List Emitted) (n : Nat) (s : Bucket)
    (x : Emitted) (hx : x ∈ (callListeners listener n s).2) : ∃ b, x ∈ (listener b).2 := by
  induction n generalizing s with
  | zero => simp [callListeners] at hx
  | succ n ih =>
    simp only [callListeners] at hx
    rcases List.mem_append.mp hx with h | h
    · exact ⟨s, h⟩
    · exact ih _ h

theorem not_isCreated_of_isReplaced {x : Emitted} (h : x.isReplaced = true) :
    x.isCreated = false := by
  cases x <;> simp [Emitted.isCreated, Emitted.isReplaced] at h ⊢

theorem not_isCreated_of_aside {x : Emitted} (h : x.isReplaced = true ∨ x.isError = true) :
    x.isCreated = false := by
  cases x <;> simp [Emitted.isCreated, Emitted.isReplaced, Emitted.isError] at h ⊢

theorem removeEvent_not_created (s : Bucket) (event : MatrixEvent) :
    ∀ x ∈ (removeEvent s event).2, x.isCreated = false := by
  intro x hx
  rcases removeEvent_emits s event x hx with h | ⟨h, -⟩
  · exact not_isCreated_of_aside h
  · rw [h]; rfl

theorem onEventStatus_not_created (s : Bucket) (event : MatrixEvent)
    (status : Option EventStatus) :
    ∀ x ∈ (onEventStatus s event status).2, x.isCreated = false := by
  intro x hx
  rcases onEventStatus_emits s event status x hx with h | ⟨h, -⟩
  · exact not_isCreated_of_aside h
  · rw [h]; rfl

theorem onBeforeRedaction_not_created (s : Bucket) (event : MatrixEvent) :
    ∀ x ∈ (onBeforeRedaction s event).2, x.isCreated = false := by
  intro x hx
  rcases onBeforeRedaction_emits s event x hx with h | h
  · exact not_isCreated_of_aside h
  · rw [h]; rfl

theorem countP_isCreated_eq_zero (l : List Emitted) (h : ∀ x ∈ l, x.isCreated = false) :
    l.countP Emitted.isCreated = 0 := by
  rw [List.countP_eq_zero]
  intro x hx hc
  rw [h x hx] at hc
  cases hc

/-- What `setTargetEvent` does on a bucket without a target: it sets the target, hands an
existing replacement to `makeReplaced` and ends in `maybeEmitCreated`. -/
theorem setTargetEvent_emits (s : Bucket) (event : MatrixEvent) (h : s.targetEvent = none) :
    ∃ replaced : List Emitted, (∀ x ∈ replaced, x.isReplaced = true) ∧
      (setTargetEvent s event).1 = (maybeEmitCreated { s with targetEvent := some event }).1 ∧
      (setTargetEvent s event).2 =
        replaced ++ (maybeEmitCreated { s with targetEvent := some event }).2 := by
  have hdef : setTargetEvent s event =
      ((maybeEmitCreated { s with targetEvent := some event }).1,
        (if s.relationType = relTypeReplace then
          match getLastReplacement { s with targetEvent := some event } with
          | some replacement => [Emitted.makeReplaced event (some replacement)]
          | none => []
        else []) ++ (maybeEmitCreated { s with targetEvent := some event }).2) := by
    unfold setTargetEvent
    simp only [h]
  rw [hdef]
  refine ⟨_, ?_, rfl, rfl⟩
  intro x hx
  split at hx
  · split at hx
    · simp at hx; rw [hx]; rfl
    · simp at hx
  · simp at hx

theorem setTargetEvent_of_some (s : Bucket) (event target : MatrixEvent)
    (h : s.targetEvent = some target) : setTargetEvent s event = (s, []) := by
  unfold setTargetEvent
  simp [h]

theorem setTargetEvent_budget (s : Bucket) (event : MatrixEvent) :
    (setTargetEvent s event).2.countP Emitted.isCreated + creationBudget (setTargetEvent s event).1
      ≤ creationBudget s := by
  cases h : s.targetEvent with
  | some target => rw [setTargetEvent_of_some s event target h]; simp
  | none =>
    obtain ⟨replaced, h1, h2, h3⟩ := setTargetEvent_emits s event h
    rw [h2, h3, List.countP_append, countP_isCreated_of_isReplaced replaced h1]
    have := maybeEmitCreated_budget { s with targetEvent := some event }
    have hb : creationBudget { s with targetEvent := some event } = creationBudget s := rfl
    rw [hb] at this
    simpa using this

theorem callListeners_budget (listener : Bucket → Bucket × List Emitted)
    (h : ∀ s, (listener s).2.countP Emitted.isCreated + creationBudget (listener s).1
      ≤ creationBudget s) (n : Nat) (s : Bucket) :
    (callListeners listener n s).2.countP Emitted.isCreated +
        creationBudget (callListeners listener n s).1 ≤ creationBudget s := by
  induction n generalizing s with
  | zero => simp [callListeners]
  | succ n ih =>
    simp only [callListeners, List.countP_append]
    have h1 := h s
    have h2 := ih (listener s).1
    omega

theorem step_budget (s : Bucket) (op : Op) :
    (step s op).2.countP Emitted.isCreated + creationBudget (step s op).1 ≤ creationBudget s := by
  cases op with
  | addEvent e => exact addEvent_budget s e
  | removeEvent e =>
    simp only [step]
    rw [countP_isCreated_eq_zero _ (removeEvent_not_created s e)]
    unfold creationBudget
    rw [(removeEvent_frame s e).2.2.2.2.2.2.2.1]
    simp
  | setTargetEvent e => exact setTargetEvent_budget s e
  | setStatus e st =>
    simp only [step, setStatus]
    refine callListeners_budget _ (fun b => ?_) _ _
    rw [countP_isCreated_eq_zero _ (onEventStatus_not_created b e st)]
    unfold creationBudget
    rw [(onEventStatus_frame b e st).2.2.2.2.2.2.1]
    simp
  | beforeRedaction e =>
    simp only [step, beforeRedaction]
    refine callListeners_budget _ (fun b => ?_) _ _
    rw [countP_isCreated_eq_zero _ (onBeforeRedaction_not_created b e)]
    unfold creationBudget
    rw [(onBeforeRedaction_frame b e).2.2.2.2.2.2.1]
    simp

theorem run_budget (ops : List Op) (s : Bucket) :
    (run s ops).2.countP Emitted.isCreated + creationBudget (run s ops).1 ≤ creationBudget s := by
  induction ops generalizing s with
  | nil => simp [run]
  | cons op ops ih =>
    simp only [run, List.countP_append]
    have h1 := step_budget s op
    have h2 := ih (step s op).1
    omega

theorem maybeEmitCreated_moment (s : Bucket) (x : Emitted)
    (hx : x ∈ (maybeEmitCreated s).2) :
    (maybeEmitCreated s).1.targetEvent.isSome = true ∧ (maybeEmitCreated s).1.relations ≠ [] := by
  obtain ⟨target, ht, -, hr, -, -, -⟩ := maybeEmitCreated_emitted s x hx
  rw [maybeEmitCreated_frame]
  simp [ht, hr]

theorem step_created_moment (s : Bucket) (op : Op) (x : Emitted)
    (hx : x ∈ (step s op).2) (hc : x.isCreated = true) :
    (step s op).1.targetEvent.isSome = true ∧ (step s op).1.relations ≠ [] := by
  cases op with
  | addEvent e =>
    simp only [step] at hx ⊢
    cases hacc : accepts s e with
    | false => rw [addEvent_of_not_accepts s e hacc] at hx; simp at hx
    | true =>
      cases hthrows : throwsFor s e with
      | true =>
        obtain ⟨-, -, message, h3⟩ := addEvent_throws_frame s e hacc hthrows
        rw [h3] at hx
        simp at hx
        rw [hx] at hc
        cases hc
      | false =>
        obtain ⟨s4, replaced, -, -, -, h4, h5, h6⟩ := addEvent_emits s e hacc hthrows
        rw [h6] at hx
        rw [h5]
        rcases List.mem_append.mp hx with hx | hx
        · rcases List.mem_append.mp hx with hx | hx
          · rw [not_isCreated_of_isReplaced (h4 x hx)] at hc; cases hc
          · simp at hx; rw [hx] at hc; cases hc
        · exact maybeEmitCreated_moment s4 x hx
  | removeEvent e =>
    simp only [step] at hx
    rw [removeEvent_not_created s e x hx] at hc; cases hc
  | setTargetEvent e =>
    simp only [step] at hx ⊢
    cases h : s.targetEvent with
    | some target => rw [setTargetEvent_of_some s e target h] at hx; simp at hx
    | none =>
      obtain ⟨replaced, h1, h2, h3⟩ := setTargetEvent_emits s e h
      rw [h3] at hx
      rw [h2]
      rcases List.mem_append.mp hx with hx | hx
      · rw [not_isCreated_of_isReplaced (h1 x hx)] at hc; cases hc
      · exact maybeEmitCreated_moment _ x hx
  | setStatus e st =>
    simp only [step, setStatus] at hx
    obtain ⟨b, hb⟩ := callListeners_emits _ _ _ x hx
    rw [onEventStatus_not_created b e st x hb] at hc; cases hc
  | beforeRedaction e =>
    simp only [step, beforeRedaction] at hx
    obtain ⟨b, hb⟩ := callListeners_emits _ _ _ x hx
    rw [onBeforeRedaction_not_created b e x hb] at hc; cases hc

/-! ## C10: `Event.relationsCreated` and the target event -/

/-- C10: over every sequence of operations on a bucket, `Event.relationsCreated` is emitted at
most once; whenever an operation emits it, the bucket has a target event and at least one
member when the operation returns, which is the moment of the emission; and neither a later
`setTargetEvent` nor any other operation replaces a target event that is set. -/
theorem relationsCreated_once :
    (∀ (s : Bucket) (ops : List Op), (run s ops).2.countP Emitted.isCreated ≤ 1) ∧
    (∀ (s : Bucket) (op : Op), (∃ x ∈ (step s op).2, x.isCreated = true) →
      (step s op).1.targetEvent.isSome = true ∧ (step s op).1.relations ≠ []) ∧
    (∀ (s : Bucket) (target event : MatrixEvent), s.targetEvent = some target →
      setTargetEvent s event = (s, [])) ∧
    (∀ (s : Bucket) (target : MatrixEvent) (ops : List Op), s.targetEvent = some target →
      (run s ops).1.targetEvent = some target) := by
  refine ⟨?_, ?_, ?_, ?_⟩
  · intro s ops
    have h := run_budget ops s
    have hb : creationBudget s ≤ 1 := by unfold creationBudget; split <;> simp
    omega
  · rintro s op ⟨x, hx, hc⟩
    exact step_created_moment s op x hx hc
  · intro s target event h
    exact setTargetEvent_of_some s event target h
  · intro s target ops h
    exact (run_identity s.relationType s.eventType (some target) ops s
      ⟨rfl, rfl, fun t ht => by rw [h, ← ht]⟩).2.2 target rfl

/-- Witness for `relationsCreated_once`: the fifth operation on the bucket of edits, the first
insertion after the target is known, emits the notification. -/
theorem relationsCreated_once_witness :
    (run (Bucket.create relTypeReplace "m.room.message")
        [Op.setTargetEvent (sampleMessage "@a:hs" (some 3)),
         Op.addEvent (sampleEdit 1 "$e1" "@a:hs" 5),
         Op.setTargetEvent (sampleMessage "@b:hs" none),
         Op.removeEvent (sampleEdit 1 "$e1" "@a:hs" 5),
         Op.addEvent (sampleEdit 2 "$e2" "@a:hs" 5)]).2.countP Emitted.isCreated ≤ 1 ∧
      ((step (step (Bucket.create relTypeReplace "m.room.message")
          (Op.setTargetEvent (sampleMessage "@a:hs" (some 3)))).1
          (Op.addEvent (sampleEdit 1 "$e1" "@a:hs" 5))).1.targetEvent.isSome = true ∧
        (step (step (Bucket.create relTypeReplace "m.room.message")
          (Op.setTargetEvent (sampleMessage "@a:hs" (some 3)))).1
          (Op.addEvent (sampleEdit 1 "$e1" "@a:hs" 5))).1.relations ≠ []) ∧
      setTargetEvent bucketOfEdits (sampleMessage "@b:hs" none) = (bucketOfEdits, []) :=
  ⟨relationsCreated_once.1 _ _,
    relationsCreated_once.2.1 _ _
      ⟨Emitted.relationsCreated (sampleMessage "@a:hs" (some 3)) relTypeReplace "m.room.message",
        by decide, rfl⟩,
    relationsCreated_once.2.2.1 bucketOfEdits (sampleMessage "@a:hs" (some 3)) _ (by decide)⟩

/-! ## Cancellation of a sending member -/

theorem removeEvent_of_not_member (s : Bucket) (event : MatrixEvent)
    (h : event ∉ s.relations) : removeEvent s event = (s, []) := by
  unfold removeEvent
  simp [h]

/-- The method `removeEvent` on a member that matches the bucket, when it runs to its end. -/
theorem removeEvent_of_member (s : Bucket) (event : MatrixEvent) (h : event ∈ s.relations)
    (hm : ∃ relation, event.relation = some relation ∧ s.relationType = relation.rel_type ∧
      s.eventType = event.type)
    (hplain : throwsFor s event = false) :
    (removeEvent s event).1.relations = setDelete s.relations event ∧
      ∃ replaced : List Emitted, (∀ x ∈ replaced, x.isReplaced = true) ∧
        (removeEvent s event).2 = replaced ++ [Emitted.relationsRemove event] := by
  rw [removeEvent_of_plain s event h hm hplain]
  constructor
  · by_cases hrt : s.relationType = relTypeAnnotation
    · simp [hrt, removeAnnotationFromAggregation_frame, unrecorded]
    · simp [hrt, unrecorded]
  · refine ⟨_, ?_, rfl⟩
    intro x hx
    by_cases hrt : s.relationType = relTypeAnnotation
    · simp [hrt] at hx
    · simp only [hrt, if_false] at hx
      exact recomputeReplacement_isReplaced _ x hx

/-- The method `removeEvent` on a member that matches the bucket, when it ends in a
`TypeError`: the member is deleted all the same. -/
theorem removeEvent_of_member_throws (s : Bucket) (event : MatrixEvent)
    (h : event ∈ s.relations)
    (hm : ∃ relation, event.relation = some relation ∧ s.relationType = relation.rel_type ∧
      s.eventType = event.type)
    (hthrows : throwsFor s event = true) :
    (removeEvent s event).1.relations = setDelete s.relations event ∧
      ∃ message, (removeEvent s event).2 = [Emitted.typeError message] := by
  obtain ⟨message, hmsg⟩ := removeEvent_of_throws s event h hm hthrows
  rw [hmsg]
  exact ⟨by simp [removeAnnotationFromAggregation_frame, unrecorded], message, rfl⟩

theorem count_erase_le (l : List MatrixEvent) (x e : MatrixEvent) :
    (l.erase x).count e ≤ l.count e :=
  (List.erase_sublist x l).count_le e

theorem onEventStatus_statusListeners (s : Bucket) (event : MatrixEvent)
    (status : Option EventStatus) :
    (onEventStatus s event status).1.statusListeners = s.statusListeners ∨
      (onEventStatus s event status).1.statusListeners = s.statusListeners.erase event := by
  unfold onEventStatus
  split
  · right; rfl
  · split
    · left; rfl
    · right
      rw [(removeEvent_frame _ event).2.2.2.2.2.1]
      rfl

theorem mem_of_eq_or_setDelete {l l2 : List MatrixEvent} {x e : MatrixEvent}
    (h : l2 = l ∨ l2 = setDelete l x) (he : e ∈ l) (hne : e ≠ x) : e ∈ l2 := by
  rcases h with h | h
  · rw [h]; exact he
  · rw [h]; exact mem_setDelete.mpr ⟨he, hne⟩

theorem listening_step (event : MatrixEvent) (s : Bucket) (op : Op)
    (h : Listening event s) (hop : leavesSending event op = true) :
    Listening event (step s op).1 := by
  obtain ⟨h1, h2, h3, relation, hr, ht, he⟩ := h
  cases op with
  | addEvent x =>
    simp only [step]
    cases hacc : accepts s x with
    | false => rw [addEvent_of_not_accepts s x hacc]; exact ⟨h1, h2, h3, relation, hr, ht, he⟩
    | true =>
      have hf := addEvent_of_accepts s x hacc
      refine ⟨?_, ?_, ?_, relation, hr, by rw [hf.1]; exact ht, by rw [hf.2.1]; exact he⟩
      · rw [hf.2.2.2.2.1]
        unfold setAdd
        split
        · exact h1
        · exact List.mem_append_left _ h1
      · rw [hf.2.2.2.2.2.1]; exact List.mem_append_left _ h2
      · rw [hf.2.2.2.2.2.2.1]
        split
        · rw [List.count_append]; omega
        · exact h3
  | removeEvent x =>
    simp only [step]
    simp only [leavesSending, decide_eq_true_eq] at hop
    have hf := removeEvent_frame s x
    exact ⟨mem_of_eq_or_setDelete hf.2.2.2.2.2.2.2.2 h1 (Ne.symm hop),
      by rw [hf.2.2.2.2.1]; exact h2, by rw [hf.2.2.2.2.2.1]; exact h3,
      relation, hr, by rw [hf.1]; exact ht, by rw [hf.2.1]; exact he⟩
  | setTargetEvent x =>
    simp only [step]
    have hf := setTargetEvent_frame s x
    exact ⟨by rw [hf.2.2.2.2.2.1]; exact h1, by rw [hf.2.2.2.2.1]; exact h2,
      by rw [hf.2.2.2.2.2.2.2.2.2.1]; exact h3,
      relation, hr, by rw [hf.1]; exact ht, by rw [hf.2.1]; exact he⟩
  | setStatus x status =>
    simp only [step, setStatus]
    by_cases hx : x = event
    · subst hx
      simp only [leavesSending, ne_eq, not_true_eq_false, decide_False, Bool.false_or,
        Bool.and_eq_true, decide_eq_true_eq] at hop
      have := callListeners_preserves
        (fun b => Listening x b ∧ b.eventStatus x = status)
        (fun b => onEventStatus b x status)
        (fun b hb => by
          have hsame : onEventStatus b x status = (b, []) := by
            unfold onEventStatus
            rw [hb.2]
            simp [hop.1, hop.2]
          show Listening x (onEventStatus b x status).1 ∧
            (onEventStatus b x status).1.eventStatus x = status
          rw [hsame]; exact hb)
        (s.statusListeners.count x)
        { s with eventStatus := Function.update s.eventStatus x status }
        ⟨⟨h1, h2, h3, relation, hr, ht, he⟩, by simp⟩
      exact this.1
    · refine callListeners_preserves (Listening event) _ (fun b hb => ?_) _ _
        ⟨h1, h2, h3, relation, hr, ht, he⟩
      obtain ⟨b1, b2, b3, rel2, br, bt, be⟩ := hb
      have hf := onEventStatus_frame b x status
      refine ⟨mem_of_eq_or_setDelete hf.2.2.2.2.2.2.2 b1 (Ne.symm hx),
        by rw [hf.2.2.2.2.1]; exact b2, ?_,
        rel2, br, by rw [hf.1]; exact bt, by rw [hf.2.1]; exact be⟩
      rcases onEventStatus_statusListeners b x status with hl | hl
      · rw [hl]; exact b3
      · rw [hl, List.count_erase_of_ne (Ne.symm hx)]; exact b3
  | beforeRedaction x =>
    simp only [step, beforeRedaction]
    simp only [leavesSending, decide_eq_true_eq] at hop
    refine callListeners_preserves (Listening event) _ (fun b hb => ?_) _ _
      ⟨h1, h2, h3, relation, hr, ht, he⟩
    obtain ⟨b1, b2, b3, rel2, br, bt, be⟩ := hb
    have hf := onBeforeRedaction_frame b x
    exact ⟨mem_of_eq_or_setDelete hf.2.2.2.2.2.2.2 b1 (Ne.symm hop),
      by rw [hf.2.2.2.2.1]; exact b2, by rw [hf.2.2.2.2.2.1]; exact b3,
      rel2, br, by rw [hf.1]; exact bt, by rw [hf.2.1]; exact be⟩

theorem listening_run (event : MatrixEvent) (ops : List Op) (s : Bucket)
    (h : Listening event s) (hops : ∀ op ∈ ops, leavesSending event op = true) :
    Listening event (run s ops).1 := by
  induction ops generalizing s with
  | nil => exact h
  | cons op ops ih =>
    exact ih (step s op).1 (listening_step event s op h (hops op (List.mem_cons_self _ _)))
      (fun o ho => hops o (List.mem_cons_of_mem _ ho))

theorem listening_addEvent (s : Bucket) (event : MatrixEvent) (hacc : accepts s event = true)
    (hsend : isSending (s.eventStatus event) = true) : Listening event (addEvent s event).1 := by
  have hf := addEvent_of_accepts s event hacc
  obtain ⟨-, relation, hr, ht, he⟩ := (accepts_iff s event).mp hacc
  refine ⟨?_, ?_, ?_, relation, hr, by rw [hf.1]; exact ht, by rw [hf.2.1]; exact he⟩
  · rw [hf.2.2.2.2.1]
    unfold setAdd
    split
    · assumption
    · simp
  · rw [hf.2.2.2.2.2.1]; simp
  · rw [hf.2.2.2.2.2.2.1, if_pos hsend, List.count_append]
    simp

theorem onEventStatus_cancelled_of_not_member (b : Bucket) (event : MatrixEvent)
    (h1 : event ∉ b.relations) (h2 : b.eventStatus event = some EventStatus.CANCELLED) :
    onEventStatus b event (some EventStatus.CANCELLED) =
      ({ b with statusListeners := b.statusListeners.erase event }, []) := by
  unfold onEventStatus
  rw [h2]
  simp only [isSending, Option.isSome_some, Bool.not_true, Bool.false_eq_true, if_false, ne_eq,
    not_true_eq_false]
  exact removeEvent_of_not_member _ event h1

theorem callListeners_cancelled_of_not_member (event : MatrixEvent) (n : Nat) (b : Bucket)
    (h1 : event ∉ b.relations) (h2 : b.eventStatus event = some EventStatus.CANCELLED)
    (h3 : event.id ∈ b.relationEventIds) :
    (callListeners (fun c => onEventStatus c event (some EventStatus.CANCELLED)) n b).2 = [] ∧
      event ∉ (callListeners (fun c => onEventStatus c event (some EventStatus.CANCELLED)) n b).1.relations ∧
      event.id ∈ (callListeners (fun c => onEventStatus c event (some EventStatus.CANCELLED)) n b).1.relationEventIds ∧
      (callListeners (fun c => onEventStatus c event (some EventStatus.CANCELLED)) n b).1.statusListeners.count event
        = b.statusListeners.count event - n := by
  induction n generalizing b with
  | zero => simp [callListeners, h1, h3]
  | succ n ih =>
    simp only [callListeners]
    rw [onEventStatus_cancelled_of_not_member b event h1 h2]
    have := ih { b with statusListeners := b.statusListeners.erase event } h1 h2 h3
    refine ⟨by simp [this.1], this.2.1, this.2.2.1, ?_⟩
    rw [this.2.2.2]
    simp only [List.count_erase_self]
    omega

/-- The first call of the status listener when a member the bucket listens to is cancelled
is `removeEvent` on the state with one registration detached. -/
theorem onEventStatus_cancelled_first (event : MatrixEvent) (s : Bucket) :
    onEventStatus
        { s with eventStatus := Function.update s.eventStatus event (some EventStatus.CANCELLED) }
        event (some EventStatus.CANCELLED) =
      removeEvent
        { s with
          eventStatus := Function.update s.eventStatus event (some EventStatus.CANCELLED)
          statusListeners := s.statusListeners.erase event } event := by
  unfold onEventStatus
  simp [isSending, removeListener]

/-- The cancellation of a member the bucket listens to, when `removeEvent` runs to its end:
the event leaves the bucket, every registration of the status listener on it is detached, and
`Relations.remove` is emitted for it once. -/
theorem setStatus_cancelled (event : MatrixEvent) (s : Bucket) (h : Listening event s)
    (hplain : throwsFor s event = false) :
    Gone event (setStatus s event (some EventStatus.CANCELLED)).1 ∧
      (setStatus s event (some EventStatus.CANCELLED)).2.count (Emitted.relationsRemove event)
        = 1 := by
  obtain ⟨h1, h2, h3, hm⟩ := h
  unfold setStatus
  simp only []
  obtain ⟨m, hm1⟩ : ∃ m, s.statusListeners.count event = m + 1 := ⟨_, (Nat.sub_add_cancel h3).symm⟩
  rw [hm1]
  simp only [callListeners]
  rw [onEventStatus_cancelled_first]
  have hf := removeEvent_frame
    { s with
      eventStatus := Function.update s.eventStatus event (some EventStatus.CANCELLED)
      statusListeners := s.statusListeners.erase event } event
  obtain ⟨hrel, replaced, hrep, hem⟩ := removeEvent_of_member
    { s with
      eventStatus := Function.update s.eventStatus event (some EventStatus.CANCELLED)
      statusListeners := s.statusListeners.erase event } event h1 hm hplain
  have hrest := callListeners_cancelled_of_not_member event m _
    (by rw [hrel]; exact fun hmem => (mem_setDelete.mp hmem).2 rfl)
    (by rw [hf.2.2.2.1]; simp)
    (by rw [hf.2.2.2.2.1]; exact h2)
  refine ⟨⟨hrest.2.1, hrest.2.2.1, ?_⟩, ?_⟩
  · rw [hrest.2.2.2, hf.2.2.2.2.2.1]
    simp only [List.count_erase_self]
    omega
  · rw [hrest.1, hem, List.append_nil, List.count_append]
    have : replaced.count (Emitted.relationsRemove event) = 0 := by
      rw [List.count_eq_zero]
      intro hx
      have := hrep _ hx
      simp [Emitted.isReplaced] at this
    rw [this]
    simp

/-- The cancellation of a member the bucket listens to, when `removeEvent` ends in a
`TypeError`: the event leaves the bucket and every registration of the status listener on it
is detached, but `Relations.remove` is not emitted for it. -/
theorem setStatus_cancelled_throws (event : MatrixEvent) (s : Bucket) (h : Listening event s)
    (hthrows : throwsFor s event = true) :
    Gone event (setStatus s event (some EventStatus.CANCELLED)).1 ∧
      (setStatus s event (some EventStatus.CANCELLED)).2.count (Emitted.relationsRemove event)
        = 0 := by
  obtain ⟨h1, h2, h3, hm⟩ := h
  unfold setStatus
  simp only []
  obtain ⟨m, hm1⟩ : ∃ m, s.statusListeners.count event = m + 1 := ⟨_, (Nat.sub_add_cancel h3).symm⟩
  rw [hm1]
  simp only [callListeners]
  rw [onEventStatus_cancelled_first]
  have hf := removeEvent_frame
    { s with
      eventStatus := Function.update s.eventStatus event (some EventStatus.CANCELLED)
      statusListeners := s.statusListeners.erase event } event
  obtain ⟨hrel, message, hem⟩ := removeEvent_of_member_throws
    { s with
      eventStatus := Function.update s.eventStatus event (some EventStatus.CANCELLED)
      statusListeners := s.statusListeners.erase event } event h1 hm hthrows
  have hrest := callListeners_cancelled_of_not_member event m _
    (by rw [hrel]; exact fun hmem => (mem_setDelete.mp hmem).2 rfl)
    (by rw [hf.2.2.2.1]; simp)
    (by rw [hf.2.2.2.2.1]; exact h2)
  refine ⟨⟨hrest.2.1, hrest.2.2.1, ?_⟩, ?_⟩
  · rw [hrest.2.2.2, hf.2.2.2.2.2.1]
    simp only [List.count_erase_self]
    omega
  · rw [hrest.1, hem]
    simp

theorem callListeners_quiet (P : Bucket → Prop) (x : Emitted)
    (listener : Bucket → Bucket × List Emitted)
    (h : ∀ b, P b → P (listener b).1 ∧ x ∉ (listener b).2) (n : Nat) (s : Bucket) (hs : P s) :
    P (callListeners listener n s).1 ∧ x ∉ (callListeners listener n s).2 := by
  induction n generalizing s with
  | zero => exact ⟨hs, by simp [callListeners]⟩
  | succ n ih =>
    simp only [callListeners]
    have h1 := h s hs
    have h2 := ih (listener s).1 h1.1
    exact ⟨h2.1, fun hx => (List.mem_append.mp hx).elim h1.2 h2.2⟩

theorem not_mem_of_eq_or_setDelete {l l2 : List MatrixEvent} {x e : MatrixEvent}
    (h : l2 = l ∨ l2 = setDelete l x) (he : e ∉ l) : e ∉ l2 :=
  fun hm => he (subset_of_eq_or_setDelete h e hm)

/-- Once an event is gone, no operation brings it back and none emits `Relations.remove` for
it. -/
theorem gone_step (event : MatrixEvent) (s : Bucket) (op : Op) (h : Gone event s) :
    Gone event (step s op).1 ∧ Emitted.relationsRemove event ∉ (step s op).2 := by
  obtain ⟨h1, h2, h3⟩ := h
  cases op with
  | addEvent x =>
    simp only [step]
    cases hacc : accepts s x with
    | false => rw [addEvent_of_not_accepts s x hacc]; exact ⟨⟨h1, h2, h3⟩, by simp⟩
    | true =>
      have hf := addEvent_of_accepts s x hacc
      have hid := ((accepts_iff s x).mp hacc).1
      have hne : event ≠ x := fun hex => hid (hex ▸ h2)
      refine ⟨⟨?_, ?_, ?_⟩, ?_⟩
      · rw [hf.2.2.2.2.1]
        unfold setAdd
        split
        · exact h1
        · simp [h1, hne]
      · rw [hf.2.2.2.2.2.1]; exact List.mem_append_left _ h2
      · rw [hf.2.2.2.2.2.2.1]
        split
        · rw [List.count_append, h3]
          simp [List.count_cons, Ne.symm hne]
        · exact h3
      · cases hthrows : throwsFor s x with
        | true =>
          obtain ⟨-, -, message, h3⟩ := addEvent_throws_frame s x hacc hthrows
          rw [h3]
          simp
        | false =>
          obtain ⟨s4, replaced, -, -, -, h4, -, h6⟩ := addEvent_emits s x hacc hthrows
          rw [h6]
          intro hx
          rcases List.mem_append.mp hx with hx | hx
          · rcases List.mem_append.mp hx with hx | hx
            · have := h4 _ hx
              simp [Emitted.isReplaced] at this
            · simp at hx
          · obtain ⟨t, -, -, -, -, hc, -⟩ := maybeEmitCreated_emitted s4 _ hx
            cases hc
  | removeEvent x =>
    simp only [step]
    have hf := removeEvent_frame s x
    refine ⟨⟨not_mem_of_eq_or_setDelete hf.2.2.2.2.2.2.2.2 h1, by rw [hf.2.2.2.2.1]; exact h2,
      by rw [hf.2.2.2.2.2.1]; exact h3⟩, ?_⟩
    intro hx
    rcases removeEvent_emits s x _ hx with h | ⟨h, hmem⟩
    · simp [Emitted.isReplaced, Emitted.isError] at h
    · cases h; exact h1 hmem
  | setTargetEvent x =>
    simp only [step]
    have hf := setTargetEvent_frame s x
    refine ⟨⟨by rw [hf.2.2.2.2.2.1]; exact h1, by rw [hf.2.2.2.2.1]; exact h2,
      by rw [hf.2.2.2.2.2.2.2.2.2.1]; exact h3⟩, ?_⟩
    intro hx
    cases ht : s.targetEvent with
    | some target => rw [setTargetEvent_of_some s x target ht] at hx; simp at hx
    | none =>
      obtain ⟨replaced, r1, -, r3⟩ := setTargetEvent_emits s x ht
      rw [r3] at hx
      rcases List.mem_append.mp hx with hx | hx
      · have := r1 _ hx
        simp [Emitted.isReplaced] at this
      · obtain ⟨t, -, -, -, -, hc, -⟩ := maybeEmitCreated_emitted _ _ hx
        cases hc
  | setStatus x status =>
    simp only [step, setStatus]
    refine callListeners_quiet (Gone event) _ _ (fun b hb => ?_) _ _ ⟨h1, h2, h3⟩
    obtain ⟨b1, b2, b3⟩ := hb
    have hf := onEventStatus_frame b x status
    refine ⟨⟨not_mem_of_eq_or_setDelete hf.2.2.2.2.2.2.2 b1, by rw [hf.2.2.2.2.1]; exact b2, ?_⟩,
      ?_⟩
    · rcases onEventStatus_statusListeners b x status with hl | hl
      · rw [hl]; exact b3
      · rw [hl]
        have := count_erase_le b.statusListeners x event
        omega
    · intro hx
      rcases onEventStatus_emits b x status _ hx with h | ⟨h, hmem⟩
      · simp [Emitted.isReplaced, Emitted.isError] at h
      · cases h; exact b1 hmem
  | beforeRedaction x =>
    simp only [step, beforeRedaction]
    refine callListeners_quiet (Gone event) _ _ (fun b hb => ?_) _ _ ⟨h1, h2, h3⟩
    obtain ⟨b1, b2, b3⟩ := hb
    have hf := onBeforeRedaction_frame b x
    refine ⟨⟨not_mem_of_eq_or_setDelete hf.2.2.2.2.2.2.2 b1, by rw [hf.2.2.2.2.1]; exact b2,
      by rw [hf.2.2.2.2.2.1]; exact b3⟩, ?_⟩
    intro hx
    rcases onBeforeRedaction_emits b x _ hx with h | h
    · simp [Emitted.isReplaced, Emitted.isError] at h
    · cases h

theorem gone_run (event : MatrixEvent) (ops : List Op) (s : Bucket) (h : Gone event s) :
    Gone event (run s ops).1 ∧ Emitted.relationsRemove event ∉ (run s ops).2 := by
  induction ops generalizing s with
  | nil => exact ⟨h, by simp [run]⟩
  | cons op ops ih =>
    simp only [run]
    have h1 := gone_step event s op h
    have h2 := ih (step s op).1 h1.1
    exact ⟨h2.1, fun hx => (List.mem_append.mp hx).elim h1.2 h2.2⟩

/-- The bucket's relation type is that of the relation of an event it listens to, so whether
the aggregation throws for the event is the same in every such state. -/
theorem throwsFor_of_listening (event : MatrixEvent) (s t : Bucket) (hacc : accepts s event = true)
    (h : Listening event t) : throwsFor t event = throwsFor s event := by
  obtain ⟨-, relation, hr, ht, -⟩ := (accepts_iff s event).mp hacc
  obtain ⟨-, -, -, relation2, hr2, ht2, -⟩ := h
  rw [hr] at hr2
  cases hr2
  unfold throwsFor
  rw [ht, ht2]

/-- Cancellation of a sending member whose key and sender name no inherited property: an
event that is being sent when `addEvent` accepts it stays a member the bucket listens to as
long as it is neither removed nor redacted and keeps a sending status; when its status then
changes to cancelled, it is no longer in `getRelations()`, the status listener is detached
from it and `Relations.remove` is emitted for it exactly once; whatever operations follow,
status changes included, emit no further `Relations.remove` for it and do not bring it
back. -/
theorem cancellation_of_plain_member (s : Bucket) (event : MatrixEvent) (before after : List Op)
    (hacc : accepts s event = true) (hsend : isSending (s.eventStatus event) = true)
    (hplain : throwsFor s event = false)
    (hbefore : ∀ op ∈ before, leavesSending event op = true) :
    event ∉ getRelations
        (setStatus (run (addEvent s event).1 before).1 event (some EventStatus.CANCELLED)).1 ∧
      event ∉
        (setStatus (run (addEvent s event).1 before).1 event
          (some EventStatus.CANCELLED)).1.statusListeners ∧
      (setStatus (run (addEvent s event).1 before).1 event
          (some EventStatus.CANCELLED)).2.count (Emitted.relationsRemove event) = 1 ∧
      (run (setStatus (run (addEvent s event).1 before).1 event
          (some EventStatus.CANCELLED)).1 after).2.count (Emitted.relationsRemove event) = 0 ∧
      event ∉ getRelations
        (run (setStatus (run (addEvent s event).1 before).1 event
          (some EventStatus.CANCELLED)).1 after).1 := by
  have hl := listening_run event before _ (listening_addEvent s event hacc hsend) hbefore
  obtain ⟨hg, hc⟩ := setStatus_cancelled event _ hl
    ((throwsFor_of_listening event s _ hacc hl).trans hplain)
  have hr := gone_run event after _ hg
  exact ⟨hg.1, List.count_eq_zero.mp hg.2.2, hc, List.count_eq_zero.mpr hr.2, hr.1.1⟩

/-- Cancellation of a sending member whose key or sender names an inherited property, in an
annotation bucket: the event leaves `getRelations()` and the status listener is detached from
it, but `Relations.remove` is emitted for it neither by the cancellation nor afterwards. -/
theorem cancellation_of_throwing_member (s : Bucket) (event : MatrixEvent)
    (before after : List Op)
    (hacc : accepts s event = true) (hsend : isSending (s.eventStatus event) = true)
    (hthrows : throwsFor s event = true)
    (hbefore : ∀ op ∈ before, leavesSending event op = true) :
    event ∉ getRelations
        (setStatus (run (addEvent s event).1 before).1 event (some EventStatus.CANCELLED)).1 ∧
      event ∉
        (setStatus (run (addEvent s event).1 before).1 event
          (some EventStatus.CANCELLED)).1.statusListeners ∧
      (setStatus (run (addEvent s event).1 before).1 event
          (some EventStatus.CANCELLED)).2.count (Emitted.relationsRemove event) = 0 ∧
      (run (setStatus (run (addEvent s event).1 before).1 event
          (some EventStatus.CANCELLED)).1 after).2.count (Emitted.relationsRemove event) = 0 := by
  have hl := listening_run event before _ (listening_addEvent s event hacc hsend) hbefore
  obtain ⟨hg, hc⟩ := setStatus_cancelled_throws event _ hl
    ((throwsFor_of_listening event s _ hacc hl).trans hthrows)
  have hr := gone_run event after _ hg
  exact ⟨hg.1, List.count_eq_zero.mp hg.2.2, hc, List.count_eq_zero.mpr hr.2⟩

/-! ## C9: cancellation of a sending member -/

/-- C9 fails on the code: the reaction `$a` with the key `constructor`, a name that
`Object.prototype` defines, is being sent when it is added to a new annotation bucket, which
records it as a member and listens to its status. When its status changes to cancelled the
bucket deletes the member and detaches the listener, but `removeAnnotationFromAggregation`
throws at `eventsForKey.delete`, so `Relations.remove` is emitted for the event zero times,
not once. -/
theorem cancellation_inherited_key :
    accepts bucketWithInheritedEcho (sampleReaction 1 "$a" "@u:hs" "constructor") = true ∧
      isSending (bucketWithInheritedEcho.eventStatus
        (sampleReaction 1 "$a" "@u:hs" "constructor")) = true ∧
      sampleReaction 1 "$a" "@u:hs" "constructor" ∈ getRelations
        (addEvent bucketWithInheritedEcho (sampleReaction 1 "$a" "@u:hs" "constructor")).1 ∧
      sampleReaction 1 "$a" "@u:hs" "constructor" ∈
        (addEvent bucketWithInheritedEcho
          (sampleReaction 1 "$a" "@u:hs" "constructor")).1.statusListeners ∧
      sampleReaction 1 "$a" "@u:hs" "constructor" ∉ getRelations
        (setStatus
          (addEvent bucketWithInheritedEcho (sampleReaction 1 "$a" "@u:hs" "constructor")).1
          (sampleReaction 1 "$a" "@u:hs" "constructor") (some EventStatus.CANCELLED)).1 ∧
      sampleReaction 1 "$a" "@u:hs" "constructor" ∉
        (setStatus
          (addEvent bucketWithInheritedEcho (sampleReaction 1 "$a" "@u:hs" "constructor")).1
          (sampleReaction 1 "$a" "@u:hs" "constructor")
          (some EventStatus.CANCELLED)).1.statusListeners ∧
      (setStatus
          (addEvent bucketWithInheritedEcho (sampleReaction 1 "$a" "@u:hs" "constructor")).1
          (sampleReaction 1 "$a" "@u:hs" "constructor") (some EventStatus.CANCELLED)).2
        = [Emitted.typeError "TypeError: eventsForKey.delete is not a function"] ∧
      (setStatus
          (addEvent bucketWithInheritedEcho (sampleReaction 1 "$a" "@u:hs" "constructor")).1
          (sampleReaction 1 "$a" "@u:hs" "constructor") (some EventStatus.CANCELLED)).2.count
          (Emitted.relationsRemove (sampleReaction 1 "$a" "@u:hs" "constructor")) = 0 := by
  decide

/-! ## C26: a removed event stays known -/

theorem mem_setAdd {α : Type} [DecidableEq α] (l : List α) (a b : α) :
    b ∈ setAdd l a ↔ b ∈ l ∨ b = a := by
  unfold setAdd
  split
  · constructor
    · exact Or.inl
    · rintro (h | rfl)
      · exact h
      · assumption
  · simp

theorem membersKnown_step (s : Bucket) (op : Op) (h : MembersKnown s) :
    MembersKnown (step s op).1 := by
  refine step_preserves MembersKnown ?_ ?_ ?_ ?_ ?_ ?_ s op h
  · intro b x hb
    cases hacc : accepts b x with
    | false => rw [addEvent_of_not_accepts b x hacc]; exact hb
    | true =>
      have hf := addEvent_of_accepts b x hacc
      intro e he
      rw [hf.2.2.2.2.1, mem_setAdd] at he
      rw [hf.2.2.2.2.2.1]
      rcases he with he | rfl
      · exact List.mem_append_left _ (hb e he)
      · simp
  · intro b x hb e he
    have hf := removeEvent_frame b x
    rw [hf.2.2.2.2.1]
    exact hb e (subset_of_eq_or_setDelete hf.2.2.2.2.2.2.2.2 e he)
  · intro b x hb e he
    have hf := setTargetEvent_frame b x
    rw [hf.2.2.2.2.1]
    rw [hf.2.2.2.2.2.1] at he
    exact hb e he
  · intro b x st hb e he
    have hf := onEventStatus_frame b x st
    rw [hf.2.2.2.2.1]
    exact hb e (subset_of_eq_or_setDelete hf.2.2.2.2.2.2.2 e he)
  · intro b x hb e he
    have hf := onBeforeRedaction_frame b x
    rw [hf.2.2.2.2.1]
    exact hb e (subset_of_eq_or_setDelete hf.2.2.2.2.2.2.2 e he)
  · intro b f hb
    exact hb

theorem removed_step (event : MatrixEvent) (s : Bucket) (op : Op) (h : Removed event s) :
    Removed event (step s op).1 := by
  refine step_preserves (Removed event) ?_ ?_ ?_ ?_ ?_ ?_ s op h
  · intro b x hb
    cases hacc : accepts b x with
    | false => rw [addEvent_of_not_accepts b x hacc]; exact hb
    | true =>
      have hf := addEvent_of_accepts b x hacc
      have hid := ((accepts_iff b x).mp hacc).1
      have hne : event ≠ x := fun hex => hid (hex ▸ hb.2)
      refine ⟨?_, ?_⟩
      · rw [hf.2.2.2.2.1, mem_setAdd]
        rintro (hm | hm)
        · exact hb.1 hm
        · exact hne hm
      · rw [hf.2.2.2.2.2.1]
        exact List.mem_append_left _ hb.2
  · intro b x hb
    have hf := removeEvent_frame b x
    exact ⟨not_mem_of_eq_or_setDelete hf.2.2.2.2.2.2.2.2 hb.1, by rw [hf.2.2.2.2.1]; exact hb.2⟩
  · intro b x hb
    have hf := setTargetEvent_frame b x
    exact ⟨by rw [hf.2.2.2.2.2.1]; exact hb.1, by rw [hf.2.2.2.2.1]; exact hb.2⟩
  · intro b x st hb
    have hf := onEventStatus_frame b x st
    exact ⟨not_mem_of_eq_or_setDelete hf.2.2.2.2.2.2.2 hb.1, by rw [hf.2.2.2.2.1]; exact hb.2⟩
  · intro b x hb
    have hf := onBeforeRedaction_frame b x
    exact ⟨not_mem_of_eq_or_setDelete hf.2.2.2.2.2.2.2 hb.1, by rw [hf.2.2.2.2.1]; exact hb.2⟩
  · intro b f hb
    exact hb

/-- C26: in a bucket reached from a new one, once an operation (a `removeEvent`, a change of
status to cancelled, a redaction) has taken a member out, its ID is still known, and it stays
known and the event stays out whatever operations follow; `addEvent` of that event, or of any
event with the same ID, then changes nothing and emits nothing. -/
theorem removed_event_stays_known (relationType eventType : String) (before later : List Op)
    (removal : Op) (event other : MatrixEvent)
    (hmember : event ∈ (run (Bucket.create relationType eventType) before).1.relations)
    (hremoved :
      event ∉ (step (run (Bucket.create relationType eventType) before).1 removal).1.relations)
    (hid : other.id = event.id) :
    event.id ∈
        (step (run (Bucket.create relationType eventType) before).1 removal).1.relationEventIds ∧
      event.id ∈
        (run (step (run (Bucket.create relationType eventType) before).1 removal).1
          later).1.relationEventIds ∧
      event ∉
        (run (step (run (Bucket.create relationType eventType) before).1 removal).1
          later).1.relations ∧
      addEvent
          (run (step (run (Bucket.create relationType eventType) before).1 removal).1 later).1
          other =
        ((run (step (run (Bucket.create relationType eventType) before).1 removal).1 later).1,
          []) := by
  have hknown : MembersKnown (run (Bucket.create relationType eventType) before).1 :=
    run_preserves MembersKnown membersKnown_step before _ (by intro e he; simp [Bucket.create] at he)
  have h0 : event.id ∈ (run (Bucket.create relationType eventType) before).1.relationEventIds :=
    hknown event hmember
  generalize (run (Bucket.create relationType eventType) before).1 = s at hmember hremoved h0 ⊢
  have hstep : event.id ∈ (step s removal).1.relationEventIds := by
    have hk : ∀ b : Bucket, event.id ∈ b.relationEventIds →
        ∀ op, event.id ∈ (step b op).1.relationEventIds := by
      intro b hb op
      refine step_preserves (fun b => event.id ∈ b.relationEventIds) ?_ ?_ ?_ ?_ ?_ ?_ b op hb
      · intro b x hb
        cases hacc : accepts b x with
        | false => rw [addEvent_of_not_accepts b x hacc]; exact hb
        | true =>
          rw [(addEvent_of_accepts b x hacc).2.2.2.2.2.1]
          exact List.mem_append_left _ hb
      · intro b x hb
        rw [(removeEvent_frame b x).2.2.2.2.1]; exact hb
      · intro b x hb
        rw [(setTargetEvent_frame b x).2.2.2.2.1]; exact hb
      · intro b x st hb
        rw [(onEventStatus_frame b x st).2.2.2.2.1]; exact hb
      · intro b x hb
        rw [(onBeforeRedaction_frame b x).2.2.2.2.1]; exact hb
      · intro b f hb
        exact hb
    exact hk s h0 removal
  have hlater : Removed event (run (step s removal).1 later).1 :=
    run_preserves (Removed event) (removed_step event) later _ ⟨hremoved, hstep⟩
  refine ⟨hstep, hlater.2, hlater.1, ?_⟩
  exact addEvent_of_known _ other (hid ▸ hlater.2)

/-- Witness for `removed_event_stays_known`: the reaction `$a` is added and removed, other
reactions come and go, and another event object with the ID `$a` is then offered. -/
theorem removed_event_stays_known_witness :
    addEvent
        (run
          (step
            (run (Bucket.create relTypeAnnotation "m.reaction")
              [Op.addEvent (sampleReaction 1 "$a" "@u:hs" "+")]).1
            (Op.removeEvent (sampleReaction 1 "$a" "@u:hs" "+"))).1
          [Op.addEvent (sampleReaction 2 "$b" "@v:hs" "+"),
           Op.beforeRedaction (sampleReaction 2 "$b" "@v:hs" "+")]).1
        (sampleReaction 3 "$a" "@w:hs" "-") =
      ((run
          (step
            (run (Bucket.create relTypeAnnotation "m.reaction")
              [Op.addEvent (sampleReaction 1 "$a" "@u:hs" "+")]).1
            (Op.removeEvent (sampleReaction 1 "$a" "@u:hs" "+"))).1
          [Op.addEvent (sampleReaction 2 "$b" "@v:hs" "+"),
           Op.beforeRedaction (sampleReaction 2 "$b" "@v:hs" "+")]).1, []) :=
  (removed_event_stays_known relTypeAnnotation "m.reaction"
    [Op.addEvent (sampleReaction 1 "$a" "@u:hs" "+")]
    [Op.addEvent (sampleReaction 2 "$b" "@v:hs" "+"),
     Op.beforeRedaction (sampleReaction 2 "$b" "@v:hs" "+")]
    (Op.removeEvent (sampleReaction 1 "$a" "@u:hs" "+"))
    (sampleReaction 1 "$a" "@u:hs" "+") (sampleReaction 3 "$a" "@w:hs" "-")
    (by decide) (by decide) rfl).2.2.2

/-! ## C30: key groups are never dropped -/

/-- A property of the three annotation structures that both aggregation methods keep, also
when they throw, is kept by every operation. -/
theorem step_preserves_groups
    (Q : (String → Option (List MatrixEvent)) → (String → Option (List MatrixEvent)) →
      List String → Prop)
    (hadd : ∀ (b : Bucket) e,
      Q b.annotationsByKey b.annotationsBySender b.sortedAnnotationsByKey →
      Q (addAnnotationToAggregation b e).1.annotationsByKey
        (addAnnotationToAggregation b e).1.annotationsBySender
        (addAnnotationToAggregation b e).1.sortedAnnotationsByKey)
    (hrem : ∀ (b : Bucket) e,
      Q b.annotationsByKey b.annotationsBySender b.sortedAnnotationsByKey →
      Q (removeAnnotationFromAggregation b e).1.annotationsByKey
        (removeAnnotationFromAggregation b e).1.annotationsBySender
        (removeAnnotationFromAggregation b e).1.sortedAnnotationsByKey)
    (s : Bucket) (op : Op)
    (hs : Q s.annotationsByKey s.annotationsBySender s.sortedAnnotationsByKey) :
    Q (step s op).1.annotationsByKey (step s op).1.annotationsBySender
      (step s op).1.sortedAnnotationsByKey := by
  have hremove : ∀ (b : Bucket) e,
      Q b.annotationsByKey b.annotationsBySender b.sortedAnnotationsByKey →
      Q (removeEvent b e).1.annotationsByKey (removeEvent b e).1.annotationsBySender
        (removeEvent b e).1.sortedAnnotationsByKey := by
    intro b e hb
    rcases removeEvent_fst b e with h | h | h <;> rw [h]
    · exact hb
    · exact hb
    · exact hrem (unrecorded b e) e hb
  refine step_preserves
    (fun b => Q b.annotationsByKey b.annotationsBySender b.sortedAnnotationsByKey)
    ?_ hremove ?_ ?_ ?_ ?_ s op hs
  · intro b e hb
    cases hacc : accepts b e with
    | false => rw [addEvent_of_not_accepts b e hacc]; exact hb
    | true =>
      have hg := addEvent_groups b e hacc
      have hr := recorded_fields b e
      show Q (addEvent b e).1.annotationsByKey (addEvent b e).1.annotationsBySender
        (addEvent b e).1.sortedAnnotationsByKey
      rw [hg.1, hg.2.1, hg.2.2]
      split
      · refine hadd (recorded b e) e ?_
        rw [hr.2.2.2.2.2.2.2.2.2.1, hr.2.2.2.2.2.2.2.2.2.2.1, hr.2.2.2.2.2.2.2.2.2.2.2]
        exact hb
      · exact hb
  · intro b e hb
    have hf := setTargetEvent_frame b e
    rw [hf.2.2.2.2.2.2.1, hf.2.2.2.2.2.2.2.1, hf.2.2.2.2.2.2.2.2.1]
    exact hb
  · intro b e st hb
    unfold onEventStatus
    split
    · exact hb
    · split
      · exact hb
      · exact hremove _ e hb
  · intro b e hb
    rcases onBeforeRedaction_fst b e with h | h | h | h <;> rw [h]
    · exact hb
    · exact hrem (unrecorded b e) e hb
    · exact hb
    · exact hrem (unrecorded b e) e hb
  · intro b f hb
    exact hb

theorem sortPairs_length (byKey : String → Option (List MatrixEvent)) (pairs : List String) :
    (sortPairs byKey pairs).length = pairs.length :=
  List.length_insertionSort _ pairs

theorem listsKeys_step (keys : List String) (n : Nat) (s : Bucket) (op : Op)
    (h : ListsKeys keys n s.sortedAnnotationsByKey) :
    ListsKeys keys n (step s op).1.sortedAnnotationsByKey := by
  refine step_preserves_groups (fun _ _ sorted => ListsKeys keys n sorted) ?_ ?_ s op h
  · intro b e hb
    cases hkey : keyOf e with
    | none => rw [(aggregation_nokey b e hkey).1]; exact hb
    | some key =>
      cases hin : isInherited key with
      | true => rw [addAnnotationToAggregation_inherited b e key hkey hin]; exact hb
      | false =>
        rw [(addAnnotationToAggregation_byKey b e key hkey hin).2]
        constructor
        · intro k hk
          rw [mem_sortPairs]
          split
          · exact List.mem_append_left _ (hb.1 k hk)
          · exact hb.1 k hk
        · rw [sortPairs_length]
          split
          · rw [List.length_append]
            exact Nat.le_trans hb.2 (Nat.le_add_right _ _)
          · exact hb.2
  · intro b e hb
    cases hkey : keyOf e with
    | none => rw [(aggregation_nokey b e hkey).2]; exact hb
    | some key =>
      cases hin : isInherited key with
      | true => rw [removeAnnotationFromAggregation_inherited b e key hkey hin]; exact hb
      | false =>
        rw [(removeAnnotationFromAggregation_byKey b e key hkey hin).2]
        split
        · constructor
          · intro k hk
            rw [mem_sortPairs]
            exact hb.1 k hk
          · rw [sortPairs_length]
            exact hb.2
        · exact hb

/-- The grouping by sender after `addAnnotationToAggregation` of an event with a key that
names no inherited property: the look-up of a sender that names one throws before the set is
written. -/
theorem addAnnotationToAggregation_bySender (s : Bucket) (event : MatrixEvent) (key : String)
    (hkey : keyOf event = some key) (hin : isInherited key = false) :
    (addAnnotationToAggregation s event).1.annotationsBySender =
      if isInherited event.sender then s.annotationsBySender
      else Function.update s.annotationsBySender event.sender
        (some (setAdd ((s.annotationsBySender event.sender).getD []) event)) := by
  unfold addAnnotationToAggregation
  simp only [hkey, hin]
  cases hb : s.annotationsByKey key <;> cases hs : isInherited event.sender <;> simp [hb, hs]

/-- The grouping by sender after `removeAnnotationFromAggregation` of an event with a key
that names no inherited property. -/
theorem removeAnnotationFromAggregation_bySender (s : Bucket) (event : MatrixEvent)
    (key : String) (hkey : keyOf event = some key) (hin : isInherited key = false) :
    (removeAnnotationFromAggregation s event).1.annotationsBySender =
      if isInherited event.sender then s.annotationsBySender
      else
        match s.annotationsBySender event.sender with
        | some events =>
          Function.update s.annotationsBySender event.sender (some (setDelete events event))
        | none => s.annotationsBySender := by
  unfold removeAnnotationFromAggregation
  simp only [hkey, hin]
  cases hb : s.annotationsByKey key <;> cases hi : isInherited event.sender <;>
    cases hs : s.annotationsBySender event.sender <;> simp [hs, hi]

theorem groupsKeyed_step (s : Bucket) (op : Op)
    (h : GroupsKeyed s.annotationsByKey s.annotationsBySender) :
    GroupsKeyed (step s op).1.annotationsByKey (step s op).1.annotationsBySender := by
  refine step_preserves_groups (fun byKey bySender _ => GroupsKeyed byKey bySender) ?_ ?_ s op h
  · intro b e hb
    cases hkey : keyOf e with
    | none => rw [(aggregation_nokey b e hkey).1]; exact hb
    | some key =>
      cases hin : isInherited key with
      | true => rw [addAnnotationToAggregation_inherited b e key hkey hin]; exact hb
      | false =>
        have hne : keyOf e ≠ none := by rw [hkey]; simp
        rw [(addAnnotationToAggregation_byKey b e key hkey hin).1,
          addAnnotationToAggregation_bySender b e key hkey hin]
        constructor
        · intro k evs hk x hx
          by_cases hkk : k = key
          · subst hkk
            simp only [Function.update_same, Option.some.injEq] at hk
            subst hk
            rw [mem_setAdd] at hx
            rcases hx with hx | rfl
            · cases hbk : b.annotationsByKey k with
              | none => simp [hbk] at hx
              | some old =>
                simp only [hbk, Option.getD_some] at hx
                exact hb.1 k old hbk x hx
            · exact hne
          · simp only [Function.update_noteq hkk] at hk
            exact hb.1 k evs hk x hx
        · intro sender evs hsender x hx
          split at hsender
          · exact hb.2 sender evs hsender x hx
          · by_cases hss : sender = e.sender
            · subst hss
              simp only [Function.update_same, Option.some.injEq] at hsender
              subst hsender
              rw [mem_setAdd] at hx
              rcases hx with hx | rfl
              · cases hbs2 : b.annotationsBySender e.sender with
                | none => simp [hbs2] at hx
                | some old =>
                  simp only [hbs2, Option.getD_some] at hx
                  exact hb.2 _ old hbs2 x hx
              · exact hne
            · simp only [Function.update_noteq hss] at hsender
              exact hb.2 sender evs hsender x hx
  · intro b e hb
    cases hkey : keyOf e with
    | none => rw [(aggregation_nokey b e hkey).2]; exact hb
    | some key =>
      cases hin : isInherited key with
      | true => rw [removeAnnotationFromAggregation_inherited b e key hkey hin]; exact hb
      | false =>
        rw [(removeAnnotationFromAggregation_byKey b e key hkey hin).1,
          removeAnnotationFromAggregation_bySender b e key hkey hin]
        constructor
        · intro k evs hk x hx
          cases hbk : b.annotationsByKey key with
          | none =>
            simp only [hbk] at hk
            exact hb.1 k evs hk x hx
          | some old =>
            simp only [hbk] at hk
            by_cases hkk : k = key
            · subst hkk
              simp only [Function.update_same, Option.some.injEq] at hk
              subst hk
              exact hb.1 k old hbk x (mem_setDelete.mp hx).1
            · simp only [Function.update_noteq hkk] at hk
              exact hb.1 k evs hk x hx
        · intro sender evs hsender x hx
          split at hsender
          · exact hb.2 sender evs hsender x hx
          · cases hbs : b.annotationsBySender e.sender with
            | none =>
              simp only [hbs] at hsender
              exact hb.2 sender evs hsender x hx
            | some old =>
              simp only [hbs] at hsender
              by_cases hss : sender = e.sender
              · subst hss
                simp only [Function.update_same, Option.some.injEq] at hsender
                subst hsender
                exact hb.2 _ old hbs x (mem_setDelete.mp hx).1
              · simp only [Function.update_noteq hss] at hsender
                exact hb.2 sender evs hsender x hx

/-- C30: in a bucket of annotations reached from a new one, whatever operations follow, every
key that is listed stays listed and the number of listed pairs does not decrease; a listed key
none of whose events is a member any more is listed with an empty set; and an event without a
key that `addEvent` accepts is a member of the bucket while no set of the grouping by key and
no set of the grouping by sender holds it. -/
theorem key_groups_never_dropped (eventType : String) (before later : List Op) (key : String)
    (event : MatrixEvent) :
    (∃ pairs pairs2,
      getSortedAnnotationsByKey (run (Bucket.create relTypeAnnotation eventType) before).1
        = some pairs ∧
      getSortedAnnotationsByKey
        (run (run (Bucket.create relTypeAnnotation eventType) before).1 later).1 = some pairs2 ∧
      pairs.length ≤ pairs2.length ∧ ∀ k ∈ pairs.map Prod.fst, k ∈ pairs2.map Prod.fst) ∧
    (key ∈ (run (Bucket.create relTypeAnnotation eventType) before).1.sortedAnnotationsByKey →
      (∀ e ∈ (run (run (Bucket.create relTypeAnnotation eventType) before).1 later).1.relations,
        keyOf e ≠ some key) →
      ∃ pairs2,
        getSortedAnnotationsByKey
          (run (run (Bucket.create relTypeAnnotation eventType) before).1 later).1
          = some pairs2 ∧ (key, []) ∈ pairs2) ∧
    (keyOf event = none →
      accepts (run (Bucket.create relTypeAnnotation eventType) before).1 event = true →
      event ∈ (addEvent (run (Bucket.create relTypeAnnotation eventType) before).1 event).1.relations ∧
      (∀ pairs,
        getSortedAnnotationsByKey
          (addEvent (run (Bucket.create relTypeAnnotation eventType) before).1 event).1
          = some pairs → ∀ p ∈ pairs, event ∉ p.2) ∧
      (∀ bySender,
        getAnnotationsBySender
          (addEvent (run (Bucket.create relTypeAnnotation eventType) before).1 event).1
          = some bySender → ∀ sender evs, bySender sender = some evs → event ∉ evs)) := by
  have hinv : AnnotationInvariant (run (Bucket.create relTypeAnnotation eventType) before).1 :=
    annotationInvariant_run _ before (annotationInvariant_create eventType)
  have hkeyed : GroupsKeyed
      (run (Bucket.create relTypeAnnotation eventType) before).1.annotationsByKey
      (run (Bucket.create relTypeAnnotation eventType) before).1.annotationsBySender :=
    run_preserves (fun b => GroupsKeyed b.annotationsByKey b.annotationsBySender)
      groupsKeyed_step before _ (by constructor <;> simp [Bucket.create])
  generalize (run (Bucket.create relTypeAnnotation eventType) before).1 = s at hinv hkeyed ⊢
  have hinv2 : AnnotationInvariant (run s later).1 := annotationInvariant_run s later hinv
  have hlists : ListsKeys s.sortedAnnotationsByKey s.sortedAnnotationsByKey.length
      (run s later).1.sortedAnnotationsByKey :=
    run_preserves
      (fun b => ListsKeys s.sortedAnnotationsByKey s.sortedAnnotationsByKey.length
        b.sortedAnnotationsByKey)
      (listsKeys_step _ _) later s ⟨fun _ hk => hk, Nat.le_refl _⟩
  have hget : ∀ b : Bucket, b.relationType = relTypeAnnotation →
      getSortedAnnotationsByKey b =
        some (b.sortedAnnotationsByKey.map (fun k => (k, (b.annotationsByKey k).getD []))) := by
    intro b hb
    simp [getSortedAnnotationsByKey, hb]
  refine ⟨⟨_, _, hget s hinv.1, hget _ hinv2.1, ?_, ?_⟩, ?_, ?_⟩
  · simpa using hlists.2
  · intro k hk
    simp only [List.map_map, List.mem_map, Function.comp] at hk ⊢
    obtain ⟨a, ha, rfl⟩ := hk
    exact ⟨a, hlists.1 a ha, rfl⟩
  · intro hkey hnone
    refine ⟨_, hget _ hinv2.1, ?_⟩
    have hk2 := hlists.1 key hkey
    have hset := (hinv2.2.2.2.1 key hk2).2
    rw [List.mem_map]
    refine ⟨key, hk2, ?_⟩
    rw [hset]
    have hempty : (run s later).1.relations.filter (fun e => decide (keyOf e = some key)) = [] := by
      rw [List.filter_eq_nil_iff]
      intro e he
      simpa using hnone e he
    simp [hempty]
  · intro hkey hacc
    have hf := addEvent_of_accepts s event hacc
    have hn := addEvent_annotation_nokey s event hinv.1 hacc hkey
    have hrt : (addEvent s event).1.relationType = relTypeAnnotation := by rw [hf.1]; exact hinv.1
    refine ⟨?_, ?_, ?_⟩
    · rw [hf.2.2.2.2.1, mem_setAdd]
      exact Or.inr rfl
    · intro pairs hpairs p hp hmem
      rw [hget _ hrt] at hpairs
      cases hpairs
      rw [List.mem_map] at hp
      obtain ⟨k, -, rfl⟩ := hp
      simp only at hmem
      rw [hn.1] at hmem
      cases hbk : s.annotationsByKey k with
      | none => simp [hbk] at hmem
      | some evs =>
        simp only [hbk, Option.getD_some] at hmem
        exact hkeyed.1 k evs hbk event hmem hkey
    · intro bySender hby sender evs hs hmem
      simp only [getAnnotationsBySender, hrt, ne_eq, not_true_eq_false, if_false,
        Option.some.injEq] at hby
      subst hby
      rw [hn.2.1] at hs
      exact hkeyed.2 sender evs hs event hmem hkey

/-- Witness for `key_groups_never_dropped`: a reaction with the key `+` is added and removed
and a reaction without a key is added; the key `+` is still listed, with an empty set. -/
theorem key_groups_never_dropped_witness :
    ∃ pairs2,
      getSortedAnnotationsByKey
        (run
          (run (Bucket.create relTypeAnnotation "m.reaction")
            [Op.addEvent (sampleReaction 1 "$a" "@u:hs" "+")]).1
          [Op.removeEvent (sampleReaction 1 "$a" "@u:hs" "+"),
           Op.addEvent (keylessReaction 2 "$b" "@v:hs")]).1 = some pairs2 ∧
      ("+", []) ∈ pairs2 :=
  (key_groups_never_dropped "m.reaction" [Op.addEvent (sampleReaction 1 "$a" "@u:hs" "+")]
    [Op.removeEvent (sampleReaction 1 "$a" "@u:hs" "+"),
     Op.addEvent (keylessReaction 2 "$b" "@v:hs")] "+" (keylessReaction 2 "$b" "@v:hs")).2.1
    (by decide) (by decide)

end Relations

namespace Thread

/-! ## What the methods of a thread write -/

theorem onEcho_state (t : State) (event : MatrixEvent) : (onEcho t event).1 = t := by
  unfold onEcho
  split <;> rfl

/-- `addEventToTimeline` writes the timeline only. -/
theorem addEventToTimeline_frame (t : State) (event : MatrixEvent) (toStartOfTimeline : Bool) :
    ∃ timeline, (addEventToTimeline t event toStartOfTimeline).1 = { t with timeline := timeline } ∧
      (timeline = t.timeline ∨
        (findEventById t event.id = none ∧
          timeline = if toStartOfTimeline then event :: t.timeline else t.timeline ++ [event])) := by
  unfold addEventToTimeline
  cases h : findEventById t event.id with
  | some e => exact ⟨t.timeline, rfl, Or.inl rfl⟩
  | none =>
    simp only [timelineSetAddEventToTimeline, onEcho_state]
    exact ⟨_, rfl, Or.inr ⟨trivial, rfl⟩⟩

/-- What `addEvent` does without server-side support: it never throws, and it touches the
timeline, the participation flag and the reply count only. -/
theorem addEvent_without_support (t : State) (event : MatrixEvent) (toStartOfTimeline : Bool)
    (hs : t.hasServerSideSupport = false) :
    ∃ t1 out, addEvent t event toStartOfTimeline = Except.ok (t1, out) ∧
      t1.timeline = (addEventToTimeline t event toStartOfTimeline).1.timeline ∧
      t1.replyCount = t.replyCount + (if event.isThreadRelation then 1 else 0) ∧
      t1.currentUserParticipated =
        (t.currentUserParticipated || decide (event.sender = t.userId)) ∧
      t1.hasServerSideSupport = false ∧ t1.userId = t.userId ∧ t1.id = t.id ∧
      t1.lastEvent = t.lastEvent ∧ t1.initialEventsFetched = t.initialEventsFetched := by
  obtain ⟨timeline, hf, -⟩ := addEventToTimeline_frame t event toStartOfTimeline
  unfold addEvent addEventTimelineStep
  simp only [hs, Bool.not_false, if_true]
  generalize addEventToTimeline t event toStartOfTimeline = r at hf
  obtain ⟨r1, r2⟩ := r
  simp only at hf
  subst hf
  refine ⟨_, _, rfl, ?_⟩
  cases hp : t.currentUserParticipated <;> by_cases hu : event.sender = t.userId <;>
    cases hr : event.isThreadRelation <;> simp [hp, hu, hs]

/-! ## C11: counting replies without server-side support -/

theorem addEvents_without_support (calls : List (MatrixEvent × Bool)) (t : State)
    (hs : t.hasServerSideSupport = false) :
    ∃ t2, addEvents t calls = Except.ok t2 ∧ t2.hasServerSideSupport = false ∧
      t2.replyCount = t.replyCount + (calls.countP (fun c => c.1.isThreadRelation) : Nat) := by
  induction calls generalizing t with
  | nil => exact ⟨t, rfl, hs, by simp⟩
  | cons c calls ih =>
    obtain ⟨event, toStart⟩ := c
    obtain ⟨t1, out, h1, -, hc, -, hs1, -⟩ := addEvent_without_support t event toStart hs
    obtain ⟨t2, h2, hs2, hc2⟩ := ih t1 hs1
    refine ⟨t2, by simp only [addEvents, h1, h2], hs2, ?_⟩
    rw [hc2, hc, List.countP_cons]
    cases event.isThreadRelation <;> simp
    omega

/-- C11: without server-side support, on a thread whose reply count is 0, every sequence of
`addEvent` calls completes, and the reply count afterwards is the number of thread relations
among the events of the sequence, in whatever order the events are passed. -/
theorem addEvents_replyCount (t : State) (calls ordering : List (MatrixEvent × Bool))
    (hs : t.hasServerSideSupport = false) (h0 : t.replyCount = 0)
    (hp : ordering.Perm calls) :
    ∃ t2, addEvents t ordering = Except.ok t2 ∧
      length t2 = (calls.countP (fun c => c.1.isThreadRelation) : Nat) := by
  obtain ⟨t2, h2, -, hc⟩ := addEvents_without_support ordering t hs
  refine ⟨t2, h2, ?_⟩
  unfold length
  rw [hc, h0, hp.countP_eq]
  simp

/-- Witness for `addEvents_replyCount`: three events, two of them thread relations, passed in
another order than listed. -/
theorem addEvents_replyCount_witness :
    ∃ t2, addEvents (sampleThread false false)
        [(sampleEvent 3 "$c" "@a:hs" 30 true, false), (sampleEvent 1 "$a" "@a:hs" 10 true, false),
         (sampleEvent 2 "$b" "@b:hs" 20 false, false)] = Except.ok t2 ∧
      length t2 =
        (([(sampleEvent 1 "$a" "@a:hs" 10 true, false), (sampleEvent 2 "$b" "@b:hs" 20 false, false),
           (sampleEvent 3 "$c" "@a:hs" 30 true, false)] : List (MatrixEvent × Bool)).countP
          (fun c => c.1.isThreadRelation) : Nat) :=
  addEvents_replyCount (sampleThread false false)
    [(sampleEvent 1 "$a" "@a:hs" 10 true, false), (sampleEvent 2 "$b" "@b:hs" 20 false, false),
     (sampleEvent 3 "$c" "@a:hs" 30 true, false)]
    [(sampleEvent 3 "$c" "@a:hs" 30 true, false), (sampleEvent 1 "$a" "@a:hs" 10 true, false),
     (sampleEvent 2 "$b" "@b:hs" 20 false, false)]
    rfl rfl (by decide)

/-! ## C12: the last reply after a redaction -/

/-- C12 as stated fails: after the last of three replies is redacted and `onRedaction` has
run, `lastReply()` still returns the redacted `$e3`, which stays in the timeline; it is the
getter `replyToEvent` that returns `$e2`. -/
theorem lastReply_after_redaction_counterexample :
    (threadOfThree false).timeline =
        [sampleEvent 1 "$e1" "@a:hs" 10 true, sampleEvent 2 "$e2" "@b:hs" 20 true,
         sampleEvent 3 "$e3" "@a:hs" 30 true] ∧
      replyToEvent (threadOfThree false) = some (sampleEvent 3 "$e3" "@a:hs" 30 true) ∧
      lastReply (onRedaction (markRedacted (threadOfThree false)
          (sampleEvent 3 "$e3" "@a:hs" 30 true)) sampleRedaction).1 anyEvent
        = some (sampleEvent 3 "$e3" "@a:hs" 30 true) ∧
      lastReply (onRedaction (markRedacted (threadOfThree false)
          (sampleEvent 3 "$e3" "@a:hs" 30 true)) sampleRedaction).1 anyEvent
        ≠ some (sampleEvent 2 "$e2" "@b:hs" 20 true) := by
  decide

/-- C12, amended: for a thread whose timeline holds `[e1, e2, e3]`, after `e3` is redacted and
the redaction, which belongs to the thread, is processed, the getter `replyToEvent` returns
`e2` when `e2` is a thread relation that is not redacted, while `lastReply()` returns `e3`. -/
theorem replyToEvent_after_redaction (t : State) (e1 e2 e3 redaction : MatrixEvent)
    (ht : t.timeline = [e1, e2, e3]) (hr : redaction.threadRootId = t.id)
    (h2 : e2.isThreadRelation = true) (hn : isRedacted t e2 = false) (hne : e2 ≠ e3) :
    replyToEvent (onRedaction (markRedacted t e3) redaction).1 = some e2 ∧
      lastReply (onRedaction (markRedacted t e3) redaction).1 anyEvent = some e3 := by
  have hn2 : e2 ∉ t.redacted := by simpa [isRedacted] using hn
  constructor
  · simp [replyToEvent, onRedaction, markRedacted, events, isRedacted, hr, ht, List.find?, h2,
      hne, hn2]
  · simp [lastReply, onRedaction, markRedacted, events, hr, ht, List.find?, anyEvent]

/-- Witness for `replyToEvent_after_redaction`: the thread of three replies. -/
theorem replyToEvent_after_redaction_witness :
    replyToEvent (onRedaction (markRedacted (threadOfThree false)
        (sampleEvent 3 "$e3" "@a:hs" 30 true)) sampleRedaction).1
        = some (sampleEvent 2 "$e2" "@b:hs" 20 true) ∧
      lastReply (onRedaction (markRedacted (threadOfThree false)
        (sampleEvent 3 "$e3" "@a:hs" 30 true)) sampleRedaction).1 anyEvent
        = some (sampleEvent 3 "$e3" "@a:hs" 30 true) :=
  replyToEvent_after_redaction (threadOfThree false) (sampleEvent 1 "$e1" "@a:hs" 10 true)
    (sampleEvent 2 "$e2" "@b:hs" 20 true) (sampleEvent 3 "$e3" "@a:hs" 30 true) sampleRedaction
    rfl rfl rfl (by decide) (by decide)

/-! ## C13: the last-reply pointer on an incoming event -/

/-- The rule of the first declaration of `onEcho`: for an event of the thread that is not the
pointer itself, the pointer becomes the event exactly when there is no pointer, or the pointer
is redacted, or the event is a thread relation with another ID and a strictly greater local
timestamp; otherwise it is unchanged. -/
theorem onEchoShadowed_lastEvent (t : State) (event : MatrixEvent)
    (hr : event.threadRootId = t.id) (hne : t.lastEvent ≠ some event) :
    (onEchoShadowed t event).1.lastEvent =
      if (t.lastEvent = none ∨
          (∃ last, t.lastEvent = some last ∧
            (isRedacted t last = true ∨
              (event.isThreadRelation = true ∧ event.id ≠ last.id ∧
                last.localTimestamp < event.localTimestamp)))) then some event
      else t.lastEvent := by
  unfold onEchoShadowed
  simp only [hr, hne, ne_eq, not_true_eq_false, if_false]
  cases hl : t.lastEvent with
  | none => by_cases hid : some event.id = t.id <;> simp [hid, hl]
  | some last =>
    by_cases hred : isRedacted t last = true
    · by_cases hid : some event.id = t.id <;> simp [hred, hid, hl]
    · by_cases hrel : event.isThreadRelation = true <;> by_cases hi : event.id = last.id <;>
        by_cases hts : last.localTimestamp < event.localTimestamp <;>
        by_cases hid : some event.id = t.id <;> simp [hred, hrel, hi, hts, hid, hl]

/-- The listener in force, the second declaration of `onEcho`, never writes the state of the
thread. -/
theorem onEcho_lastEvent (t : State) (event : MatrixEvent) :
    (onEcho t event).1.lastEvent = t.lastEvent := by
  rw [onEcho_state]

/-- C13 fails on the code: on a thread without a last-reply pointer, an incoming thread
relation of the thread leaves the pointer unset, because the listener in force is the second
declaration of `onEcho`; the first declaration, which it replaces, would have set it. -/
theorem onEcho_pointer_unset :
    (sampleEvent 1 "$a" "@a:hs" 10 true).threadRootId = (sampleThread true true).id ∧
      (sampleThread true true).lastEvent = none ∧
      (onEcho (sampleThread true true) (sampleEvent 1 "$a" "@a:hs" 10 true)).1.lastEvent = none ∧
      (timelineSetAddEventToTimeline (sampleThread true true)
        (sampleEvent 1 "$a" "@a:hs" 10 true) false).1.lastEvent = none ∧
      (onEchoShadowed (sampleThread true true) (sampleEvent 1 "$a" "@a:hs" 10 true)).1.lastEvent
        = some (sampleEvent 1 "$a" "@a:hs" 10 true) := by
  decide

/-! ## C14: the initial fetch -/

/-- C14 as stated fails: with server-side support, when the underlying fetch fails,
`fetchInitialEvents` returns `null` as claimed but leaves `initialEventsFetched` false. -/
theorem fetchInitialEvents_counterexample :
    (sampleThread true false).initialEventsFetched = false ∧
      (fetchInitialEvents (sampleThread true false) none).2 = none ∧
      (fetchInitialEvents (sampleThread true false) none).1.initialEventsFetched ≠ true := by
  decide

/-- C14, amended: `fetchInitialEvents` never fails. Without server-side support it sets
`initialEventsFetched` and returns `null` whatever a fetch would give; with server-side support
it sets the flag and returns the response when the fetch succeeds, and when the fetch fails it
returns `null` and leaves the thread, the flag included, as it was. -/
theorem fetchInitialEvents_spec (t : State) :
    (t.hasServerSideSupport = false → ∀ fetchEvents,
      fetchInitialEvents t fetchEvents = ({ t with initialEventsFetched := true }, none)) ∧
    (t.hasServerSideSupport = true → ∀ response,
      fetchInitialEvents t (some response)
        = ({ t with initialEventsFetched := true }, some response)) ∧
    (t.hasServerSideSupport = true → fetchInitialEvents t none = (t, none)) := by
  refine ⟨?_, ?_, ?_⟩
  · intro h fetchEvents
    simp [fetchInitialEvents, h]
  · intro h response
    simp [fetchInitialEvents, h]
  · intro h
    simp [fetchInitialEvents, h]

/-- Witness for `fetchInitialEvents_spec`: without server-side support, and with it when the
fetch fails. -/
theorem fetchInitialEvents_spec_witness :
    fetchInitialEvents (sampleThread false false) none
        = ({ sampleThread false false with initialEventsFetched := true }, none) ∧
      fetchInitialEvents (sampleThread true false) none = (sampleThread true false, none) :=
  ⟨(fetchInitialEvents_spec (sampleThread false false)).1 rfl none,
    (fetchInitialEvents_spec (sampleThread true false)).2.2 rfl⟩

/-! ## C15: the reply count on a redaction -/

/-- C15: `onBeforeRedaction` lowers the reply count by exactly one when the redacted event is a
thread relation, the room places it in this thread and the redaction event has no send status;
in every other case the reply count, and the whole state, is unchanged. -/
theorem onBeforeRedaction_replyCount (t : State) (room : Room) (event redaction : MatrixEvent) :
    (event.isThreadRelation = true ∧ room.eventShouldLiveIn event = t.id ∧
        redaction.status = none →
      (onBeforeRedaction t room (some event) redaction).1 = { t with replyCount := t.replyCount - 1 } ∧
        length (onBeforeRedaction t room (some event) redaction).1 = length t - 1) ∧
    (¬ (event.isThreadRelation = true ∧ room.eventShouldLiveIn event = t.id ∧
        redaction.status = none) →
      (onBeforeRedaction t room (some event) redaction).1 = t) ∧
    (onBeforeRedaction t room none redaction).1 = t := by
  refine ⟨?_, ?_, rfl⟩
  · rintro ⟨h1, h2, h3⟩
    simp [onBeforeRedaction, h1, h2, h3, length]
  · intro h
    unfold onBeforeRedaction
    simp only
    split
    · rename_i hc
      simp only [Bool.and_eq_true, decide_eq_true_eq, Option.isNone_iff_eq_none] at hc
      exact absurd ⟨hc.1.1, hc.1.2, hc.2⟩ h
    · rfl

/-- Witness for `onBeforeRedaction_replyCount`: a confirmed redaction of the second reply of
the thread of three replies. -/
theorem onBeforeRedaction_replyCount_witness :
    (onBeforeRedaction (threadOfThree false) { eventShouldLiveIn := fun e => e.threadRootId }
        (some (sampleEvent 2 "$e2" "@b:hs" 20 true)) sampleRedaction).1
        = { threadOfThree false with replyCount := (threadOfThree false).replyCount - 1 } ∧
      length (onBeforeRedaction (threadOfThree false) { eventShouldLiveIn := fun e => e.threadRootId }
        (some (sampleEvent 2 "$e2" "@b:hs" 20 true)) sampleRedaction).1
        = length (threadOfThree false) - 1 :=
  (onBeforeRedaction_replyCount (threadOfThree false) { eventShouldLiveIn := fun e => e.threadRootId }
    (sampleEvent 2 "$e2" "@b:hs" 20 true) sampleRedaction).1 ⟨rfl, rfl, rfl⟩

/-! ## C16: `addEvent` with server-side support -/

/-- What `addEvent` does with server-side support. It throws when `toStartOfTimeline` is
false, the initial events are fetched and the timeline is empty. Otherwise it completes: the
event goes through `addEventToTimeline` exactly when `toStartOfTimeline` is false, the initial
events are fetched and its local timestamp is strictly greater than that of the last event of
the timeline; the reply count is unchanged and the participation flag is raised when the
sender is the current user. -/
theorem addEvent_with_support (t : State) (event : MatrixEvent) (toStartOfTimeline : Bool)
    (hs : t.hasServerSideSupport = true) :
    (toStartOfTimeline = false ∧ t.initialEventsFetched = true ∧ t.timeline = [] →
      ∃ e, addEvent t event toStartOfTimeline = Except.error e) ∧
    (¬ (toStartOfTimeline = false ∧ t.initialEventsFetched = true ∧ t.timeline = []) →
      ∃ t1 out, addEvent t event toStartOfTimeline = Except.ok (t1, out) ∧
        t1.timeline =
          (if toStartOfTimeline = false ∧ t.initialEventsFetched = true ∧
              (∃ last, lastReply t anyEvent = some last ∧
                last.localTimestamp < event.localTimestamp) then
            (addEventToTimeline t event false).1.timeline
          else t.timeline) ∧
        t1.replyCount = t.replyCount ∧
        t1.currentUserParticipated =
          (t.currentUserParticipated || decide (event.sender = t.userId))) := by
  have hlast : lastReply t anyEvent = t.timeline.getLast? := by
    unfold lastReply events anyEvent
    cases h : t.timeline.reverse with
    | nil => simp [List.reverse_eq_nil_iff.mp h]
    | cons a l =>
      have : t.timeline = l.reverse ++ [a] := by
        rw [← List.reverse_reverse t.timeline, h]; simp
      simp [this]
  constructor
  · rintro ⟨h1, h2, h3⟩
    unfold addEvent addEventTimelineStep
    simp [hs, h1, h2, hlast, h3]
  · intro h
    obtain ⟨timeline, hf, -⟩ := addEventToTimeline_frame t event false
    unfold addEvent addEventTimelineStep
    simp only [hs, Bool.not_true, Bool.false_eq_true, if_false]
    generalize addEventToTimeline t event false = r at hf ⊢
    obtain ⟨r1, r2⟩ := r
    simp only at hf
    subst hf
    by_cases hc : toStartOfTimeline = false ∧ t.initialEventsFetched = true
    · obtain ⟨h1, h2⟩ := hc
      have hne : t.timeline ≠ [] := fun h3 => h ⟨h1, h2, h3⟩
      obtain ⟨last, hl⟩ : ∃ last, lastReply t anyEvent = some last := by
        rw [hlast]
        cases hg : t.timeline.getLast? with
        | none => exact absurd (List.getLast?_eq_none_iff.mp hg) hne
        | some last => exact ⟨last, rfl⟩
      by_cases hts : last.localTimestamp < event.localTimestamp
      · cases hp : t.currentUserParticipated <;> by_cases hu : event.sender = t.userId <;>
          simp [h1, h2, hl, hts, hp, hu, hs]
      · cases hp : t.currentUserParticipated <;> by_cases hu : event.sender = t.userId <;>
          simp [h1, h2, hl, hts, hp, hu, hs]
    · have hc2 : (!toStartOfTimeline && t.initialEventsFetched) = false := by
        cases toStartOfTimeline <;> cases hf : t.initialEventsFetched <;> simp [hf] at hc ⊢
      have hc3 : ¬ (toStartOfTimeline = false ∧ t.initialEventsFetched = true ∧
          ∃ last, lastReply t anyEvent = some last ∧
            last.localTimestamp < event.localTimestamp) := fun hh => hc ⟨hh.1, hh.2.1⟩
      rw [if_neg hc3]
      cases hp : t.currentUserParticipated <;> by_cases hu : event.sender = t.userId <;>
        simp [hc2, hp, hu, hs]

/-- C16 fails on the code: with server-side support, the initial events fetched and an empty
timeline, `addEvent(event, false)` throws while it reads the local timestamp of a last reply
that does not exist, so the participation flag is not raised although the sender is the
current user. -/
theorem addEvent_participation_lost :
    (sampleThread true true).timeline = [] ∧
      (sampleEvent 1 "$a" "@me:hs" 10 true).sender = (sampleThread true true).userId ∧
      (sampleThread true true).currentUserParticipated = false ∧
      addEvent (sampleThread true true) (sampleEvent 1 "$a" "@me:hs" 10 true) false
        = Except.error "TypeError: Cannot read properties of undefined" :=
  ⟨rfl, rfl, rfl, rfl⟩

/-! ## C28: the same event twice, without server-side support -/

theorem timelineSetFindEventById_none (t : State) (eventId : String)
    (h : timelineSetFindEventById t eventId = none) : ∀ e ∈ t.timeline, e.id ≠ eventId := by
  intro e he
  unfold timelineSetFindEventById at h
  rw [List.find?_eq_none] at h
  simpa using h e he

theorem findEventById_none (t : State) (eventId : String) (h : findEventById t eventId = none) :
    timelineSetFindEventById t eventId = none := by
  unfold findEventById at h
  cases hl : t.lastEvent with
  | none => simpa [hl] using h
  | some last =>
    simp only [hl] at h
    split at h
    · cases h
    · exact h

theorem findEventById_of_mem (t : State) (event : MatrixEvent) (h : event ∈ t.timeline) :
    findEventById t event.id ≠ none := by
  intro hnone
  exact timelineSetFindEventById_none t event.id (findEventById_none t event.id hnone) event h rfl

/-- C28: without server-side support, when a thread relation whose ID the thread does not know
is passed to `addEvent` twice, both calls complete, the timeline holds the event once, at the
place the first call has put it, and the reply count has gone up by 2. -/
theorem addEvent_twice_counts_twice (t : State) (event : MatrixEvent) (first second : Bool)
    (hs : t.hasServerSideSupport = false) (hr : event.isThreadRelation = true)
    (hnew : findEventById t event.id = none) :
    ∃ t2, addEvents t [(event, first), (event, second)] = Except.ok t2 ∧
      t2.timeline = (if first then event :: t.timeline else t.timeline ++ [event]) ∧
      t2.timeline.count event = 1 ∧
      length t2 = length t + 2 := by
  obtain ⟨t1, out1, h1, htl1, hc1, -, hs1, -, -, -, -⟩ := addEvent_without_support t event first hs
  obtain ⟨t2, out2, h2, htl2, hc2, -⟩ := addEvent_without_support t1 event second hs1
  have hnot : event ∉ t.timeline := fun hm => findEventById_of_mem t event hm hnew
  have htl1b : t1.timeline = (if first then event :: t.timeline else t.timeline ++ [event]) := by
    rw [htl1]
    obtain ⟨timeline, hf, hcase⟩ := addEventToTimeline_frame t event first
    rw [hf]
    unfold addEventToTimeline at hf
    rw [hnew] at hf
    simp only [timelineSetAddEventToTimeline, onEcho_state] at hf
    have := congrArg State.timeline hf
    simpa using this.symm
  have hmem1 : event ∈ t1.timeline := by
    rw [htl1b]
    cases first <;> simp
  have htl2b : t2.timeline = t1.timeline := by
    rw [htl2]
    obtain ⟨timeline, hf, hcase⟩ := addEventToTimeline_frame t1 event second
    rw [hf]
    rcases hcase with hcase | ⟨hbad, -⟩
    · exact hcase
    · exact absurd hbad (findEventById_of_mem t1 event hmem1)
  refine ⟨t2, ?_, by rw [htl2b, htl1b], ?_, ?_⟩
  · simp only [addEvents, h1, h2]
  · rw [htl2b, htl1b]
    cases first
    · simp [List.count_append, List.count_eq_zero_of_not_mem hnot]
    · simp [List.count_cons, List.count_eq_zero_of_not_mem hnot]
  · simp only [length]
    rw [hc2, hc1]
    simp [hr]
    ring

/-- Witness for `addEvent_twice_counts_twice`: a new reply passed twice to an empty thread. -/
theorem addEvent_twice_counts_twice_witness :
    ∃ t2, addEvents (sampleThread false false)
        [(sampleEvent 1 "$a" "@a:hs" 10 true, false), (sampleEvent 1 "$a" "@a:hs" 10 true, false)]
        = Except.ok t2 ∧
      t2.timeline = [sampleEvent 1 "$a" "@a:hs" 10 true] ∧
      t2.timeline.count (sampleEvent 1 "$a" "@a:hs" 10 true) = 1 ∧
      length t2 = 2 :=
  addEvent_twice_counts_twice (sampleThread false false) (sampleEvent 1 "$a" "@a:hs" 10 true)
    false false rfl rfl rfl

/-! ## C29: `addEvent` on an empty timeline, with server-side support -/

/-- C29 fails on the code: with server-side support and the initial events fetched,
`addEvent(event, false)` on a thread whose timeline is empty throws, because `lastReply()`
returns `undefined` and the comparison reads its `localTimestamp`. -/
theorem addEvent_throws_on_empty_timeline :
    (∀ (t : State) (event : MatrixEvent), t.hasServerSideSupport = true →
      t.initialEventsFetched = true → t.timeline = [] →
      lastReply t anyEvent = none ∧
        addEvent t event false = Except.error "TypeError: Cannot read properties of undefined") ∧
    addEvent (sampleThread true true) (sampleEvent 2 "$b" "@b:hs" 20 true) false
      = Except.error "TypeError: Cannot read properties of undefined" := by
  refine ⟨?_, rfl⟩
  intro t event hs hf ht
  have hl : lastReply t anyEvent = none := by simp [lastReply, events, ht]
  refine ⟨hl, ?_⟩
  simp [addEvent, addEventTimelineStep, hs, hf, hl]

end Thread

namespace PushProcessor

/-! ## C18: the user's own events -/

/-- C18: for an event whose sender is the client's own user, no rule is matched, whatever the
rule sets are, and `actionsForEvent` returns the empty object, whose `notify` is not true. -/
theorem own_event_no_actions (client : Client) (cache : RegexCache) (ev : MatrixEvent)
    (rulesets : Option PushRules) (h : ev.sender = client.userId) :
    (matchingRuleForEventWithRulesets client cache ev rulesets).1 = none ∧
      (pushActionsForEventAndRulesets client cache ev rulesets).1.notify = none ∧
      (actionsForEvent client cache ev).1.notify ≠ some true := by
  have h1 : matchingRuleForEventWithRulesets client cache ev rulesets = (none, cache) := by
    unfold matchingRuleForEventWithRulesets
    cases rulesets with
    | none => rfl
    | some rulesets => simp [h]
  have h2 : matchingRuleForEventWithRulesets client cache ev client.pushRules = (none, cache) := by
    unfold matchingRuleForEventWithRulesets
    cases client.pushRules with
    | none => rfl
    | some rulesets => simp [h]
  refine ⟨by rw [h1], ?_, ?_⟩
  · simp [pushActionsForEventAndRulesets, h1]
  · simp [actionsForEvent, pushActionsForEventAndRulesets, h2]

/-- Witness for `own_event_no_actions`: the client's own message, under rules whose underride
rule has no conditions and notifies. -/
theorem own_event_no_actions_witness :
    (matchingRuleForEventWithRulesets { sampleClient with pushRules := some sampleRules } emptyCache
        (messageFrom "@me:hs") (some sampleRules)).1 = none ∧
      (pushActionsForEventAndRulesets { sampleClient with pushRules := some sampleRules } emptyCache
        (messageFrom "@me:hs") (some sampleRules)).1.notify = none ∧
      (actionsForEvent { sampleClient with pushRules := some sampleRules } emptyCache
        (messageFrom "@me:hs")).1.notify ≠ some true :=
  own_event_no_actions { sampleClient with pushRules := some sampleRules } emptyCache
    (messageFrom "@me:hs") (some sampleRules) rfl

/-! ## C19: conditions of an unknown kind -/

theorem conditionsMatch_false (client : Client) (ev : MatrixEvent)
    (conditions : List PushRuleCondition) (cache : RegexCache) :
    (conditionsMatch client ev conditions false cache).1 = false := by
  induction conditions generalizing cache with
  | nil => rfl
  | cons cond conditions ih =>
    simp only [conditionsMatch, Bool.false_and]
    exact ih _

theorem conditionsMatch_of_unfulfilled (client : Client) (ev : MatrixEvent)
    (conditions : List PushRuleCondition) (ret : Bool) (cache : RegexCache)
    (h : ∃ cond ∈ conditions, ∀ c, (eventFulfillsCondition client c cond ev).1 = false) :
    (conditionsMatch client ev conditions ret cache).1 = false := by
  induction conditions generalizing ret cache with
  | nil => obtain ⟨cond, hm, -⟩ := h; cases hm
  | cons first conditions ih =>
    obtain ⟨cond, hm, hc⟩ := h
    simp only [conditionsMatch]
    rcases List.mem_cons.mp hm with heq | hmem
    · subst heq
      rw [hc cache, Bool.and_false]
      exact conditionsMatch_false client ev conditions _
    · exact ih _ _ ⟨cond, hmem, hc⟩

theorem eventFulfillsCondition_unknown (client : Client) (cache : RegexCache)
    (cond : PushRuleCondition) (ev : MatrixEvent)
    (h : cond.kind ≠ kindEventMatch ∧ cond.kind ≠ kindContainsDisplayName ∧
      cond.kind ≠ kindRoomMemberCount ∧ cond.kind ≠ kindSenderNotificationPermission) :
    eventFulfillsCondition client cache cond ev = (false, cache) := by
  unfold eventFulfillsCondition
  simp [h.1, h.2.1, h.2.2.1, h.2.2.2]

/-- C19: `eventFulfillsCondition` returns false, and leaves the cache alone, for every
condition whose kind is none of `event_match`, `contains_display_name`, `room_member_count`
and `sender_notification_permission`; a rule whose conditions include such a condition is
matched by no event, whatever its other conditions. -/
theorem unknown_condition_never_matches (client : Client) (cache : RegexCache)
    (ev : MatrixEvent) :
    (∀ cond : PushRuleCondition,
      (cond.kind ≠ kindEventMatch ∧ cond.kind ≠ kindContainsDisplayName ∧
        cond.kind ≠ kindRoomMemberCount ∧ cond.kind ≠ kindSenderNotificationPermission) →
      eventFulfillsCondition client cache cond ev = (false, cache)) ∧
    (∀ rule : RawRule,
      (∃ cond ∈ rule.conditions,
        cond.kind ≠ kindEventMatch ∧ cond.kind ≠ kindContainsDisplayName ∧
          cond.kind ≠ kindRoomMemberCount ∧ cond.kind ≠ kindSenderNotificationPermission) →
      (ruleMatchesEvent client cache rule ev).1 = false) := by
  constructor
  · intro cond h
    exact eventFulfillsCondition_unknown client cache cond ev h
  · rintro rule ⟨cond, hm, h⟩
    unfold ruleMatchesEvent
    exact conditionsMatch_of_unfulfilled client ev rule.conditions true cache
      ⟨cond, hm, fun c => by rw [eventFulfillsCondition_unknown client c cond ev h]⟩

/-- Witness for `unknown_condition_never_matches`: a condition of the kind `device`, alone and
next to a display-name condition. -/
theorem unknown_condition_never_matches_witness :
    eventFulfillsCondition sampleClient emptyCache
        { kind := "device", key := none, pattern := none, value := none, is := none }
        (messageFrom "@a:hs") = (false, emptyCache) ∧
      (ruleMatchesEvent sampleClient emptyCache
        { rule_id := "r", actions := [],
          conditions :=
            [{ kind := kindContainsDisplayName, key := none, pattern := none, value := none,
               is := none },
             { kind := "device", key := none, pattern := none, value := none, is := none }] }
        (messageFrom "@a:hs")).1 = false :=
  ⟨(unknown_condition_never_matches sampleClient emptyCache (messageFrom "@a:hs")).1 _
      (by decide),
    (unknown_condition_never_matches sampleClient emptyCache (messageFrom "@a:hs")).2 _
      ⟨{ kind := "device", key := none, pattern := none, value := none, is := none },
        by simp, by decide⟩⟩

/-! ## C20: the room-member-count condition -/

theorem not_isInequalityChar_of_isDigit (c : Char) (h : c.isDigit = true) :
    isInequalityChar c = false := by
  unfold isInequalityChar
  by_cases h1 : c = '='
  · subst h1; exact absurd h (by decide)
  · by_cases h2 : c = '<'
    · subst h2; exact absurd h (by decide)
    · by_cases h3 : c = '>'
      · subst h3; exact absurd h (by decide)
      · simp [h1, h2, h3]

/-- The two groups of the match on an operator followed by digits are the operator and the
digits. -/
theorem matchMemberCount_append (ineq digits : List Char)
    (hi : ∀ c ∈ ineq, isInequalityChar c = true) (hd : ∀ c ∈ digits, c.isDigit = true) :
    matchMemberCount (ineq ++ digits) = some (ineq, digits) := by
  have hdrop0 : digits.dropWhile isInequalityChar = digits := by
    cases digits with
    | nil => rfl
    | cons d ds =>
      simp [List.dropWhile, not_isInequalityChar_of_isDigit d (hd d (List.mem_cons_self _ _))]
  have htake0 : digits.takeWhile isInequalityChar = [] := by
    cases digits with
    | nil => rfl
    | cons d ds =>
      simp [List.takeWhile, not_isInequalityChar_of_isDigit d (hd d (List.mem_cons_self _ _))]
  have htake : ∀ l : List Char, (∀ c ∈ l, isInequalityChar c = true) →
      (l ++ digits).takeWhile isInequalityChar = l := by
    intro l hl
    induction l with
    | nil => exact htake0
    | cons c cs ih =>
      rw [List.cons_append, List.takeWhile_cons, if_pos (hl c (List.mem_cons_self _ _)),
        ih (fun x hx => hl x (List.mem_cons_of_mem _ hx))]
  have hdrop : ∀ l : List Char, (∀ c ∈ l, isInequalityChar c = true) →
      (l ++ digits).dropWhile isInequalityChar = digits := by
    intro l hl
    induction l with
    | nil => exact hdrop0
    | cons c cs ih =>
      rw [List.cons_append, List.dropWhile_cons, if_pos (hl c (List.mem_cons_self _ _))]
      exact ih (fun x hx => hl x (List.mem_cons_of_mem _ hx))
  unfold matchMemberCount
  rw [hdrop ineq hi, htake ineq hi]
  have hall : digits.all Char.isDigit = true := by simpa [List.all_eq_true] using hd
  simp [hall]

/-- The condition in a room whose state is known, in terms of the match and of the number. -/
theorem memberCount_of_room (client : Client) (cond : PushRuleCondition) (ev : MatrixEvent)
    (room : Room) (state : RoomState) (is : String)
    (hroom : client.getRoom ev.roomId = some room) (hstate : room.currentState = some state)
    (hmembers : state.members = true) (his : cond.is = some is) (hne : is ≠ "") :
    eventFulfillsRoomMemberCountCondition client cond ev =
      match matchMemberCount is.data with
      | none => false
      | some (ineq, digits) =>
        match parseInt digits with
        | none => false
        | some rhs =>
          if ineq = [] ∨ ineq = ['=', '='] then decide (state.joinedMemberCount = rhs)
          else if ineq = ['<'] then decide (state.joinedMemberCount < rhs)
          else if ineq = ['>'] then decide (state.joinedMemberCount > rhs)
          else if ineq = ['<', '='] then decide (state.joinedMemberCount ≤ rhs)
          else if ineq = ['>', '='] then decide (state.joinedMemberCount ≥ rhs)
          else false := by
  unfold eventFulfillsRoomMemberCountCondition
  simp only [his, hne, if_false, hroom, hstate, hmembers, Bool.not_true, Bool.false_eq_true]

/-- C20: in a room with `c` joined members, for `is` made of an operator and a non-empty run of
decimal digits with the value `n`, the condition holds exactly when `c op n` for the operators
`<`, `<=`, `>`, `>=`, `==` and the empty operator, which means `==`; it is false for every other
operator made of `=`, `<` and `>` (such as `=` and `=>`), when there are no digits, when `is` is
not an operator followed by digits, and when `is` is missing. -/
theorem room_member_count_condition (client : Client) (ev : MatrixEvent) (room : Room)
    (state : RoomState) (hroom : client.getRoom ev.roomId = some room)
    (hstate : room.currentState = some state) (hmembers : state.members = true) :
    (∀ ineq digits : List Char, (∀ c ∈ ineq, isInequalityChar c = true) →
      (∀ c ∈ digits, c.isDigit = true) → digits ≠ [] →
      eventFulfillsRoomMemberCountCondition client
          (memberCountCondition (some (String.mk (ineq ++ digits)))) ev =
        if ineq = [] ∨ ineq = ['=', '='] then decide (state.joinedMemberCount = digitsValue digits)
        else if ineq = ['<'] then decide (state.joinedMemberCount < digitsValue digits)
        else if ineq = ['<', '='] then decide (state.joinedMemberCount ≤ digitsValue digits)
        else if ineq = ['>'] then decide (state.joinedMemberCount > digitsValue digits)
        else if ineq = ['>', '='] then decide (state.joinedMemberCount ≥ digitsValue digits)
        else false) ∧
    (∀ ineq : List Char, (∀ c ∈ ineq, isInequalityChar c = true) →
      eventFulfillsRoomMemberCountCondition client
        (memberCountCondition (some (String.mk ineq))) ev = false) ∧
    (∀ is : String, matchMemberCount is.data = none →
      eventFulfillsRoomMemberCountCondition client (memberCountCondition (some is)) ev = false) ∧
    eventFulfillsRoomMemberCountCondition client (memberCountCondition none) ev = false := by
  refine ⟨?_, ?_, ?_, rfl⟩
  · intro ineq digits hi hd hne
    have hnes : String.mk (ineq ++ digits) ≠ "" := by
      intro h
      have := congrArg String.data h
      simp at this
      exact hne this.2
    rw [memberCount_of_room client _ ev room state _ hroom hstate hmembers rfl hnes]
    simp only [matchMemberCount_append ineq digits hi hd, parseInt, hne, if_false]
    by_cases h1 : ineq = [] ∨ ineq = ['=', '=']
    · simp only [h1, if_true]
    · simp only [h1, if_false]
      by_cases h2 : ineq = ['<']
      · simp only [h2, if_true]
      · simp only [h2, if_false]
        by_cases h3 : ineq = ['>']
        · subst h3; simp
        · simp only [h3, if_false]
  · intro ineq hi
    by_cases hnes : String.mk ineq = ""
    · simp [eventFulfillsRoomMemberCountCondition, memberCountCondition, hnes]
    · rw [memberCount_of_room client _ ev room state _ hroom hstate hmembers rfl hnes]
      have := matchMemberCount_append ineq [] hi (by simp)
      simp only [List.append_nil] at this
      simp [this, parseInt]
  · intro is hm
    by_cases hnes : is = ""
    · simp [eventFulfillsRoomMemberCountCondition, memberCountCondition, hnes]
    · rw [memberCount_of_room client _ ev room state _ hroom hstate hmembers rfl hnes]
      simp [hm]

/-- Witness for `room_member_count_condition`: in the room of three, `>=2` holds, `=>2` and
`=3` do not, and `2x` is no condition. -/
theorem room_member_count_condition_witness :
    eventFulfillsRoomMemberCountCondition sampleClient (memberCountCondition (some ">=2"))
        (messageFrom "@a:hs") = true ∧
      eventFulfillsRoomMemberCountCondition sampleClient (memberCountCondition (some "=>2"))
        (messageFrom "@a:hs") = false ∧
      eventFulfillsRoomMemberCountCondition sampleClient (memberCountCondition (some "=3"))
        (messageFrom "@a:hs") = false ∧
      eventFulfillsRoomMemberCountCondition sampleClient (memberCountCondition (some "2x"))
        (messageFrom "@a:hs") = false :=
  ⟨((room_member_count_condition sampleClient (messageFrom "@a:hs") _ _ rfl rfl rfl).1
      ['>', '='] ['2'] (by decide) (by decide) (by decide)).trans (by decide),
    ((room_member_count_condition sampleClient (messageFrom "@a:hs") _ _ rfl rfl rfl).1
      ['=', '>'] ['2'] (by decide) (by decide) (by decide)).trans (by decide),
    ((room_member_count_condition sampleClient (messageFrom "@a:hs") _ _ rfl rfl rfl).1
      ['='] ['3'] (by decide) (by decide) (by decide)).trans (by decide),
    (room_member_count_condition sampleClient (messageFrom "@a:hs") _ _ rfl rfl rfl).2.2.1
      "2x" (by decide)⟩

/-! ## C17: the order in which rules are tried -/

theorem firstRuleThatHolds_append (client : Client) (ev : MatrixEvent)
    (first rest : List (PushRuleKind × PushRule)) (cache : RegexCache) :
    firstRuleThatHolds client ev (first ++ rest) cache =
      match (firstRuleThatHolds client ev first cache).1 with
      | some rule => (some rule, (firstRuleThatHolds client ev first cache).2)
      | none => firstRuleThatHolds client ev rest (firstRuleThatHolds client ev first cache).2 := by
  induction first generalizing cache with
  | nil => rfl
  | cons candidate first ih =>
    simp only [List.cons_append, firstRuleThatHolds]
    split
    · rfl
    · exact ih _

/-- The inner loop tries the rules of one kind in the order of their list. -/
theorem matchingRuleFromRuleset_eq (client : Client) (ev : MatrixEvent) (kind : PushRuleKind)
    (ruleset : List PushRule) (cache : RegexCache) :
    matchingRuleFromRuleset client ev kind ruleset cache =
      firstRuleThatHolds client ev (ruleset.map (fun rule => (kind, rule))) cache := by
  induction ruleset generalizing cache with
  | nil => rfl
  | cons rule ruleset ih =>
    simp only [matchingRuleFromRuleset, List.map_cons, firstRuleThatHolds, ruleHolds]
    cases he : rule.enabled with
    | false => simpa using ih cache
    | true =>
      cases hr : templateRuleToRaw kind rule with
      | none => simpa using ih cache
      | some rawrule =>
        simp only [Bool.not_true, Bool.false_eq_true, if_false, if_true]
        split
        · rfl
        · exact ih _

theorem matchingRuleFromKinds_cons (client : Client) (ev : MatrixEvent) (kindset : PushRuleSet)
    (kind : PushRuleKind) (kinds : List PushRuleKind) (cache : RegexCache) :
    matchingRuleFromKinds client ev kindset (kind :: kinds) cache =
      match (firstRuleThatHolds client ev
          (((kindset.get kind).getD []).map (fun rule => (kind, rule))) cache).1 with
      | some rule =>
        (some rule, (firstRuleThatHolds client ev
          (((kindset.get kind).getD []).map (fun rule => (kind, rule))) cache).2)
      | none =>
        matchingRuleFromKinds client ev kindset kinds
          (firstRuleThatHolds client ev
            (((kindset.get kind).getD []).map (fun rule => (kind, rule))) cache).2 := by
  simp only [matchingRuleFromKinds]
  cases hk : kindset.get kind with
  | none => rfl
  | some ruleset =>
    simp only [matchingRuleFromRuleset_eq, Option.getD_some]

theorem matchingRuleFromKinds_eq (client : Client) (ev : MatrixEvent) (kindset : PushRuleSet)
    (kinds : List PushRuleKind) (cache : RegexCache) :
    matchingRuleFromKinds client ev kindset kinds cache =
      firstRuleThatHolds client ev (rulesOfKinds kindset kinds) cache := by
  induction kinds generalizing cache with
  | nil => rfl
  | cons kind kinds ih =>
    rw [matchingRuleFromKinds_cons, rulesOfKinds, firstRuleThatHolds_append]
    split
    · rfl
    · exact ih _

theorem rulesInOrder_eq (kindset : PushRuleSet) :
    rulesInOrder kindset = rulesOfKinds kindset RULEKINDS_IN_ORDER := by
  simp [rulesInOrder, rulesOfKinds, RULEKINDS_IN_ORDER, PushRuleSet.get]

/-- The two loops of `matchingRuleFromKindSet` compute the first rule, in the order of the
specification, that holds. -/
theorem matchingRuleFromKindSet_eq (client : Client) (cache : RegexCache) (ev : MatrixEvent)
    (kindset : PushRuleSet) :
    matchingRuleFromKindSet client cache ev kindset =
      firstRuleThatHolds client ev (rulesInOrder kindset) cache := by
  rw [rulesInOrder_eq]
  exact matchingRuleFromKinds_eq client ev kindset RULEKINDS_IN_ORDER cache

theorem firstRuleThatHolds_skip (client : Client) (ev : MatrixEvent)
    (before rest : List (PushRuleKind × PushRule)) (cache : RegexCache)
    (h : noneHolds client ev before cache = true) :
    firstRuleThatHolds client ev (before ++ rest) cache =
      firstRuleThatHolds client ev rest (cacheAfter client ev before cache) := by
  induction before generalizing cache with
  | nil => rfl
  | cons candidate before ih =>
    simp only [noneHolds, Bool.and_eq_true, Bool.not_eq_true, Bool.not_eq_eq_eq_not] at h
    simp only [List.cons_append, firstRuleThatHolds, cacheAfter, h.1, Bool.false_eq_true, if_false]
    exact ih _ h.2

theorem firstRuleThatHolds_none_iff (client : Client) (ev : MatrixEvent)
    (rules : List (PushRuleKind × PushRule)) (cache : RegexCache) :
    (firstRuleThatHolds client ev rules cache).1 = none ↔
      noneHolds client ev rules cache = true := by
  induction rules generalizing cache with
  | nil => simp [firstRuleThatHolds, noneHolds]
  | cons candidate rules ih =>
    simp only [firstRuleThatHolds, noneHolds]
    cases hc : (ruleHolds client ev cache candidate).1 with
    | true => simp
    | false => simpa using ih _

theorem firstRuleThatHolds_some_iff (client : Client) (ev : MatrixEvent)
    (rules : List (PushRuleKind × PushRule)) (cache : RegexCache) (rule : PushRule)
    (kind : PushRuleKind) :
    (firstRuleThatHolds client ev rules cache).1 = some (rule, kind) ↔
      ∃ before after, rules = before ++ (kind, rule) :: after ∧
        noneHolds client ev before cache = true ∧
        (ruleHolds client ev (cacheAfter client ev before cache) (kind, rule)).1 = true := by
  constructor
  · intro h
    induction rules generalizing cache with
    | nil => simp [firstRuleThatHolds] at h
    | cons candidate rules ih =>
      simp only [firstRuleThatHolds] at h
      cases hc : (ruleHolds client ev cache candidate).1 with
      | true =>
        simp only [hc, if_true, Option.some.injEq, Prod.mk.injEq] at h
        refine ⟨[], rules, ?_, rfl, ?_⟩
        · obtain ⟨k, r⟩ := candidate
          simp only at h
          rw [h.1, h.2]
          rfl
        · obtain ⟨k, r⟩ := candidate
          simp only at h
          rw [← h.1, ← h.2]
          exact hc
      | false =>
        simp only [hc, Bool.false_eq_true, if_false] at h
        obtain ⟨before, after, hr, hn, hh⟩ := ih _ h
        refine ⟨candidate :: before, after, by rw [hr]; rfl, ?_, hh⟩
        simp only [noneHolds, hc, Bool.not_false, Bool.true_and]
        exact hn
  · rintro ⟨before, after, hr, hn, hh⟩
    rw [hr, firstRuleThatHolds_skip client ev before _ cache hn]
    simp only [firstRuleThatHolds, hh, if_true]

/-- C17: for an event that the evaluating user has not sent, the matched rule is the first
rule, in the order override, content, room, sender, underride and in list order within a kind,
that is enabled and whose conditions all hold: a rule is matched exactly when no rule before it
holds and it holds itself, and none is matched exactly when no rule holds. In particular, when
an override rule holds and no override rule before it does, `actionsForEvent` returns the
actions of that override rule, whatever the underride rules are. -/
theorem matched_rule_is_first (client : Client) (cache : RegexCache) (ev : MatrixEvent)
    (rulesets : PushRules) (hsender : ev.sender ≠ client.userId) :
    matchingRuleForEventWithRulesets client cache ev (some rulesets) =
        firstRuleThatHolds client ev (rulesInOrder rulesets.global) cache ∧
      (∀ rule kind,
        (matchingRuleForEventWithRulesets client cache ev (some rulesets)).1 = some (rule, kind) ↔
          ∃ before after, rulesInOrder rulesets.global = before ++ (kind, rule) :: after ∧
            noneHolds client ev before cache = true ∧
            (ruleHolds client ev (cacheAfter client ev before cache) (kind, rule)).1 = true) ∧
      ((matchingRuleForEventWithRulesets client cache ev (some rulesets)).1 = none ↔
        noneHolds client ev (rulesInOrder rulesets.global) cache = true) ∧
      (∀ before rule after,
        client.pushRules = some rulesets →
        rulesets.global.override = some (before ++ rule :: after) →
        noneHolds client ev (before.map (fun r => (PushRuleKind.Override, r))) cache = true →
        (ruleHolds client ev
          (cacheAfter client ev (before.map (fun r => (PushRuleKind.Override, r))) cache)
          (PushRuleKind.Override, rule)).1 = true →
        (actionsForEvent client cache ev).1 = actionsOfRule rule PushRuleKind.Override) := by
  have heq : matchingRuleForEventWithRulesets client cache ev (some rulesets) =
      firstRuleThatHolds client ev (rulesInOrder rulesets.global) cache := by
    simp only [matchingRuleForEventWithRulesets, hsender, if_false]
    exact matchingRuleFromKindSet_eq client cache ev rulesets.global
  refine ⟨heq, ?_, ?_, ?_⟩
  · intro rule kind
    rw [heq]
    exact firstRuleThatHolds_some_iff client ev _ cache rule kind
  · rw [heq]
    exact firstRuleThatHolds_none_iff client ev _ cache
  · intro before rule after hrules hover hnone hholds
    have hfound : (firstRuleThatHolds client ev (rulesInOrder rulesets.global) cache).1 =
        some (rule, PushRuleKind.Override) := by
      rw [firstRuleThatHolds_some_iff]
      refine ⟨before.map (fun r => (PushRuleKind.Override, r)),
        after.map (fun r => (PushRuleKind.Override, r)) ++
          ((rulesets.global.content.getD []).map (fun r => (PushRuleKind.ContentSpecific, r))) ++
          ((rulesets.global.room.getD []).map (fun r => (PushRuleKind.RoomSpecific, r))) ++
          ((rulesets.global.sender.getD []).map (fun r => (PushRuleKind.SenderSpecific, r))) ++
          ((rulesets.global.underride.getD []).map (fun r => (PushRuleKind.Underride, r))),
        ?_, hnone, hholds⟩
      simp [rulesInOrder, hover]
    simp only [actionsForEvent, pushActionsForEventAndRulesets, hrules, heq, hfound]

/-- Witness for `matched_rule_is_first`: a message of another user under rules whose override
rule does not notify and whose underride rule notifies; both hold, and the actions are those of
the override rule. -/
theorem matched_rule_is_first_witness :
    (messageFrom "@a:hs").sender ≠ "@me:hs" ∧
      (actionsForEvent { sampleClient with pushRules := some sampleRules } emptyCache
        (messageFrom "@a:hs")).1 = actionsOfRule (notifyNever "o") PushRuleKind.Override ∧
      (ruleHolds { sampleClient with pushRules := some sampleRules } (messageFrom "@a:hs")
        emptyCache (PushRuleKind.Underride, notifyAlways "u")).1 = true :=
  ⟨by decide,
    (matched_rule_is_first { sampleClient with pushRules := some sampleRules } emptyCache
      (messageFrom "@a:hs") sampleRules (by decide)).2.2.2 [] (notifyNever "o") [] rfl rfl rfl rfl,
    rfl⟩

/-! ## C21: the default override rules -/

theorem mergeDefault_eq (override : PushRule) (globalOverrides : List PushRule) :
    mergeDefault globalOverrides override =
      match globalOverrides with
      | [] => [override]
      | r :: rest =>
        if r.rule_id = override.rule_id then copyDefault r override :: rest
        else r :: mergeDefault rest override := by
  cases globalOverrides with
  | nil => rfl
  | cons r rest =>
    unfold mergeDefault
    by_cases h : r.rule_id = override.rule_id
    · simp [List.find?, h, assignToFirst]
    · simp only [List.find?, h, decide_False, if_false, assignToFirst]
      cases hf : rest.find? (fun r => decide (r.rule_id = override.rule_id)) <;> simp

/-- What one default rule does to the array: every rule keeps its place, its ID, its `enabled`
and its `pattern`, and is untouched unless it is the first rule with the ID of the default. -/
theorem mergeDefault_kept (override : PushRule) (globalOverrides : List PushRule) (i : Nat)
    (o : PushRule) (h : globalOverrides[i]? = some o) :
    ∃ n, (mergeDefault globalOverrides override)[i]? = some n ∧
      (n = o ∨ (o.rule_id = override.rule_id ∧ n = copyDefault o override)) ∧
      (o.rule_id = override.rule_id →
        (∀ j p, j < i → globalOverrides[j]? = some p → p.rule_id ≠ override.rule_id) →
        n = copyDefault o override) := by
  induction globalOverrides generalizing i with
  | nil => simp at h
  | cons r rest ih =>
    rw [mergeDefault_eq]
    by_cases hr : r.rule_id = override.rule_id
    · simp only [hr, if_true]
      cases i with
      | zero =>
        simp only [List.getElem?_cons_zero, Option.some.injEq] at h ⊢
        subst h
        exact ⟨_, rfl, Or.inr ⟨hr, rfl⟩, fun _ _ => rfl⟩
      | succ i =>
        simp only [List.getElem?_cons_succ] at h ⊢
        refine ⟨o, h, Or.inl rfl, fun _ hfirst => ?_⟩
        exact absurd hr (hfirst 0 r (Nat.succ_pos i) (by simp))
    · simp only [hr, if_false]
      cases i with
      | zero =>
        simp only [List.getElem?_cons_zero, Option.some.injEq] at h ⊢
        subst h
        exact ⟨_, rfl, Or.inl rfl, fun hid _ => absurd hid hr⟩
      | succ i =>
        simp only [List.getElem?_cons_succ] at h ⊢
        obtain ⟨n, hn, hcase, hfirst⟩ := ih i h
        refine ⟨n, hn, hcase, fun hid hbefore => hfirst hid ?_⟩
        intro j p hj hp
        exact hbefore (j + 1) p (Nat.succ_lt_succ hj) (by simpa using hp)

/-- What one default rule adds: nothing when the array has a rule with its ID, and otherwise
itself, at the end; afterwards the array has a rule with its ID, conditions and actions. -/
theorem mergeDefault_added (override : PushRule) (globalOverrides : List PushRule) :
    ((mergeDefault globalOverrides override).length = globalOverrides.length ∨
      ((∀ p ∈ globalOverrides, p.rule_id ≠ override.rule_id) ∧
        mergeDefault globalOverrides override = globalOverrides ++ [override])) ∧
      ∃ n ∈ mergeDefault globalOverrides override, n.rule_id = override.rule_id ∧
        n.default = override.default ∧ n.conditions = override.conditions ∧
        n.actions = override.actions := by
  induction globalOverrides with
  | nil => exact ⟨Or.inr ⟨by simp, rfl⟩, override, by simp [mergeDefault], rfl, rfl, rfl, rfl⟩
  | cons r rest ih =>
    rw [mergeDefault_eq]
    by_cases hr : r.rule_id = override.rule_id
    · simp only [hr, if_true]
      exact ⟨Or.inl rfl, copyDefault r override, by simp, hr, rfl, rfl, rfl⟩
    · simp only [hr, if_false]
      obtain ⟨hlen, n, hn, hprops⟩ := ih
      refine ⟨?_, n, List.mem_cons_of_mem _ hn, hprops⟩
      rcases hlen with hlen | ⟨hnone, happ⟩
      · exact Or.inl (by simp [hlen])
      · refine Or.inr ⟨?_, by rw [happ]; rfl⟩
        intro p hp
        rcases List.mem_cons.mp hp with rfl | hp
        · exact hr
        · exact hnone p hp

theorem mergeDefault_back (override : PushRule) (globalOverrides : List PushRule) (j : Nat)
    (p : PushRule) (hj : j < globalOverrides.length)
    (h : (mergeDefault globalOverrides override)[j]? = some p) :
    ∃ o, globalOverrides[j]? = some o ∧ p.rule_id = o.rule_id := by
  have ho : globalOverrides[j]? = some (globalOverrides[j]) := List.getElem?_eq_getElem hj
  obtain ⟨n, hn, hcase, -⟩ := mergeDefault_kept override globalOverrides j _ ho
  rw [hn] at h
  cases h
  refine ⟨_, ho, ?_⟩
  rcases hcase with rfl | ⟨-, rfl⟩ <;> rfl

theorem mergeDefault_beyond (override : PushRule) (globalOverrides : List PushRule) (i : Nat)
    (n : PushRule) (hi : globalOverrides.length ≤ i)
    (h : (mergeDefault globalOverrides override)[i]? = some n) :
    n = override ∧ ∀ p ∈ globalOverrides, p.rule_id ≠ override.rule_id := by
  rcases (mergeDefault_added override globalOverrides).1 with hlen | ⟨hnone, happ⟩
  · have : i < (mergeDefault globalOverrides override).length := by
      by_contra hc
      rw [List.getElem?_eq_none (Nat.le_of_not_lt hc)] at h
      cases h
    omega
  · rw [happ] at h
    by_cases hlt : i < globalOverrides.length + 1
    · have hi2 : i = globalOverrides.length := by omega
      subst hi2
      simp at h
      exact ⟨h.symm, hnone⟩
    · rw [List.getElem?_eq_none (by simp; omega)] at h
      cases h

/-- C21: in the result of `rewriteDefaultRules`, `global.override` is an array in which every
incoming override rule keeps its place, its ID, its `enabled` and its `pattern`, and is
unchanged when its ID is not the ID of a default rule; the first incoming rule with the ID of
a default rule carries the `default`, the conditions and the actions of that default and its
incoming `enabled`; what follows the incoming rules are default rules whose ID no incoming
rule has; each default ID has a rule with the default conditions and actions; and the rules
of the other kinds are the incoming ones. -/
theorem rewriteDefaultRules_spec (incomingRules : Option IncomingPushRules) :
    ∃ overrides : List PushRule,
      (rewriteDefaultRules incomingRules).global.override = some overrides ∧
      (∀ d ∈ DEFAULT_OVERRIDE_RULES, ∃ n ∈ overrides, n.rule_id = d.rule_id ∧
        n.default = d.default ∧ n.conditions = d.conditions ∧ n.actions = d.actions) ∧
      (∀ (i : Nat) (o : PushRule), (incomingOverrides incomingRules)[i]? = some o →
        ∃ n : PushRule, overrides[i]? = some n ∧ n.rule_id = o.rule_id ∧ n.enabled = o.enabled ∧
          n.pattern = o.pattern ∧
          ((∀ d ∈ DEFAULT_OVERRIDE_RULES, d.rule_id ≠ o.rule_id) → n = o)) ∧
      (∀ d ∈ DEFAULT_OVERRIDE_RULES, ∀ (i : Nat) (o : PushRule),
        (incomingOverrides incomingRules)[i]? = some o → o.rule_id = d.rule_id →
        (∀ (j : Nat) (p : PushRule), j < i → (incomingOverrides incomingRules)[j]? = some p →
          p.rule_id ≠ d.rule_id) →
        overrides[i]? = some (copyDefault o d)) ∧
      (∀ (i : Nat) (n : PushRule), (incomingOverrides incomingRules).length ≤ i →
        overrides[i]? = some n →
        n ∈ DEFAULT_OVERRIDE_RULES ∧
          ∀ o ∈ incomingOverrides incomingRules, o.rule_id ≠ n.rule_id) ∧
      (∀ kind, kind ≠ PushRuleKind.Override →
        (rewriteDefaultRules incomingRules).global.get kind = incomingKind incomingRules kind) := by
  obtain ⟨tombstone, reaction, hdefaults, htid, hrid⟩ :
      ∃ tombstone reaction : PushRule, DEFAULT_OVERRIDE_RULES = [tombstone, reaction] ∧
        tombstone.rule_id = ".m.rule.tombstone" ∧ reaction.rule_id = ".m.rule.reaction" :=
    ⟨_, _, rfl, rfl, rfl⟩
  have hne : tombstone.rule_id ≠ reaction.rule_id := by rw [htid, hrid]; decide
  have hover : (rewriteDefaultRules incomingRules).global.override =
      some (mergeDefault (mergeDefault (incomingOverrides incomingRules) tombstone) reaction) := by
    unfold rewriteDefaultRules incomingOverrides
    rw [hdefaults]
    cases incomingRules with
    | none => rfl
    | some rules =>
      cases hg : rules.global with
      | none => simp [hg]
      | some global => simp [hg]
  generalize incomingOverrides incomingRules = old at hover ⊢
  refine ⟨_, hover, ?_, ?_, ?_, ?_, ?_⟩
  · intro d hd
    rw [hdefaults] at hd
    simp only [List.mem_cons, List.mem_singleton, List.not_mem_nil, or_false] at hd
    rcases hd with rfl | rfl
    · obtain ⟨n, hn, hid, hprops⟩ := (mergeDefault_added d old).2
      obtain ⟨i, hi⟩ := List.getElem?_of_mem hn
      obtain ⟨n2, hn2, hcase, -⟩ := mergeDefault_kept reaction _ i n hi
      rcases hcase with rfl | ⟨hbad, -⟩
      · exact ⟨n2, List.getElem?_mem hn2, hid, hprops⟩
      · exact absurd (hid.symm.trans hbad) hne
    · exact (mergeDefault_added d _).2
  · intro i o ho
    obtain ⟨n1, hn1, hcase1, -⟩ := mergeDefault_kept tombstone old i o ho
    obtain ⟨n2, hn2, hcase2, -⟩ := mergeDefault_kept reaction _ i n1 hn1
    refine ⟨n2, hn2, ?_, ?_, ?_, ?_⟩
    · rcases hcase1 with rfl | ⟨-, rfl⟩ <;> rcases hcase2 with rfl | ⟨-, rfl⟩ <;> rfl
    · rcases hcase1 with rfl | ⟨-, rfl⟩ <;> rcases hcase2 with rfl | ⟨-, rfl⟩ <;> rfl
    · rcases hcase1 with rfl | ⟨-, rfl⟩ <;> rcases hcase2 with rfl | ⟨-, rfl⟩ <;> rfl
    · intro hnot
      have h1 : o.rule_id ≠ tombstone.rule_id :=
        fun h => hnot tombstone (by rw [hdefaults]; simp) h.symm
      have h2 : o.rule_id ≠ reaction.rule_id :=
        fun h => hnot reaction (by rw [hdefaults]; simp) h.symm
      rcases hcase1 with rfl | ⟨hbad, -⟩
      · rcases hcase2 with rfl | ⟨hbad, -⟩
        · rfl
        · exact absurd hbad h2
      · exact absurd hbad h1
  · intro d hd i o ho hid hfirst
    rw [hdefaults] at hd
    simp only [List.mem_cons, List.mem_singleton, List.not_mem_nil, or_false] at hd
    rcases hd with rfl | rfl
    · obtain ⟨n1, hn1, -, hfirst1⟩ := mergeDefault_kept d old i o ho
      have h1 := hfirst1 hid hfirst
      subst h1
      obtain ⟨n2, hn2, hcase2, -⟩ := mergeDefault_kept reaction _ i _ hn1
      rcases hcase2 with rfl | ⟨hbad, -⟩
      · exact hn2
      · exact absurd (hid.symm.trans hbad) hne
    · obtain ⟨n1, hn1, hcase1, -⟩ := mergeDefault_kept tombstone old i o ho
      have h1 : n1 = o := by
        rcases hcase1 with rfl | ⟨hbad, -⟩
        · rfl
        · exact absurd (hbad.symm.trans hid) hne
      subst h1
      obtain ⟨n2, hn2, -, hfirst2⟩ := mergeDefault_kept d _ i n1 hn1
      rw [hn2, hfirst2 hid ?_]
      intro j p hj hp
      have hjlen : j < old.length := by
        have : i < old.length := by
          by_contra hc
          rw [List.getElem?_eq_none (Nat.le_of_not_lt hc)] at ho
          cases ho
        omega
      obtain ⟨o2, ho2, hpid⟩ := mergeDefault_back tombstone old j p hjlen hp
      rw [hpid]
      exact hfirst j o2 hj ho2
  · intro i n hi hn
    by_cases hlen : (mergeDefault old tombstone).length ≤ i
    · obtain ⟨rfl, hnone⟩ := mergeDefault_beyond reaction _ i n hlen hn
      refine ⟨by rw [hdefaults]; simp, ?_⟩
      intro o ho
      obtain ⟨k, hk⟩ := List.getElem?_of_mem ho
      obtain ⟨n1, hn1, hcase1, -⟩ := mergeDefault_kept tombstone old k o hk
      have := hnone n1 (List.getElem?_mem hn1)
      rcases hcase1 with rfl | ⟨-, rfl⟩ <;> exact this
    · have hi2 : i < (mergeDefault old tombstone).length := Nat.lt_of_not_le hlen
      have h1 : (mergeDefault old tombstone)[i]? = some ((mergeDefault old tombstone)[i]) :=
        List.getElem?_eq_getElem hi2
      obtain ⟨rfl0, hnone⟩ := mergeDefault_beyond tombstone old i _ hi h1
      obtain ⟨n2, hn2, hcase2, -⟩ := mergeDefault_kept reaction _ i _ h1
      rw [hn2] at hn
      cases hn
      rcases hcase2 with h2 | ⟨hbad, -⟩
      · rw [h2, rfl0]
        exact ⟨by rw [hdefaults]; simp, hnone⟩
      · rw [rfl0] at hbad
        exact absurd hbad hne
  · intro kind hkind
    unfold rewriteDefaultRules incomingKind
    cases incomingRules with
    | none => cases kind <;> first | exact absurd rfl hkind | rfl
    | some rules =>
      cases hg : rules.global with
      | none => cases kind <;> first | exact absurd rfl hkind | (simp [hg, PushRuleSet.get])
      | some global => cases kind <;> first | exact absurd rfl hkind | (simp [hg, PushRuleSet.get])

/-- Witness for `rewriteDefaultRules_spec`: the server declares the reaction rule, disabled,
as the second of three override rules; in the result the second rule is still the reaction
rule, still disabled, with the conditions and the actions of the default. -/
theorem rewriteDefaultRules_spec_witness :
    ∃ overrides : List PushRule,
      (rewriteDefaultRules (some incomingSample)).global.override = some overrides ∧
      overrides[1]? =
        some
          { rule_id := ".m.rule.reaction", default := true, enabled := false,
            conditions := reactionRule.conditions, actions := reactionRule.actions,
            pattern := none } :=
  (rewriteDefaultRules_spec (some incomingSample)).elim fun overrides h =>
    ⟨overrides, h.1,
      h.2.2.2.1 reactionRule (by simp [DEFAULT_OVERRIDE_RULES]) 1 _ rfl rfl
        (by
          intro j p hj hp
          have hj0 : j = 0 := by omega
          subst hj0
          cases hp
          decide)⟩

/-! ## C22: the shape of the result of `actionsForEvent` -/

theorem pushActions_of_none (client : Client) (cache : RegexCache) (ev : MatrixEvent)
    (rulesets : Option PushRules)
    (h : (matchingRuleForEventWithRulesets client cache ev rulesets).1 = none) :
    (pushActionsForEventAndRulesets client cache ev rulesets).1 =
      { notify := none, tweaks := none } := by
  simp only [pushActionsForEventAndRulesets, h]

theorem actionsOfRule_shape (rule : PushRule) (kind : PushRuleKind) :
    ∃ tweaks, actionsOfRule rule kind =
        { notify := some (actionListToActionsObject rule.actions).notify, tweaks := some tweaks } ∧
      tweaks "highlight" =
        some (((actionListToActionsObject rule.actions).tweaks "highlight").getD
          (Json.bool (decide (kind = PushRuleKind.ContentSpecific)))) ∧
      ∀ name, name ≠ "highlight" →
        tweaks name = (actionListToActionsObject rule.actions).tweaks name := by
  cases h : (actionListToActionsObject rule.actions).tweaks "highlight" with
  | none =>
    refine ⟨Function.update (actionListToActionsObject rule.actions).tweaks "highlight"
      (some (Json.bool (decide (kind = PushRuleKind.ContentSpecific)))), ?_, ?_, ?_⟩
    · simp only [actionsOfRule, h]
    · simp
    · intro name hname
      simp [Function.update, hname]
  | some v =>
    refine ⟨(actionListToActionsObject rule.actions).tweaks, ?_, ?_, fun _ _ => rfl⟩
    · simp only [actionsOfRule, h]
    · simp [h]

theorem pushActions_of_some (client : Client) (cache : RegexCache) (ev : MatrixEvent)
    (rulesets : Option PushRules) (rule : PushRule) (kind : PushRuleKind)
    (h : (matchingRuleForEventWithRulesets client cache ev rulesets).1 = some (rule, kind)) :
    (pushActionsForEventAndRulesets client cache ev rulesets).1 = actionsOfRule rule kind := by
  simp only [pushActionsForEventAndRulesets, h]

/-- When a rule matches, `actionsForEvent` returns an object with a boolean `notify` and a
map `tweaks` in which `highlight` is defined. -/
theorem actionsForEvent_of_match (client : Client) (cache : RegexCache) (ev : MatrixEvent)
    (rule : PushRule) (kind : PushRuleKind)
    (h : (matchingRuleForEventWithRulesets client cache ev client.pushRules).1
      = some (rule, kind)) :
    ∃ (notify : Bool) (tweaks : String → Option Json),
      (actionsForEvent client cache ev).1 = { notify := some notify, tweaks := some tweaks } ∧
      notify = (actionListToActionsObject rule.actions).notify ∧
      tweaks "highlight" ≠ none := by
  obtain ⟨tweaks, heq, hhigh, -⟩ := actionsOfRule_shape rule kind
  refine ⟨_, tweaks, ?_, rfl, by rw [hhigh]; simp⟩
  unfold actionsForEvent
  rw [pushActions_of_some client cache ev _ rule kind h, heq]

/-- C22 fails on the code: `actionsForEvent` is documented to return a `PushAction`, an
object with a boolean `notify` and an object `tweaks`, but for an event of the evaluating
user, and for an event no rule matches, it returns the empty object, which has neither
`notify` nor `tweaks`. -/
theorem actionsForEvent_empty_counterexample :
    (actionsForEvent { sampleClient with pushRules := some sampleRules } emptyCache
        (messageFrom "@me:hs")).1 = { notify := none, tweaks := none } ∧
      (actionsForEvent
        { sampleClient with
          pushRules :=
            some
              { global :=
                  { override := none, content := none, room := none, sender := none,
                    underride := none } } }
        emptyCache (messageFrom "@a:hs")).1 = { notify := none, tweaks := none } :=
  ⟨rfl, rfl⟩

/-! ## C23: the actions object -/

theorem actionList_foldl_notify (actionList : List PushRuleAction) (start : ActionsObject) :
    (actionList.foldl
      (fun actionObj action =>
        match action with
        | PushRuleAction.name action =>
          if action = "notify" then { actionObj with notify := true } else actionObj
        | PushRuleAction.tweak set_tweak value =>
          { actionObj with
            tweaks :=
              Function.update actionObj.tweaks set_tweak (some (value.getD (Json.bool true))) })
      start).notify = true ↔
      start.notify = true ∨ PushRuleAction.name "notify" ∈ actionList := by
  induction actionList generalizing start with
  | nil => simp
  | cons action actionList ih =>
    rw [List.foldl_cons, ih]
    cases action with
    | name action =>
      by_cases h : action = "notify"
      · subst h; simp
      · simp [h, Ne.symm h]
    | tweak set_tweak value => simp

theorem actionListToActionsObject_snoc (actionList : List PushRuleAction)
    (action : PushRuleAction) :
    actionListToActionsObject (actionList ++ [action]) =
      match action with
      | PushRuleAction.name action =>
        if action = "notify" then { actionListToActionsObject actionList with notify := true }
        else actionListToActionsObject actionList
      | PushRuleAction.tweak set_tweak value =>
        { actionListToActionsObject actionList with
          tweaks :=
            Function.update (actionListToActionsObject actionList).tweaks set_tweak
              (some (value.getD (Json.bool true))) } := by
  unfold actionListToActionsObject
  rw [List.foldl_append]
  rfl

theorem actionListToActionsObject_tweaks (actionList : List PushRuleAction) (name : String) :
    (actionListToActionsObject actionList).tweaks name = lastTweak name actionList := by
  induction actionList using List.reverseRecOn with
  | nil => rfl
  | append_singleton actionList action ih =>
    rw [actionListToActionsObject_snoc]
    unfold lastTweak at ih ⊢
    rw [List.filterMap_append]
    cases action with
    | name action =>
      simp only [List.filterMap_cons, List.filterMap_nil, List.append_nil]
      split <;> exact ih
    | tweak set_tweak value =>
      by_cases h : set_tweak = name
      · subst h
        simp [List.filterMap_cons]
      · simp only [List.filterMap_cons, h, if_false, List.filterMap_nil, List.append_nil]
        rw [← ih]
        simp [Function.update, Ne.symm h]

/-- C23: `actionListToActionsObject` returns `notify = true` exactly when the list contains the
action `notify`, and `tweaks` maps each name to the value of the last action that sets it, a
missing value read as `true`; the example of the documentation gives `notify: true` and the
single tweak `sound: 'default'`. When a rule matches, the tweaks of the result define
`highlight`: the rule's own value when it sets one, and otherwise `true` exactly for a rule of
the kind content; the other tweaks are the ones of the rule. -/
theorem actionListToActionsObject_spec (actionList : List PushRuleAction) :
    ((actionListToActionsObject actionList).notify = true ↔
      PushRuleAction.name "notify" ∈ actionList) ∧
    (∀ name, (actionListToActionsObject actionList).tweaks name = lastTweak name actionList) ∧
    ((actionListToActionsObject
        [PushRuleAction.name "notify",
         PushRuleAction.tweak "sound" (some (Json.str "default"))]).notify = true ∧
      ∀ name,
        (actionListToActionsObject
          [PushRuleAction.name "notify",
           PushRuleAction.tweak "sound" (some (Json.str "default"))]).tweaks name =
          if name = "sound" then some (Json.str "default") else none) ∧
    (∀ client cache ev rulesets rule kind,
      (matchingRuleForEventWithRulesets client cache ev rulesets).1 = some (rule, kind) →
      rule.actions = actionList →
      ∃ tweaks, (pushActionsForEventAndRulesets client cache ev rulesets).1.tweaks = some tweaks ∧
        tweaks "highlight" =
          some ((lastTweak "highlight" actionList).getD
            (Json.bool (decide (kind = PushRuleKind.ContentSpecific)))) ∧
        ∀ name, name ≠ "highlight" → tweaks name = lastTweak name actionList) := by
  refine ⟨?_, actionListToActionsObject_tweaks actionList, ⟨rfl, ?_⟩, ?_⟩
  · unfold actionListToActionsObject
    rw [actionList_foldl_notify]
    simp
  · intro name
    rw [actionListToActionsObject_tweaks]
    by_cases h : name = "sound"
    · subst h; rfl
    · simp [lastTweak, h, Ne.symm h]
  · intro client cache ev rulesets rule kind hmatch hactions
    obtain ⟨tweaks, heq, hhigh, hother⟩ := actionsOfRule_shape rule kind
    rw [pushActions_of_some client cache ev rulesets rule kind hmatch, heq]
    refine ⟨tweaks, rfl, ?_, ?_⟩
    · rw [hhigh, actionListToActionsObject_tweaks, hactions]
    · intro name hname
      rw [hother name hname, actionListToActionsObject_tweaks, hactions]

/-- Witness for `actionListToActionsObject_spec`: a `dont_notify` after `notify` leaves
`notify` true. -/
theorem actionListToActionsObject_spec_witness :
    (actionListToActionsObject
      [PushRuleAction.name "notify", PushRuleAction.name "dont_notify"]).notify = true :=
  (actionListToActionsObject_spec
    [PushRuleAction.name "notify", PushRuleAction.name "dont_notify"]).1.mpr (by simp)

/-! ## C27: the cache of regular expressions -/

/-- C27 fails on the code: the cache is keyed by the glob alone, so the expression compiled
for a glob under one pair of prefix and suffix is returned for the same glob under every other
pair. The pattern `hello` under the key `content.topic` does not match the text `hello world`
with an empty cache, and matches it once the same pattern has been evaluated under the key
`content.body`. -/
theorem cached_regex_depends_on_history :
    (∀ (client : Client) (cache : RegexCache) (before1 after1 before2 after2 glob : String),
      cache glob = none →
      (createCachedRegex client (createCachedRegex client cache before1 glob after1).2
        before2 glob after2).1 = before1 ++ client.globToRegexp glob ++ after1) ∧
    (eventFulfillsEventMatchCondition wordClient emptyCache
      (matchCondition "content.topic" "hello") helloWorld).1 = false ∧
    (eventFulfillsEventMatchCondition wordClient emptyCache
      (matchCondition "content.body" "hello") helloWorld).1 = true ∧
    (eventFulfillsEventMatchCondition wordClient
      (eventFulfillsEventMatchCondition wordClient emptyCache
        (matchCondition "content.body" "hello") helloWorld).2
      (matchCondition "content.topic" "hello") helloWorld).1 = true := by
  refine ⟨?_, by decide, by decide, by decide⟩
  intro client cache before1 after1 before2 after2 glob h
  simp [createCachedRegex, h]

end PushProcessor

namespace HttpApi

/-! ## C24: retrying a network operation -/

theorem retryLoop_calls {α : Type} (callback : Nat → Outcome α) (remaining attempts : Nat)
    (last : Option JsError) :
    ((retryLoop callback remaining attempts last).1.filter Action.isCall).length ≤ remaining := by
  induction remaining generalizing attempts last with
  | zero => simp [retryLoop]
  | succ remaining ih =>
    unfold retryLoop
    cases hc : callback attempts with
    | resolved value => by_cases h : attempts > 0 <;> simp [h, Action.isCall]
    | rejected err =>
      cases he : err.isConnectionError with
      | false => by_cases h : attempts > 0 <;> simp [h, he, Action.isCall]
      | true =>
        have := ih (attempts + 1) (some err)
        by_cases h : attempts > 0 <;> simp [h, he, Action.isCall] <;> omega

/-- The loop stops at the first call that does not fail with a `ConnectionError`. -/
theorem retryLoop_stops {α : Type} (callback : Nat → Outcome α) (k remaining attempts : Nat)
    (last : Option JsError) (hk : k < remaining)
    (hfail : ∀ i, i < k → failsWithConnectionError (callback (attempts + i)) = true)
    (hstop : failsWithConnectionError (callback (attempts + k)) = false) :
    retryLoop callback remaining attempts last =
      (expectedFrom attempts (k + 1), resultOf (callback (attempts + k))) := by
  induction k generalizing remaining attempts last with
  | zero =>
    obtain ⟨r, rfl⟩ : ∃ r, remaining = r + 1 := ⟨remaining - 1, by omega⟩
    unfold retryLoop
    simp only [Nat.add_zero] at hstop ⊢
    cases hc : callback attempts with
    | resolved value =>
      by_cases h : attempts > 0 <;> simp [h, expectedFrom, resultOf]
    | rejected err =>
      rw [hc] at hstop
      simp only [failsWithConnectionError] at hstop
      by_cases h : attempts > 0 <;> simp [h, hstop, expectedFrom, resultOf]
  | succ k ih =>
    obtain ⟨r, rfl⟩ : ∃ r, remaining = r + 1 := ⟨remaining - 1, by omega⟩
    have h0 := hfail 0 (Nat.succ_pos k)
    simp only [Nat.add_zero] at h0
    have hrest := ih r (attempts + 1) (match callback attempts with
        | Outcome.rejected err => some err
        | Outcome.resolved _ => last) (by omega)
      (fun i hi => by
        have := hfail (i + 1) (by omega)
        rwa [show attempts + (i + 1) = attempts + 1 + i by omega] at this)
      (by rwa [show attempts + (k + 1) = attempts + 1 + k by omega] at hstop)
    unfold retryLoop
    cases hc : callback attempts with
    | resolved value => rw [hc] at h0; simp [failsWithConnectionError] at h0
    | rejected err =>
      rw [hc] at h0 hrest
      simp only [failsWithConnectionError] at h0
      simp only [h0, if_true, hrest]
      rw [show attempts + 1 + k = attempts + (k + 1) by omega]
      by_cases h : attempts > 0 <;> simp [h, expectedFrom]

/-- When every call fails with a `ConnectionError`, the loop makes them all and throws the
error of the last one. -/
theorem retryLoop_exhausted {α : Type} (callback : Nat → Outcome α) (remaining attempts : Nat)
    (last : Option JsError)
    (hfail : ∀ i, i < remaining + 1 → failsWithConnectionError (callback (attempts + i)) = true) :
    ∃ err, callback (attempts + remaining) = Outcome.rejected err ∧
      err.isConnectionError = true ∧
      retryLoop callback (remaining + 1) attempts last =
        (expectedFrom attempts (remaining + 1), Except.error (some err)) := by
  induction remaining generalizing attempts last with
  | zero =>
    have h0 := hfail 0 (by omega)
    simp only [Nat.add_zero] at h0 ⊢
    cases hc : callback attempts with
    | resolved value => rw [hc] at h0; simp [failsWithConnectionError] at h0
    | rejected err =>
      rw [hc] at h0
      simp only [failsWithConnectionError] at h0
      refine ⟨err, rfl, h0, ?_⟩
      unfold retryLoop
      by_cases h : attempts > 0 <;> simp [h, h0, hc, expectedFrom, retryLoop]
  | succ remaining ih =>
    have h0 := hfail 0 (by omega)
    simp only [Nat.add_zero] at h0
    cases hc : callback attempts with
    | resolved value => rw [hc] at h0; simp [failsWithConnectionError] at h0
    | rejected err0 =>
      rw [hc] at h0
      simp only [failsWithConnectionError] at h0
      obtain ⟨err, herr, hconn, hrun⟩ := ih (attempts + 1) (some err0)
        (fun i hi => by
          have := hfail (i + 1) (by omega)
          rwa [show attempts + (i + 1) = attempts + 1 + i by omega] at this)
      refine ⟨err, by rwa [show attempts + (remaining + 1) = attempts + 1 + remaining by omega],
        hconn, ?_⟩
      rw [retryLoop]
      simp only [hc, h0, if_true, hrun]
      by_cases h : attempts > 0 <;> simp [h, expectedFrom]

/-- C24: for `maxAttempts` at least 1, `retryNetworkOperation` calls the callback at most
`maxAttempts` times. When call `k` (after `k` calls that failed with a `ConnectionError`) is
the first that resolves or fails with another error, the run is the calls up to that one, each
call after `j` failures preceded by a wait of `1000 * 2 ^ j` milliseconds, and the result is
the value of that call or the error it fails with. When all `maxAttempts` calls fail with a
`ConnectionError`, the run is those calls and the error thrown is that of the last call. -/
theorem retryNetworkOperation_spec {α : Type} (maxAttempts : Nat) (callback : Nat → Outcome α)
    (hmax : 1 ≤ maxAttempts) :
    ((retryNetworkOperation maxAttempts callback).1.filter Action.isCall).length ≤ maxAttempts ∧
    (∀ k, k < maxAttempts → (∀ i, i < k → failsWithConnectionError (callback i) = true) →
      failsWithConnectionError (callback k) = false →
      retryNetworkOperation maxAttempts callback =
        (expectedActions (k + 1), resultOf (callback k))) ∧
    ((∀ i, i < maxAttempts → failsWithConnectionError (callback i) = true) →
      ∃ err, callback (maxAttempts - 1) = Outcome.rejected err ∧ err.isConnectionError = true ∧
        retryNetworkOperation maxAttempts callback =
          (expectedActions maxAttempts, Except.error (some err))) := by
  refine ⟨retryLoop_calls callback maxAttempts 0 none, ?_, ?_⟩
  · intro k hk hfail hstop
    have := retryLoop_stops callback k maxAttempts 0 none hk
      (fun i hi => by simpa using hfail i hi) (by simpa using hstop)
    simpa [retryNetworkOperation, expectedActions] using this
  · intro hfail
    obtain ⟨r, rfl⟩ : ∃ r, maxAttempts = r + 1 := ⟨maxAttempts - 1, by omega⟩
    obtain ⟨err, herr, hconn, hrun⟩ := retryLoop_exhausted callback r 0 none
      (fun i hi => by simpa using hfail i hi)
    exact ⟨err, by simpa using herr, hconn, by simpa [retryNetworkOperation, expectedActions] using hrun⟩

/-- Witness for `retryNetworkOperation_spec`: with three attempts, a callback that fails twice
with a connection error and then resolves is called three times, after waits of 2000 and 4000
milliseconds, and its value is returned. -/
theorem retryNetworkOperation_spec_witness :
    1 ≤ 3 ∧
      retryNetworkOperation 3 flakyCallback =
        ([Action.call 0, Action.wait 2000, Action.call 1, Action.wait 4000, Action.call 2],
          Except.ok 7) :=
  ⟨by decide,
    ((retryNetworkOperation_spec 3 flakyCallback (by decide)).2.1 2 (by decide)
      (fun i hi => by
        have : i = 0 ∨ i = 1 := by omega
        rcases this with rfl | rfl <;> rfl)
      rfl).trans rfl⟩

end HttpApi

namespace FilterComponent

/-! ## C25: filter components -/

theorem take_eq_iff_append (text stem : List Char) :
    text.take stem.length = stem ↔ ∃ rest, text = stem ++ rest := by
  constructor
  · intro h
    have := List.take_append_drop stem.length text
    rw [h] at this
    exact ⟨text.drop stem.length, this.symm⟩
  · rintro ⟨rest, rfl⟩
    simp

theorem matchesWildcard_iff (actualValue filterValue : String) :
    matchesWildcard actualValue filterValue = true ↔ TypeMatches actualValue filterValue := by
  unfold matchesWildcard TypeMatches
  by_cases h : filterValue.data.getLast? = some '*'
  · simp only [h, if_true, decide_eq_true_eq, ne_eq, not_true_eq_false, false_and, or_false]
    have hsplit : filterValue.data = filterValue.data.dropLast ++ ['*'] := by
      have := List.dropLast_append_getLast? '*' (by simpa using h)
      exact this.symm
    rw [take_eq_iff_append]
    constructor
    · intro hr
      exact ⟨_, hsplit, hr⟩
    · rintro ⟨stem, hstem, hr⟩
      have : filterValue.data.dropLast = stem := by rw [hstem]; simp
      rw [this]
      exact hr
  · simp only [h, if_false, decide_eq_true_eq, ne_eq, not_false_eq_true, true_and]
    constructor
    · exact Or.inr
    · rintro (⟨stem, hstem, -⟩ | hr)
      · exact absurd (by rw [hstem]; simp) h
      · exact hr

theorem checkLiteralKeys_cons (filterJson : FilterJson) (name : String)
    (matchFunc : String → Bool) (rest : List (String × (String → Bool))) :
    checkLiteralKeys filterJson ((name, matchFunc) :: rest) = true ↔
      (∀ values, filterJson.get ("not_" ++ name) = some values →
        ∀ v ∈ values, matchFunc v = false) ∧
      (∀ values, filterJson.get name = some values → ∃ v ∈ values, matchFunc v = true) ∧
      checkLiteralKeys filterJson rest = true := by
  simp only [checkLiteralKeys]
  cases hd : filterJson.get ("not_" ++ name) with
  | none =>
    cases ha : filterJson.get name with
    | none => simp
    | some allowed => simp
  | some disallowed =>
    have hdis : disallowed.any matchFunc = true ↔ ¬ ∀ v ∈ disallowed, matchFunc v = false := by
      rw [List.any_eq_true]
      constructor
      · rintro ⟨v, hv, hm⟩ hall
        rw [hall v hv] at hm
        cases hm
      · intro hn
        by_contra hc
        apply hn
        intro v hv
        cases hm : matchFunc v with
        | false => rfl
        | true => exact absurd ⟨v, hv, hm⟩ hc
    cases ha : filterJson.get name with
    | none =>
      by_cases h : ∀ v ∈ disallowed, matchFunc v = false
      · have h2 : ¬ disallowed.any matchFunc = true := fun hc => hdis.mp hc h
        simp only [h2, if_false, Option.some.injEq, forall_eq', Bool.false_eq_true]
        simp
        exact fun _ => h
      · have h2 : disallowed.any matchFunc = true := hdis.mpr h
        simp only [h2, if_true, Option.some.injEq, forall_eq']
        simp [h]
    | some allowed =>
      by_cases h : ∀ v ∈ disallowed, matchFunc v = false
      · have h2 : ¬ disallowed.any matchFunc = true := fun hc => hdis.mp hc h
        simp only [h2, if_false, Option.some.injEq, forall_eq', Bool.false_eq_true]
        simp
        exact fun _ _ _ _ => h
      · have h2 : disallowed.any matchFunc = true := hdis.mpr h
        simp only [h2, if_true, Option.some.injEq, forall_eq']
        simp [h]

/-- C25: `checkFields` returns true exactly when, for rooms, senders and types alike, no entry
of the `not_` list matches the value and, when the list of allowed values is present, one of
its entries matches, and `contains_url`, when it is defined, is the boolean `containsUrl`;
rooms and senders match by equality and types as `matchesWildcard` says, which is the matching
of the description. `filter` keeps the events that pass `check`, in their order. -/
theorem checkFields_spec (filterJson : FilterJson) (roomId sender eventType : String)
    (containsUrl : Bool) (events : List MatrixEvent) :
    (checkFields filterJson roomId sender eventType containsUrl = true ↔
      (∀ values, filterJson.not_rooms = some values → roomId ∉ values) ∧
      (∀ values, filterJson.rooms = some values → roomId ∈ values) ∧
      (∀ values, filterJson.not_senders = some values → sender ∉ values) ∧
      (∀ values, filterJson.senders = some values → sender ∈ values) ∧
      (∀ values, filterJson.not_types = some values →
        ∀ v ∈ values, ¬ TypeMatches eventType v) ∧
      (∀ values, filterJson.types = some values → ∃ v ∈ values, TypeMatches eventType v) ∧
      (∀ containsUrlFilter, filterJson.contains_url = some containsUrlFilter →
        containsUrlFilter = some containsUrl)) ∧
    (∀ actualValue filterValue,
      matchesWildcard actualValue filterValue = true ↔ TypeMatches actualValue filterValue) ∧
    ((filter filterJson events).Sublist events ∧
      (∀ event, event ∈ filter filterJson events ↔
        event ∈ events ∧ check filterJson event = true) ∧
      ∀ event, (filter filterJson events).count event =
        if check filterJson event = true then events.count event else 0) := by
  refine ⟨?_, matchesWildcard_iff, ?_, ?_, ?_⟩
  · have hkeys := checkLiteralKeys_cons filterJson "rooms" (fun v => decide (roomId = v))
      [("senders", fun v => decide (sender = v)),
       ("types", fun v => matchesWildcard eventType v)]
    have hkeys2 := checkLiteralKeys_cons filterJson "senders" (fun v => decide (sender = v))
      [("types", fun v => matchesWildcard eventType v)]
    have hkeys3 := checkLiteralKeys_cons filterJson "types"
      (fun v => matchesWildcard eventType v) []
    have g1 : filterJson.get ("not_" ++ "rooms") = filterJson.not_rooms := rfl
    have g2 : filterJson.get "rooms" = filterJson.rooms := rfl
    have g3 : filterJson.get ("not_" ++ "senders") = filterJson.not_senders := rfl
    have g4 : filterJson.get "senders" = filterJson.senders := rfl
    have g5 : filterJson.get ("not_" ++ "types") = filterJson.not_types := rfl
    have g6 : filterJson.get "types" = filterJson.types := rfl
    rw [g1, g2] at hkeys
    rw [g3, g4] at hkeys2
    rw [g5, g6] at hkeys3
    have hall : checkLiteralKeys filterJson (literalKeys roomId sender eventType) = true ↔
        (∀ values, filterJson.not_rooms = some values → roomId ∉ values) ∧
        (∀ values, filterJson.rooms = some values → roomId ∈ values) ∧
        (∀ values, filterJson.not_senders = some values → sender ∉ values) ∧
        (∀ values, filterJson.senders = some values → sender ∈ values) ∧
        (∀ values, filterJson.not_types = some values →
          ∀ v ∈ values, ¬ TypeMatches eventType v) ∧
        (∀ values, filterJson.types = some values → ∃ v ∈ values, TypeMatches eventType v) := by
      unfold literalKeys
      rw [hkeys, hkeys2, hkeys3]
      simp only [decide_eq_false_iff_not, decide_eq_true_eq, checkLiteralKeys, and_true,
        ← matchesWildcard_iff, Bool.not_eq_true]
      constructor
      · rintro ⟨h1, h2, h3, h4, h5, h6⟩
        refine ⟨?_, ?_, ?_, ?_, h5, h6⟩
        · intro values hv hm
          exact h1 values hv roomId hm rfl
        · intro values hv
          obtain ⟨v, hm, rfl⟩ := h2 values hv
          exact hm
        · intro values hv hm
          exact h3 values hv sender hm rfl
        · intro values hv
          obtain ⟨v, hm, rfl⟩ := h4 values hv
          exact hm
      · rintro ⟨h1, h2, h3, h4, h5, h6⟩
        refine ⟨?_, ?_, ?_, ?_, h5, h6⟩
        · intro values hv v hm heq
          exact h1 values hv (heq ▸ hm)
        · intro values hv
          exact ⟨roomId, h2 values hv, rfl⟩
        · intro values hv v hm heq
          exact h3 values hv (heq ▸ hm)
        · intro values hv
          exact ⟨sender, h4 values hv, rfl⟩
    unfold checkFields
    generalize checkLiteralKeys filterJson (literalKeys roomId sender eventType) = K at hall ⊢
    cases K with
    | false =>
      simp only [Bool.not_false, if_true, Bool.false_eq_true, false_iff]
      rintro ⟨h1, h2, h3, h4, h5, h6, -⟩
      exact absurd (hall.mpr ⟨h1, h2, h3, h4, h5, h6⟩) (by simp)
    | true =>
      obtain ⟨h1, h2, h3, h4, h5, h6⟩ := hall.mp rfl
      simp only [Bool.not_true, Bool.false_eq_true, if_false]
      cases hc : filterJson.contains_url with
      | none => exact ⟨fun _ => ⟨h1, h2, h3, h4, h5, h6, by simp⟩, fun _ => rfl⟩
      | some containsUrlFilter =>
        by_cases hu : containsUrlFilter = some containsUrl
        · simp only [hu, ne_eq, not_true_eq_false, if_false, true_iff]
          exact ⟨h1, h2, h3, h4, h5, h6, by simp⟩
        · simp only [hu, ne_eq, not_false_eq_true, if_true, Bool.false_eq_true, false_iff]
          rintro ⟨-, -, -, -, -, -, h7⟩
          exact hu (h7 containsUrlFilter rfl)
  · exact List.filter_sublist _
  · intro event
    simp [filter, List.mem_filter]
  · intro event
    unfold filter
    by_cases h : check filterJson event = true
    · rw [if_pos h, List.count_filter h]
    · rw [if_neg h]
      apply List.count_eq_zero_of_not_mem
      intro hm
      exact h (List.mem_filter.mp hm).2

/-- Witness for `checkFields_spec`: under the filter for room events that `@spam:hs` has not
sent, a message of `@a:hs` passes, and of three events the message of `@spam:hs` and the
event of another type are filtered out. -/
theorem checkFields_spec_witness :
    checkFields sampleFilter "!r:hs" "@a:hs" "m.room.message" false = true ∧
      filter sampleFilter
        [sampleEvent "@a:hs" "m.room.message", sampleEvent "@spam:hs" "m.room.message",
         sampleEvent "@a:hs" "m.reaction", sampleEvent "@b:hs" "m.room.topic"]
        = [sampleEvent "@a:hs" "m.room.message", sampleEvent "@b:hs" "m.room.topic"] :=
  ⟨(checkFields_spec sampleFilter "!r:hs" "@a:hs" "m.room.message" false []).1.mpr
      ⟨by simp [sampleFilter], by simp [sampleFilter], by simp [sampleFilter],
        by simp [sampleFilter], by simp [sampleFilter],
        by
          intro values hv
          cases hv
          exact ⟨"m.room.*", by simp, Or.inl ⟨"m.room.".data, rfl, "message".data, rfl⟩⟩,
        by simp [sampleFilter]⟩,
    by decide⟩

end FilterComponent

